import Mathlib

/-!
elsa-quiz-service: session engine, scoring and quiz cache

A shallow embedding of `internal/domain`, `internal/app/quiz_service.go`,
`internal/infra/memory/quiz_repository.go` and
`internal/infra/memory/session_store.go`.

Conventions of the embedding.

* Go `int` is a 64-bit two's-complement integer: values are `Int`, and every
  addition the code performs is `add64` (the sum wrapped into the 64-bit range).
* `time.Time` is an instant, an `Int`; `Equal`, `Before`, `After` are `=`, `<`, `>`.
  A call of a clock function is an explicit argument holding its reading.
* A Go `map[string]V` is an association list in some enumeration order; a
  pointer-valued map updated through the pointer is updated in place.
* A buffered channel is its identity, its capacity and the queue of values it
  holds (oldest first).  A send that would block for ever, no receiver being
  part of the model, is the result `none`.
* Multiple return values are structures with the fields of the Go tuple; the
  `error` is an `Option DomainError`, `none` for `nil`.
* Operations are first embedded as run without interleaving.  Where the order
  of steps of concurrent calls matters, the critical sections of the code are
  the steps of a step function (`subscribeRegister`/`subscribeEnqueue` for
  `subscribe`, `step` for `GetQuiz` with the single-flight group).
-/

namespace ElsaQuiz

/-! ## internal/domain -/

/-- The sentinel errors of `domain/errors.go`, and `other` for any backing-store
error that is passed through. -/
inductive DomainError where
  | ErrSessionNotFound
  | ErrParticipantNotFound
  | ErrQuizNotFound
  | ErrQuestionNotFound
  | ErrOptionNotFound
  | other (msg : String)
  deriving DecidableEq, Repr

/-- An instant (`time.Time`). -/
abbrev Time := Int

/-- Go `int`: wrap an integer into the 64-bit two's-complement range. -/
def wrap64 (x : Int) : Int := (x + 2 ^ 63) % 2 ^ 64 - 2 ^ 63

/-- Go `a + b` on `int`. -/
def add64 (a b : Int) : Int := wrap64 (a + b)

/-- The values a Go `int` can hold. -/
def inInt64 (x : Int) : Prop := -(2 ^ 63) ≤ x ∧ x < 2 ^ 63

/-- Go `a < b` on strings: lexicographic comparison. -/
def strLess (a b : String) : Bool := decide (a.toList < b.toList)

structure Participant where
  UserID : String
  DisplayName : String
  Score : Int
  LastUpdated : Time
  deriving DecidableEq, Repr

structure LeaderboardEntry where
  UserID : String
  DisplayName : String
  Score : Int
  deriving DecidableEq, Repr

structure Leaderboard where
  QuizID : String
  Entries : List LeaderboardEntry
  UpdatedAt : Time
  deriving DecidableEq, Repr

/-- The zero value `domain.Leaderboard{}`. -/
def Leaderboard.zero : Leaderboard := ⟨"", [], 0⟩

structure AnswerSubmission where
  QuestionID : String
  OptionID : String
  deriving DecidableEq, Repr

structure Option_ where
  ID : String
  Text : String
  Correct : Bool
  deriving DecidableEq, Repr

structure Question where
  ID : String
  Prompt : String
  Options : List Option_
  Points : Int
  deriving DecidableEq, Repr

structure Quiz where
  ID : String
  Questions : List Question
  deriving DecidableEq, Repr

/-- The zero value `domain.Quiz{}`. -/
def Quiz.zero : Quiz := ⟨"", []⟩

/-! ## Go maps as association lists -/

/-- The lookup `m[k]`: the value and `ok`. -/
def mapGet {β : Type} : List (String × β) → String → Option β
  | [], _ => none
  | (k', v) :: rest, k => if k' = k then some v else mapGet rest k

/-- The assignment `m[k] = v`: an existing key keeps its place, a new key is added. -/
def mapSet {β : Type} : List (String × β) → String → β → List (String × β)
  | [], k, v => [(k, v)]
  | (k', v') :: rest, k, v =>
    if k' = k then (k, v) :: rest else (k', v') :: mapSet rest k v

/-- The removal `delete(m, k)`. -/
def mapDelete {β : Type} (m : List (String × β)) (k : String) : List (String × β) :=
  m.filter (fun kv => kv.1 ≠ k)

/-! ## internal/app/quiz_service.go: scoreSubmission -/

/-- The three results of `scoreSubmission`. -/
structure ScoreResult where
  correct : Bool
  points : Int
  err : Option DomainError
  deriving DecidableEq, Repr

/-- The function `scoreSubmission`: the two loops stop at the first question, then the
first option, whose identifier matches. -/
def scoreSubmission (quiz : Quiz) (submission : AnswerSubmission) : ScoreResult :=
  match quiz.Questions.find? (fun q => q.ID = submission.QuestionID) with
  | none => ⟨false, 0, some .ErrQuestionNotFound⟩
  | some question =>
    match question.Options.find? (fun o => o.ID = submission.OptionID) with
    | none => ⟨false, 0, some .ErrOptionNotFound⟩
    | some selected =>
      let points := if question.Points = 0 then 1 else question.Points
      if selected.Correct then ⟨true, points, none⟩ else ⟨false, 0, none⟩

/-! ## internal/app/quiz_service.go: Session -/

/-- A subscriber channel `chan domain.Leaderboard`: its identity, its capacity and the
snapshots queued in it, oldest first. -/
structure Chan where
  id : Nat
  cap : Nat
  buf : List Leaderboard
  deriving DecidableEq, Repr

/-- The non-blocking send `select { case ch <- lb: ... default: ... }`: `none` is the
`default` branch.  The blocking send `ch <- lb` is the same function, `none` meaning
that the sender waits for a receiver. -/
def Chan.send (c : Chan) (lb : Leaderboard) : Option Chan :=
  if c.buf.length < c.cap then some { c with buf := c.buf ++ [lb] } else none

/-- The non-blocking receive `select { case <-ch: default: }`: the channel afterwards. -/
def Chan.drainOne (c : Chan) : Chan :=
  match c.buf with
  | [] => c
  | _ :: rest => { c with buf := rest }

/-- The receive `<-ch` of a consumer: the oldest snapshot and the channel afterwards,
`none` when the consumer would wait. -/
def Chan.recv (c : Chan) : Option (Leaderboard × Chan) :=
  match c.buf with
  | [] => none
  | lb :: rest => some (lb, { c with buf := rest })

/-- The type `Session`.  The clock `now` is not a field: each call of it is an
argument of the operation that makes the call. -/
structure Session where
  id : String
  createdAt : Time
  participants : List (String × Participant)
  subscribers : List Chan
  deriving DecidableEq, Repr

/-- The function `newSessionWithClock`; `now` is the reading of the clock. -/
def newSessionWithClock (id : String) (now : Time) : Session :=
  { id := id, createdAt := now, participants := [], subscribers := [] }

/-- The entry `snapshotLocked` builds from a participant. -/
def entryOf (p : Participant) : LeaderboardEntry :=
  { UserID := p.UserID, DisplayName := p.DisplayName, Score := p.Score }

/-- The comparison closure passed to `sort.Slice` in `snapshotLocked`. -/
def snapshotLess (participants : List (String × Participant))
    (ei ej : LeaderboardEntry) : Bool :=
  if ei.Score ≠ ej.Score then decide (ei.Score > ej.Score)
  else
    match mapGet participants ei.UserID, mapGet participants ej.UserID with
    | some pi, some pj =>
      if pi.LastUpdated ≠ pj.LastUpdated then decide (pi.LastUpdated < pj.LastUpdated)
      else strLess ei.DisplayName ej.DisplayName
    | _, _ => strLess ei.DisplayName ej.DisplayName

/-- The inner loop of the library's insertion sort,
`for j := i; j > a && less(j, j-1); j-- { swap(j, j-1) }`: the element `x` moves left
past every element it is less than.  The sorted prefix is held reversed, its last
element first. -/
def bubbleLeft {α : Type} (less : α → α → Bool) (x : α) : List α → List α
  | [] => [x]
  | y :: ys => if less x y then y :: bubbleLeft less x ys else x :: y :: ys

/-- The library call `sort.Slice(entries, less)`, as the insertion sort the library
runs on a slice of fewer than 12 elements: each element in turn moves left into the
sorted prefix.  (On longer slices the library runs pattern-defeating quicksort, which
gives a permutation ordered by the same `less`.) -/
def sortSlice {α : Type} (less : α → α → Bool) (l : List α) : List α :=
  (l.foldl (fun sortedRev x => bubbleLeft less x sortedRev) []).reverse

/-- The method `Session.snapshotLocked`; `now` is the reading of the clock for `UpdatedAt`. -/
def snapshotLocked (s : Session) (now : Time) : Leaderboard :=
  let entries := s.participants.map (fun kv => entryOf kv.2)
  { QuizID := s.id
    Entries := sortSlice (snapshotLess s.participants) entries
    UpdatedAt := now }

/-- The body of the loop of `broadcastLocked` for one channel: try to send; when the
buffer is full, drop one queued snapshot if there is one, then send. -/
def pushLocked (lb : Leaderboard) (c : Chan) : Option Chan :=
  match c.send lb with
  | some c1 => some c1
  | none => (c.drainOne).send lb

/-- The loop of `broadcastLocked` over the subscriber set. -/
def pushAll (lb : Leaderboard) : List Chan → Option (List Chan)
  | [] => some []
  | c :: cs =>
    match pushLocked lb c with
    | none => none
    | some c1 =>
      match pushAll lb cs with
      | none => none
      | some cs1 => some (c1 :: cs1)

/-- The method `Session.broadcastLocked`: the snapshot and the session afterwards;
`none` when a send waits for a receiver. -/
def broadcastLocked (s : Session) (now : Time) : Option (Leaderboard × Session) :=
  let lb := snapshotLocked s now
  match pushAll lb s.subscribers with
  | none => none
  | some subs => some (lb, { s with subscribers := subs })

/-- The participant table after the first part of `Session.join`: an existing
participant gets the new display name and timestamp, an unseen user id is added with
score 0. -/
def joinTable (participants : List (String × Participant)) (now : Time)
    (userID displayName : String) : List (String × Participant) :=
  match mapGet participants userID with
  | some participant =>
    mapSet participants userID
      { participant with DisplayName := displayName, LastUpdated := now }
  | none =>
    mapSet participants userID
      { UserID := userID, DisplayName := displayName, Score := 0, LastUpdated := now }

/-- The method `Session.join`; `now` and `snapAt` are the two readings of the clock. -/
def join (s : Session) (now snapAt : Time) (userID displayName : String) :
    Option (Leaderboard × Session) :=
  broadcastLocked { s with participants := joinTable s.participants now userID displayName }
    snapAt

/-- The three results of `Session.applyScore`. -/
structure ApplyResult where
  lb : Leaderboard
  total : Int
  err : Option DomainError
  deriving DecidableEq, Repr

/-- The score `applyScore` stores for a participant whose score was `score`. -/
def scoreAfter (score : Int) (correct : Bool) (points : Int) : Int :=
  if correct ∧ points > 0 then add64 score points
  else if correct ∧ points = 0 then add64 score 1
  else score

/-- The method `Session.applyScore`; `now` and `snapAt` are the two readings of the clock. -/
def applyScore (s : Session) (now snapAt : Time) (userID : String) (correct : Bool)
    (points : Int) : Option (ApplyResult × Session) :=
  match mapGet s.participants userID with
  | none => some (⟨Leaderboard.zero, 0, some .ErrParticipantNotFound⟩, s)
  | some participant =>
    let updated : Participant :=
      { participant with
        Score := scoreAfter participant.Score correct points, LastUpdated := now }
    match broadcastLocked { s with participants := mapSet s.participants userID updated }
        snapAt with
    | none => none
    | some (lb, s1) => some (⟨lb, updated.Score, none⟩, s1)

/-- The method `Session.leave`. -/
def leave (s : Session) (snapAt : Time) (userID : String) : Option (Leaderboard × Session) :=
  broadcastLocked { s with participants := mapDelete s.participants userID } snapAt

/-- The method `Session.isEmpty`. -/
def isEmpty (s : Session) : Bool := s.participants.length = 0

/-- The method `Session.subscribe` run without interleaving: a new channel `ch` of
capacity 8 is registered, the snapshot is taken, and the snapshot is sent on it. -/
def subscribe (s : Session) (ch : Nat) (snapAt : Time) : Option (Nat × Session) :=
  let c : Chan := { id := ch, cap := 8, buf := [] }
  let s1 := { s with subscribers := s.subscribers ++ [c] }
  let initial := snapshotLocked s1 snapAt
  match c.send initial with
  | none => none
  | some c1 => some (ch, { s with subscribers := s.subscribers ++ [c1] })

/-- The closure `cancel` returned by `subscribe`, for the channel `ch`: the session
afterwards, and whether `close(ch)` ran. -/
def cancel (s : Session) (ch : Nat) : Session × Bool :=
  if s.subscribers.any (fun c => c.id = ch) then
    ({ s with subscribers := s.subscribers.filter (fun c => c.id ≠ ch) }, true)
  else (s, false)

/-- A consumer reads one snapshot from the channel `ch`. -/
def consume (s : Session) (ch : Nat) : Session :=
  { s with subscribers := s.subscribers.map (fun c => if c.id = ch then c.drainOne else c) }

/-! ## internal/infra/memory/quiz_repository.go -/

/-- The interface `QuizLoader`: what `LoadQuiz` returns for a quiz id. -/
abbrev QuizLoader := String → Except DomainError Quiz

/-- The method `StaticQuizLoader.LoadQuiz` over the map `quizzes`. -/
def StaticQuizLoader (quizzes : List (String × Quiz)) : QuizLoader := fun quizID =>
  match mapGet quizzes quizID with
  | some quiz => .ok quiz
  | none => .error .ErrQuizNotFound

structure cachedQuiz where
  quiz : Quiz
  expiresAt : Time
  deriving DecidableEq, Repr

/-- The type `QuizRepository`: `ttl` in nanoseconds, the cache map, and `calls`, the
number of times the loader has been invoked (the counter the test's `countingLoader`
keeps).  The loader, the clock and the random source are arguments of `GetQuiz`. -/
structure QuizRepository where
  ttl : Int
  cache : List (String × cachedQuiz)
  calls : Nat
  deriving DecidableEq, Repr

/-- The function `NewQuizRepository`. -/
def NewQuizRepository (ttl : Int) : QuizRepository :=
  { ttl := ttl, cache := [], calls := 0 }

/-- The library call `rnd.Int63n(n)` for `n > 0`: the accepted 63-bit draw `draw`
reduced modulo `n`. -/
def Int63n (draw : Int) (n : Int) : Int := draw % n

/-- The method `QuizRepository.ttlWithJitter`; `draw` is the draw of the random source. -/
def ttlWithJitter (ttl : Int) (draw : Int) : Int :=
  if ttl ≤ 0 then 0
  else
    let jitterMax := ttl / 10
    add64 ttl (Int63n draw (jitterMax + 1))

/-- The test `entry, ok := r.cache[quizID]; ok && entry.expiresAt.After(now)` of both
paths of `GetQuiz`: the quiz served from the cache, if any. -/
def cacheHit (r : QuizRepository) (now : Time) (quizID : String) : Option Quiz :=
  match mapGet r.cache quizID with
  | some entry => if entry.expiresAt > now then some entry.quiz else none
  | none => none

/-- The two results of `GetQuiz`. -/
structure GetResult where
  quiz : Quiz
  err : Option DomainError
  deriving DecidableEq, Repr

/-- The method `QuizRepository.GetQuiz` run without interleaving (the single-flight
group then runs its function once): `now` is the clock reading of the fast path,
`now2` the one taken inside the single-flight function, `draw` the random draw. -/
def GetQuiz (loader : QuizLoader) (r : QuizRepository) (now now2 : Time) (draw : Int)
    (quizID : String) : GetResult × QuizRepository :=
  match cacheHit r now quizID with
  | some quiz => (⟨quiz, none⟩, r)
  | none =>
    match cacheHit r now2 quizID with
    | some quiz => (⟨quiz, none⟩, r)
    | none =>
      match loader quizID with
      | .error err => (⟨Quiz.zero, some err⟩, { r with calls := r.calls + 1 })
      | .ok quiz =>
        (⟨quiz, none⟩,
          { r with
            calls := r.calls + 1
            cache := mapSet r.cache quizID
              { quiz := quiz, expiresAt := now2 + ttlWithJitter r.ttl draw } })

/-! ## internal/infra/memory/session_store.go -/

/-- The type `SessionStore`. -/
structure SessionStore where
  sessions : List (String × Session)
  deriving DecidableEq, Repr

/-- The function `NewSessionStore`. -/
def NewSessionStore : SessionStore := { sessions := [] }

/-- The method `SessionStore.GetOrCreate`; `now` is the clock reading `NewSession` takes. -/
def SessionStore.GetOrCreate (st : SessionStore) (now : Time) (quizID : String) :
    Session × SessionStore :=
  match mapGet st.sessions quizID with
  | some session => (session, st)
  | none =>
    let session := newSessionWithClock quizID now
    (session, { sessions := mapSet st.sessions quizID session })

/-- The method `SessionStore.Get`. -/
def SessionStore.Get (st : SessionStore) (quizID : String) : Option Session :=
  mapGet st.sessions quizID

/-- The method `SessionStore.DeleteIfEmpty`. -/
def SessionStore.DeleteIfEmpty (st : SessionStore) (quizID : String) : SessionStore :=
  match mapGet st.sessions quizID with
  | none => st
  | some session =>
    if isEmpty session then { sessions := mapDelete st.sessions quizID } else st

/-- A session reached through its pointer has been changed: the store afterwards. -/
def SessionStore.put (st : SessionStore) (quizID : String) (session : Session) :
    SessionStore :=
  { sessions := mapSet st.sessions quizID session }

/-! ## internal/app/quiz_service.go: QuizService -/

/-- The type `QuizService` over the in-memory store and repository. -/
structure QuizService where
  sessions : SessionStore
  quizzes : QuizRepository
  deriving DecidableEq, Repr

/-- The readings one use case takes from its surroundings: the repository's clock on
the fast path and inside the load, the random draw, the clock of a session created by
the call, and the session's clock at the mutation and at the snapshot. -/
structure Readings where
  cacheNow : Time
  loadNow : Time
  draw : Int
  createdAt : Time
  now : Time
  snapAt : Time
  deriving DecidableEq, Repr

/-- The two results of `QuizService.Join`. -/
structure JoinResult where
  lb : Leaderboard
  err : Option DomainError
  deriving DecidableEq, Repr

/-- The method `QuizService.Join`. -/
def QuizService.Join (loader : QuizLoader) (svc : QuizService) (t : Readings)
    (quizID userID displayName : String) : Option (JoinResult × QuizService) :=
  let got := GetQuiz loader svc.quizzes t.cacheNow t.loadNow t.draw quizID
  match got.1.err with
  | some err => some (⟨Leaderboard.zero, some err⟩, { svc with quizzes := got.2 })
  | none =>
    let created := svc.sessions.GetOrCreate t.createdAt quizID
    match join created.1 t.now t.snapAt userID displayName with
    | none => none
    | some (lb, session) =>
      some (⟨lb, none⟩, { sessions := created.2.put quizID session, quizzes := got.2 })

/-- The five results of `QuizService.SubmitAnswer`. -/
structure SubmitResult where
  lb : Leaderboard
  total : Int
  awarded : Int
  correct : Bool
  err : Option DomainError
  deriving DecidableEq, Repr

/-- The value `awarded` that `SubmitAnswer` computes from the results of `scoreSubmission`. -/
def awardedOf (correct : Bool) (points : Int) : Int :=
  if correct then (if points > 0 then points else 1) else 0

/-- The method `QuizService.SubmitAnswer`. -/
def QuizService.SubmitAnswer (loader : QuizLoader) (svc : QuizService) (t : Readings)
    (quizID userID : String) (submission : AnswerSubmission) :
    Option (SubmitResult × QuizService) :=
  match svc.sessions.Get quizID with
  | none => some (⟨Leaderboard.zero, 0, 0, false, some .ErrSessionNotFound⟩, svc)
  | some session =>
    let got := GetQuiz loader svc.quizzes t.cacheNow t.loadNow t.draw quizID
    match got.1.err with
    | some err =>
      some (⟨Leaderboard.zero, 0, 0, false, some err⟩, { svc with quizzes := got.2 })
    | none =>
      let scored := scoreSubmission got.1.quiz submission
      match scored.err with
      | some err =>
        some (⟨Leaderboard.zero, 0, 0, false, some err⟩, { svc with quizzes := got.2 })
      | none =>
        match applyScore session t.now t.snapAt userID scored.correct scored.points with
        | none => none
        | some (applied, session1) =>
          some (⟨applied.lb, applied.total, awardedOf scored.correct scored.points,
                  scored.correct, applied.err⟩,
                { sessions := svc.sessions.put quizID session1, quizzes := got.2 })

/-- The method `QuizService.Leave`. -/
def QuizService.Leave (svc : QuizService) (t : Readings) (quizID userID : String) :
    Option QuizService :=
  match svc.sessions.Get quizID with
  | none => some svc
  | some session =>
    match leave session t.snapAt userID with
    | none => none
    | some (_, session1) =>
      let st := svc.sessions.put quizID session1
      some { svc with
        sessions := if isEmpty session1 then st.DeleteIfEmpty quizID else st }

/-! ## Well-formed and reachable sessions -/

/-- The participant table of a session is a map (no key twice) whose values carry
their key as `UserID`. -/
def TableWF (m : List (String × Participant)) : Prop :=
  (m.map Prod.fst).Nodup ∧ ∀ kv ∈ m, kv.2.UserID = kv.1

/-- Every subscriber channel was made by `subscribe`: capacity 8, at most 8 snapshots
queued, and no channel is registered twice. -/
def ChansWF (cs : List Chan) : Prop :=
  (cs.map Chan.id).Nodup ∧ ∀ c ∈ cs, c.cap = 8 ∧ c.buf.length ≤ 8

/-- The invariant of a session. -/
def Session.WF (s : Session) : Prop := TableWF s.participants ∧ ChansWF s.subscribers

/-- The sessions the code can build: a new session, changed by `join`, `applyScore`,
`leave`, `subscribe` of a new channel, `cancel`, and consumers reading. -/
inductive Reachable : Session → Prop where
  | init (id : String) (now : Time) : Reachable (newSessionWithClock id now)
  | join {s s1 : Session} {lb : Leaderboard} (now snapAt : Time)
      (userID displayName : String) :
      Reachable s → join s now snapAt userID displayName = some (lb, s1) → Reachable s1
  | applyScore {s s1 : Session} {r : ApplyResult} (now snapAt : Time) (userID : String)
      (correct : Bool) (points : Int) :
      Reachable s → applyScore s now snapAt userID correct points = some (r, s1) →
      Reachable s1
  | leave {s s1 : Session} {lb : Leaderboard} (snapAt : Time) (userID : String) :
      Reachable s → leave s snapAt userID = some (lb, s1) → Reachable s1
  | subscribe {s s1 : Session} (ch : Nat) (snapAt : Time) :
      Reachable s → (∀ c ∈ s.subscribers, c.id ≠ ch) →
      subscribe s ch snapAt = some (ch, s1) → Reachable s1
  | cancel {s : Session} (ch : Nat) : Reachable s → Reachable (cancel s ch).1
  | consume {s : Session} (ch : Nat) : Reachable s → Reachable (consume s ch)

/-! ## Notions used in the statements -/

/-- The element `x` is the first element of `l` that satisfies `p`. -/
def FirstWith {α : Type} (p : α → Prop) (l : List α) (x : α) : Prop :=
  ∃ before after, l = before ++ x :: after ∧ p x ∧ ∀ y ∈ before, ¬ p y

/-- The points of a question as the scoring function counts them: 1 for a configured 0. -/
def effectivePoints (q : Question) : Int := if q.Points = 0 then 1 else q.Points

/-- A quiz with one question worth 5 points, option `o1` wrong and option `o2` right. -/
def sampleQuiz : Quiz :=
  ⟨"quiz-1", [⟨"q1", "Select the right option",
    [⟨"o1", "Wrong", false⟩, ⟨"o2", "Right", true⟩], 5⟩]⟩

/-! ## Broadcast -/

/-- The queue of a channel after `broadcastLocked` pushed `lb` to it: `lb` is added at
the end, after the oldest snapshot is dropped from a queue of `cap` snapshots. -/
def pushed (lb : Leaderboard) (c : Chan) : Chan :=
  { c with buf := if c.buf.length < c.cap then c.buf ++ [lb] else c.buf.drop 1 ++ [lb] }

/-- The participant `applyScore` stores in place of `p`. -/
def scored (p : Participant) (now : Time) (correct : Bool) (points : Int) : Participant :=
  { p with Score := scoreAfter p.Score correct points, LastUpdated := now }

/-- The order the leaderboard is specified to have: `e` may stand before `f` when its
score is higher; or the scores are equal and its participant was updated earlier; or
scores and timestamps are equal and its display name is not greater. -/
def RanksBefore (participants : List (String × Participant))
    (e f : LeaderboardEntry) : Prop :=
  ∃ pe pf, mapGet participants e.UserID = some pe ∧ mapGet participants f.UserID = some pf ∧
    (e.Score > f.Score ∨
      (e.Score = f.Score ∧ pe.LastUpdated < pf.LastUpdated) ∨
      (e.Score = f.Score ∧ pe.LastUpdated = pf.LastUpdated ∧ e.DisplayName ≤ f.DisplayName))

/-- Every entry of the list ranks before every later entry. -/
def Ordered (participants : List (String × Participant))
    (entries : List LeaderboardEntry) : Prop :=
  entries.Pairwise (RanksBefore participants)

/-- A comparison that is asymmetric and negatively transitive on the elements that
satisfy `P` (a strict weak order there). -/
def StrictWeakOn {α : Type} (less : α → α → Bool) (P : α → Prop) : Prop :=
  (∀ a b, P a → P b → less a b = true → less b a = false) ∧
  (∀ a b c, P a → P b → P c → less a b = false → less b c = false → less a c = false)

/-- The last-updated timestamp of the participant an entry belongs to. -/
def tsOf (participants : List (String × Participant)) (e : LeaderboardEntry) : Time :=
  match mapGet participants e.UserID with
  | some p => p.LastUpdated
  | none => 0

/-- The key the leaderboard is ordered by: score descending, then timestamp, then name. -/
def sortKey (participants : List (String × Participant)) (e : LeaderboardEntry) :
    ℤ ×ₗ ℤ ×ₗ String :=
  toLex (-e.Score, toLex (tsOf participants e, e.DisplayName))

/-- The entry's user id is a key of the participant table. -/
def Known (participants : List (String × Participant)) (e : LeaderboardEntry) : Prop :=
  ∃ p, mapGet participants e.UserID = some p

/-- A session after Alice joined (clock 1, snapshot at 2). -/
def sessionA : Session :=
  ⟨"quiz-1", 0, [("u1", ⟨"u1", "Alice", 0, 1⟩)], []⟩

/-- The session `sessionA` after a subscriber registered channel 7 (snapshot at 3). -/
def sessionB : Session :=
  ⟨"quiz-1", 0, [("u1", ⟨"u1", "Alice", 0, 1⟩)],
    [⟨7, 8, [⟨"quiz-1", [⟨"u1", "Alice", 0⟩], 3⟩]⟩]⟩

/-- The session `sessionB` after Bob joined (clock 4, snapshot at 5). -/
def sampleSession : Session :=
  ⟨"quiz-1", 0, [("u1", ⟨"u1", "Alice", 0, 1⟩), ("u2", ⟨"u2", "Bob", 0, 4⟩)],
    [⟨7, 8, [⟨"quiz-1", [⟨"u1", "Alice", 0⟩], 3⟩,
      ⟨"quiz-1", [⟨"u1", "Alice", 0⟩, ⟨"u2", "Bob", 0⟩], 5⟩]⟩]⟩

/-- The result of the `GetQuiz` call that `Join` and `SubmitAnswer` make. -/
def loadedQuiz (loader : QuizLoader) (svc : QuizService) (t : Readings) (quizID : String) :
    GetResult :=
  (GetQuiz loader svc.quizzes t.cacheNow t.loadNow t.draw quizID).1

/-- A quiz whose only question is configured with the point value -3. -/
def negativeQuiz : Quiz :=
  ⟨"quiz-1", [⟨"q1", "Select the right option",
    [⟨"o1", "Wrong", false⟩, ⟨"o2", "Right", true⟩], -3⟩]⟩

/-- A service with the session `sampleSession` for `quiz-1` and an empty cache with a
ttl of five minutes. -/
def sampleService : QuizService :=
  ⟨⟨[("quiz-1", sampleSession)]⟩, NewQuizRepository 300000000000⟩

/-- Clock readings and a random draw for one call. -/
def sampleReadings : Readings := ⟨10, 11, 12345, 0, 12, 13⟩

/-- The results of Bob submitting the right option of `sampleQuiz` to `sampleService`. -/
def submittedResult : SubmitResult :=
  ⟨⟨"quiz-1", [⟨"u2", "Bob", 5⟩, ⟨"u1", "Alice", 0⟩], 13⟩, 5, 5, true, none⟩

/-- The service after Bob submitted the right option of `sampleQuiz` to `sampleService`. -/
def submittedService : QuizService :=
  ⟨⟨[("quiz-1", ⟨"quiz-1", 0,
      [("u1", ⟨"u1", "Alice", 0, 1⟩), ("u2", ⟨"u2", "Bob", 5, 12⟩)],
      [⟨7, 8, [⟨"quiz-1", [⟨"u1", "Alice", 0⟩], 3⟩,
        ⟨"quiz-1", [⟨"u1", "Alice", 0⟩, ⟨"u2", "Bob", 0⟩], 5⟩,
        ⟨"quiz-1", [⟨"u2", "Bob", 5⟩, ⟨"u1", "Alice", 0⟩], 13⟩]⟩]⟩)]⟩,
    ⟨300000000000, [("quiz-1", ⟨sampleQuiz, 300000012356⟩)], 1⟩⟩

/-- A repository with a ttl of five minutes whose cache holds `sampleQuiz` until 500. -/
def warmRepository : QuizRepository :=
  ⟨300000000000, [("quiz-1", ⟨sampleQuiz, 500⟩)], 1⟩

/-- A repository configured with ttl 0 (the configuration value `0s`), nothing cached. -/
def noTTLRepository : QuizRepository := NewQuizRepository 0

/-- A repository with a ttl of five minutes whose cache holds `sampleQuiz`, expired at 500. -/
def staleRepository : QuizRepository :=
  ⟨300000000000, [("quiz-1", ⟨sampleQuiz, 500⟩), ("quiz-2", ⟨negativeQuiz, 9000⟩)], 3⟩

/-- The queue of a subscriber after a snapshot `lb` is pushed on the queue `q`: `q`
followed by `lb` when `q` holds fewer than 8 snapshots, else `q` without its oldest
snapshot followed by `lb`. -/
def queueAfter (q : List Leaderboard) (lb : Leaderboard) : List Leaderboard :=
  if q.length < 8 then q ++ [lb] else q.drop 1 ++ [lb]

/-- A mutation of the session `s` (a `join`, an `applyScore` without error, or a `leave`)
returns the leaderboard `lb` and leaves the session `s1`. -/
def Mutates (s : Session) (lb : Leaderboard) (s1 : Session) : Prop :=
  (∃ now snapAt userID displayName, join s now snapAt userID displayName = some (lb, s1)) ∨
  (∃ now snapAt userID correct points total,
    applyScore s now snapAt userID correct points = some (⟨lb, total, none⟩, s1)) ∨
  (∃ snapAt userID, leave s snapAt userID = some (lb, s1))

/-- The function `scoreTimes n`: the session `sessionB` after Alice answered correctly `n`
times, nobody reading from channel 7. -/
def scoreTimes : Nat → Session
  | 0 => sessionB
  | n + 1 =>
    match applyScore (scoreTimes n) (10 + n) (10 + n) "u1" true 1 with
    | some (_, s) => s
    | none => scoreTimes n

/-- The session `sampleSession` after Bob answered correctly for 5 points (clock 12,
snapshot at 13). -/
def scoredSession : Session :=
  ⟨"quiz-1", 0, [("u1", ⟨"u1", "Alice", 0, 1⟩), ("u2", ⟨"u2", "Bob", 5, 12⟩)],
    [⟨7, 8, [⟨"quiz-1", [⟨"u1", "Alice", 0⟩], 3⟩,
      ⟨"quiz-1", [⟨"u1", "Alice", 0⟩, ⟨"u2", "Bob", 0⟩], 5⟩,
      ⟨"quiz-1", [⟨"u2", "Bob", 5⟩, ⟨"u1", "Alice", 0⟩], 13⟩]⟩]⟩

/-- A session whose subscriber channel 7 is full: the initial snapshot and the seven
snapshots of Alice's seven correct answers. -/
def fullSession : Session := scoreTimes 7

/-- The session `sampleSession` after Bob left (snapshot at 9). -/
def afterBobLeft : Session :=
  ⟨"quiz-1", 0, [("u1", ⟨"u1", "Alice", 0, 1⟩)],
    [⟨7, 8, [⟨"quiz-1", [⟨"u1", "Alice", 0⟩], 3⟩,
      ⟨"quiz-1", [⟨"u1", "Alice", 0⟩, ⟨"u2", "Bob", 0⟩], 5⟩,
      ⟨"quiz-1", [⟨"u1", "Alice", 0⟩], 9⟩]⟩]⟩

/-- The sessions reached from a session by later operations, none of which makes the
channel `ch` again (`make` returns a channel distinct from every existing one). -/
inductive LaterWithout (ch : Nat) : Session → Session → Prop where
  | refl (s : Session) : LaterWithout ch s s
  | join {s s1 s2 : Session} {lb : Leaderboard} (now snapAt : Time)
      (userID displayName : String) :
      LaterWithout ch s s1 → join s1 now snapAt userID displayName = some (lb, s2) →
      LaterWithout ch s s2
  | applyScore {s s1 s2 : Session} {r : ApplyResult} (now snapAt : Time) (userID : String)
      (correct : Bool) (points : Int) :
      LaterWithout ch s s1 →
      applyScore s1 now snapAt userID correct points = some (r, s2) → LaterWithout ch s s2
  | leave {s s1 s2 : Session} {lb : Leaderboard} (snapAt : Time) (userID : String) :
      LaterWithout ch s s1 → leave s1 snapAt userID = some (lb, s2) → LaterWithout ch s s2
  | subscribe {s s1 s2 : Session} (ch2 : Nat) (snapAt : Time) :
      LaterWithout ch s s1 → ch2 ≠ ch → subscribe s1 ch2 snapAt = some (ch2, s2) →
      LaterWithout ch s s2
  | cancel {s s1 : Session} (ch2 : Nat) :
      LaterWithout ch s s1 → LaterWithout ch s (cancel s1 ch2).1
  | consume {s s1 : Session} (ch2 : Nat) :
      LaterWithout ch s s1 → LaterWithout ch s (consume s1 ch2)

/-- The session `sessionB` after its subscriber cancelled channel 7. -/
def cancelledSession : Session :=
  ⟨"quiz-1", 0, [("u1", ⟨"u1", "Alice", 0, 1⟩)], []⟩

/-- A service whose only session, for `quiz-1`, has the one participant Alice with score 4. -/
def soloService : QuizService :=
  ⟨⟨[("quiz-1", ⟨"quiz-1", 0, [("u1", ⟨"u1", "Alice", 4, 9⟩)], []⟩)]⟩,
    NewQuizRepository 300000000000⟩

/-- No two participants of the table tie on score, timestamp and display name at once. -/
def NoFullTie (participants : List (String × Participant)) : Prop :=
  ∀ kv1 ∈ participants, ∀ kv2 ∈ participants,
    kv1.2.Score = kv2.2.Score → kv1.2.LastUpdated = kv2.2.LastUpdated →
    kv1.2.DisplayName = kv2.2.DisplayName → kv1.1 = kv2.1

/-- A session in which `u1` and `u2` joined at the same clock reading under the same
display name; the map enumerated with `u1` first. -/
def tiedSession : Session :=
  ⟨"quiz-1", 0, [("u1", ⟨"u1", "Sam", 0, 1⟩), ("u2", ⟨"u2", "Sam", 0, 1⟩)], []⟩

/-- The session `tiedSession`, the same map enumerated with `u2` first. -/
def tiedSessionSwapped : Session :=
  ⟨"quiz-1", 0, [("u2", ⟨"u2", "Sam", 0, 1⟩), ("u1", ⟨"u1", "Sam", 0, 1⟩)], []⟩

/-- The critical section of `Session.subscribe`, from `s.mu.Lock()` to `s.mu.Unlock()`:
the new channel `ch` of capacity 8, still empty, is registered and the snapshot is taken.
The result is the snapshot `initial` and the session afterwards. -/
def subscribeRegister (s : Session) (ch : Nat) (snapAt : Time) : Leaderboard × Session :=
  let s1 := { s with subscribers := s.subscribers ++ [{ id := ch, cap := 8, buf := [] }] }
  (snapshotLocked s1 snapAt, s1)

/-- A blocking send of `lb` on the channel `ch` among the channels `cs`; `none` when the
send waits for a receiver. -/
def sendOn : List Chan → Nat → Leaderboard → Option (List Chan)
  | [], _, _ => some []
  | c :: rest, ch, lb =>
    if c.id = ch then
      match c.send lb with
      | none => none
      | some c1 => some (c1 :: rest)
    else
      match sendOn rest ch lb with
      | none => none
      | some rest1 => some (c :: rest1)

/-- The statement `ch <- initial` of `Session.subscribe`, which runs after the lock is
released: the session afterwards. -/
def subscribeEnqueue (s : Session) (ch : Nat) (initial : Leaderboard) : Option Session :=
  match sendOn s.subscribers ch initial with
  | none => none
  | some subs => some { s with subscribers := subs }

/-! ## GetQuiz under interleaving -/

/-- Where the call that runs the function passed to `sf.Do` stands inside it: before the
second test of the cache; while the loader runs (`now2` is the clock reading taken before
the test); after the loader returned `quiz` and before the write to the cache; after the
function returned `res` and before the group forgets the key. -/
inductive Stage where
  | recheck
  | loading (now2 : Time)
  | writing (now2 : Time) (quiz : Quiz)
  | ready (res : GetResult)
  deriving DecidableEq, Repr

/-- Where a call of `GetQuiz` stands: before the fast path; after a miss of the fast path
and before `sf.Do`; running the function of `sf.Do`; waiting in `sf.Do` for the call in
flight for its key; returned. -/
inductive Pc where
  | start
  | missed
  | leading (st : Stage)
  | waiting
  | done (res : GetResult)
  deriving DecidableEq, Repr

/-- A call of `GetQuiz` in progress. -/
structure Call where
  quizID : String
  pc : Pc
  deriving DecidableEq, Repr

/-- The repository shared by concurrent calls of `GetQuiz`: the repository itself, the map
of the single-flight group (key to the call that runs the function), the quiz ids the
loader has been invoked with, and the calls. -/
structure Shared where
  repo : QuizRepository
  inFlight : List (String × Nat)
  loads : List String
  calls : List Call
  deriving DecidableEq, Repr

/-- One step of one call: the fast path at clock reading `now`; the entry into `sf.Do`;
the second test of the cache at `now2`, which goes on to invoke the loader on a miss; the
return of the loader; the write to the cache with the random draw `draw`; the end of
`sf.Do`, which hands the result to the waiting calls. -/
inductive Action where
  | fast (i : Nat) (now : Time)
  | enter (i : Nat)
  | recheck (i : Nat) (now2 : Time)
  | loaded (i : Nat)
  | write (i : Nat) (draw : Int)
  | finish (i : Nat)
  deriving DecidableEq, Repr

/-- The call `i` moves to `pc`. -/
def Shared.setPc (c : Shared) (i : Nat) (quizID : String) (pc : Pc) : Shared :=
  { c with calls := c.calls.set i ⟨quizID, pc⟩ }

/-- The end of `sf.Do` for the key: a call waiting for the key returns `res`. -/
def wake (quizID : String) (res : GetResult) (cl : Call) : Call :=
  if cl.quizID = quizID ∧ cl.pc = .waiting then { cl with pc := .done res } else cl

/-- The fast path of `GetQuiz` for the call `i`, at the clock reading `now`. -/
def stepFast (c : Shared) (i : Nat) (now : Time) : Option Shared :=
  match c.calls[i]? with
  | some ⟨quizID, .start⟩ =>
    match cacheHit c.repo now quizID with
    | some quiz => some (c.setPc i quizID (.done ⟨quiz, none⟩))
    | none => some (c.setPc i quizID .missed)
  | _ => none

/-- The entry of the call `i` into `sf.Do`: it waits when a call for its key is in flight,
else it registers itself and runs the function. -/
def stepEnter (c : Shared) (i : Nat) : Option Shared :=
  match c.calls[i]? with
  | some ⟨quizID, .missed⟩ =>
    match mapGet c.inFlight quizID with
    | some _ => some (c.setPc i quizID .waiting)
    | none =>
      some ({ c with inFlight := mapSet c.inFlight quizID i }.setPc i quizID
        (.leading .recheck))
  | _ => none

/-- The second test of the cache by the call `i`, at the clock reading `now2`; on a miss
the call goes on to invoke the loader. -/
def stepRecheck (c : Shared) (i : Nat) (now2 : Time) : Option Shared :=
  match c.calls[i]? with
  | some ⟨quizID, .leading .recheck⟩ =>
    match cacheHit c.repo now2 quizID with
    | some quiz => some (c.setPc i quizID (.leading (.ready ⟨quiz, none⟩)))
    | none =>
      some ({ c with
        repo := { c.repo with calls := c.repo.calls + 1 }
        loads := c.loads ++ [quizID] }.setPc i quizID (.leading (.loading now2)))
  | _ => none

/-- The loader returns to the call `i`. -/
def stepLoaded (loader : QuizLoader) (c : Shared) (i : Nat) : Option Shared :=
  match c.calls[i]? with
  | some ⟨quizID, .leading (.loading now2)⟩ =>
    match loader quizID with
    | .error err => some (c.setPc i quizID (.leading (.ready ⟨Quiz.zero, some err⟩)))
    | .ok quiz => some (c.setPc i quizID (.leading (.writing now2 quiz)))
  | _ => none

/-- The call `i` writes the loaded quiz to the cache; `draw` is the random draw. -/
def stepWrite (c : Shared) (i : Nat) (draw : Int) : Option Shared :=
  match c.calls[i]? with
  | some ⟨quizID, .leading (.writing now2 quiz)⟩ =>
    some ({ c with
      repo := { c.repo with
        cache := mapSet c.repo.cache quizID
          { quiz := quiz, expiresAt := now2 + ttlWithJitter c.repo.ttl draw } } }.setPc i
      quizID (.leading (.ready ⟨quiz, none⟩)))
  | _ => none

/-- The end of `sf.Do` for the call `i` that ran the function: the group forgets the key,
and the call and the calls waiting for the key return the result. -/
def stepFinish (c : Shared) (i : Nat) : Option Shared :=
  match c.calls[i]? with
  | some ⟨quizID, .leading (.ready res)⟩ =>
    some ({ c with
      inFlight := mapDelete c.inFlight quizID
      calls := (c.calls.map (wake quizID res)).set i ⟨quizID, .done res⟩ })
  | _ => none

/-- The steps of `GetQuiz` as the scheduler can interleave them; `none` when the call is
not at the step. -/
def step (loader : QuizLoader) (c : Shared) : Action → Option Shared
  | .fast i now => stepFast c i now
  | .enter i => stepEnter c i
  | .recheck i now2 => stepRecheck c i now2
  | .loaded i => stepLoaded loader c i
  | .write i draw => stepWrite c i draw
  | .finish i => stepFinish c i

/-- The steps in order, from the state `c`. -/
def runActions (loader : QuizLoader) (c : Shared) : List Action → Option Shared
  | [] => some c
  | a :: rest =>
    match step loader c a with
    | none => none
    | some c1 => runActions loader c1 rest

/-- The states reached from `c` by steps whose clock readings and draws satisfy `P`. -/
inductive Run (loader : QuizLoader) (P : Action → Prop) : Shared → Shared → Prop where
  | refl (c : Shared) : Run loader P c c
  | next {c c1 c2 : Shared} (a : Action) :
      Run loader P c c1 → P a → step loader c1 a = some c2 → Run loader P c c2

/-- The calls `quizIDs` have all been made and none has taken a step; nothing is in flight
and the loader has not been invoked. -/
def startOf (repo : QuizRepository) (quizIDs : List String) : Shared :=
  { repo := repo, inFlight := [], loads := [],
    calls := quizIDs.map (fun quizID => ⟨quizID, .start⟩) }

/-- The call runs the function passed to `sf.Do`. -/
def Pc.isLeading : Pc → Bool
  | .leading _ => true
  | _ => false

/-- The call that runs the function for a key is the one the group's map records. -/
def LeaderInv (c : Shared) : Prop :=
  ∀ i cl, c.calls[i]? = some cl → cl.pc.isLeading = true →
    mapGet c.inFlight cl.quizID = some i

/-- The cache holds no entry for `k` that is unexpired at the clock reading `lo` or later. -/
def StaleFor (cache : List (String × cachedQuiz)) (k : String) (lo : Time) : Prop :=
  ∀ e, mapGet cache k = some e → e.expiresAt ≤ lo

/-- The cache holds the quiz `q` for `k`, unexpired at every clock reading up to `hi`. -/
def FreshFor (cache : List (String × cachedQuiz)) (k : String) (q : Quiz) (hi : Time) :
    Prop :=
  ∃ e, mapGet cache k = some e ∧ e.quiz = q ∧ hi < e.expiresAt

/-- Where a call for `k` can stand before the loader has been invoked for `k`. -/
def AllowedBefore : Pc → Prop
  | .start => True
  | .missed => True
  | .waiting => True
  | .leading .recheck => True
  | _ => False

/-- Where a call for `k` can stand between the invocation of the loader and the write. -/
def AllowedDuring (lo : Time) (q : Quiz) : Pc → Prop
  | .start => True
  | .missed => True
  | .waiting => True
  | .leading (.loading now2) => lo ≤ now2
  | .leading (.writing now2 quiz) => lo ≤ now2 ∧ quiz = q
  | _ => False

/-- Where a call for `k` can stand after the write of the quiz `q`. -/
def AllowedAfter (q : Quiz) : Pc → Prop
  | .start => True
  | .missed => True
  | .waiting => True
  | .leading .recheck => True
  | .leading (.ready res) => res = ⟨q, none⟩
  | .done res => res = ⟨q, none⟩
  | _ => False

/-- Every call for `k` stands where `A` allows. -/
def CallsOf (c : Shared) (k : String) (A : Pc → Prop) : Prop :=
  ∀ (j : Nat) (cl : Call), c.calls[j]? = some cl → cl.quizID = k → A cl.pc

/-- The three phases of the calls for `k`: the loader not yet invoked; invoked once and
the cache not yet written; invoked once and the quiz `q` in the cache. -/
def Phase (k : String) (q : Quiz) (lo hi : Time) (c : Shared) : Prop :=
  (c.loads.count k = 0 ∧ StaleFor c.repo.cache k lo ∧ CallsOf c k AllowedBefore) ∨
  (c.loads.count k = 1 ∧ StaleFor c.repo.cache k lo ∧ mapGet c.inFlight k ≠ none ∧
    CallsOf c k (AllowedDuring lo q)) ∨
  (c.loads.count k = 1 ∧ FreshFor c.repo.cache k q hi ∧ CallsOf c k (AllowedAfter q))

/-- The clock readings of the steps lie between `lo` and `hi`, the random draws are
non-negative. -/
def Within (lo hi : Time) : Action → Prop
  | .fast _ now => lo ≤ now ∧ now ≤ hi
  | .recheck _ now2 => lo ≤ now2 ∧ now2 ≤ hi
  | .write _ draw => 0 ≤ draw
  | _ => True

/-- Three calls for `quiz-1` against an empty cache with a ttl of five minutes. -/
def threeCalls : Shared :=
  startOf (NewQuizRepository 300000000000) ["quiz-1", "quiz-1", "quiz-1"]

/-- An interleaving of `threeCalls`: call 0 runs the function and loads, call 2 waits for
it, call 1 enters the group after call 0 has finished. -/
def threeCallsTrace : List Action :=
  [.fast 0 10, .fast 1 10, .enter 0, .recheck 0 11, .fast 2 11, .enter 2, .loaded 0,
    .write 0 5, .finish 0, .enter 1, .recheck 1 12, .finish 1]

/-- Two calls for `quiz-1` against an empty cache. -/
def twoCalls : Shared := startOf (NewQuizRepository 300000000000) ["quiz-1", "quiz-1"]

/-- An interleaving of `twoCalls`: both calls miss the fast path; call 0 runs the function
of `sf.Do` to its end; only then call 1 enters `sf.Do`. -/
def twoCallsTrace : List Action :=
  [.fast 0 10, .fast 1 10, .enter 0, .recheck 0 11, .loaded 0, .finish 0,
    .enter 1, .recheck 1 12, .loaded 1, .finish 1]

/-- The state `threeCalls` after the interleaving `threeCallsTrace`. -/
def threeCallsFinal : Shared :=
  ⟨⟨300000000000, [("quiz-1", ⟨sampleQuiz, 300000000016⟩)], 1⟩, [], ["quiz-1"],
    [⟨"quiz-1", .done ⟨sampleQuiz, none⟩⟩, ⟨"quiz-1", .done ⟨sampleQuiz, none⟩⟩,
      ⟨"quiz-1", .done ⟨sampleQuiz, none⟩⟩]⟩

/-! # Statements and proofs -/


/-! ## The scoring function -/

theorem find?_iff_firstWith {α : Type} (p : α → Prop) [DecidablePred p] (l : List α) (x : α) :
    l.find? (fun y => decide (p y)) = some x ↔ FirstWith p l x := by
  rw [List.find?_eq_some]
  constructor
  · rintro ⟨hx, as, bs, hl, hall⟩
    refine ⟨as, bs, hl, by simpa using hx, ?_⟩
    intro y hy
    simpa using hall y hy
  · rintro ⟨as, bs, hl, hx, hall⟩
    refine ⟨by simpa using hx, as, bs, hl, ?_⟩
    intro y hy
    simpa using hall y hy

theorem firstWith_unique {α : Type} (p : α → Prop) [DecidablePred p] (l : List α) (x y : α)
    (hx : FirstWith p l x) (hy : FirstWith p l y) : x = y := by
  rw [← find?_iff_firstWith] at hx hy
  rw [hx] at hy
  exact Option.some.inj hy

/-- C4, as the code has it: when the question and the option are both found,
`scoreSubmission` returns `(true, effectivePoints)` for an option flagged correct and
`(false, 0)` for an option flagged incorrect, with no error. -/
theorem scoreSubmission_found (quiz : Quiz) (submission : AnswerSubmission)
    (q : Question) (o : Option_)
    (hq : FirstWith (fun x => x.ID = submission.QuestionID) quiz.Questions q)
    (ho : FirstWith (fun x => x.ID = submission.OptionID) q.Options o) :
    scoreSubmission quiz submission =
      if o.Correct then ⟨true, effectivePoints q, none⟩ else ⟨false, 0, none⟩ := by
  rw [← find?_iff_firstWith] at hq ho
  simp only [scoreSubmission, hq, ho, effectivePoints]

theorem scoreSubmission_found_witness :
    FirstWith (fun x => x.ID = "q1") sampleQuiz.Questions
        ⟨"q1", "Select the right option",
          [⟨"o1", "Wrong", false⟩, ⟨"o2", "Right", true⟩], 5⟩ ∧
      scoreSubmission sampleQuiz ⟨"q1", "o1"⟩ = ⟨false, 0, none⟩ :=
  ⟨⟨[], [], rfl, rfl, by simp⟩,
    scoreSubmission_found sampleQuiz ⟨"q1", "o1"⟩
      ⟨"q1", "Select the right option",
        [⟨"o1", "Wrong", false⟩, ⟨"o2", "Right", true⟩], 5⟩
      ⟨"o1", "Wrong", false⟩
      ⟨[], [], rfl, rfl, by simp⟩ ⟨[], [⟨"o2", "Right", true⟩], rfl, rfl, by simp⟩⟩

/-- C4 fails as stated: in `sampleQuiz` the question `q1` (5 points) and its option `o1`
(flagged incorrect) are both found, and `scoreSubmission` returns the points 0, not the
effective points 5. -/
theorem scoreSubmission_incorrect_counterexample :
    FirstWith (fun x => x.ID = "q1") sampleQuiz.Questions
        ⟨"q1", "Select the right option",
          [⟨"o1", "Wrong", false⟩, ⟨"o2", "Right", true⟩], 5⟩ ∧
      FirstWith (fun x : Option_ => x.ID = "o1")
        [⟨"o1", "Wrong", false⟩, ⟨"o2", "Right", true⟩] ⟨"o1", "Wrong", false⟩ ∧
      effectivePoints ⟨"q1", "Select the right option",
          [⟨"o1", "Wrong", false⟩, ⟨"o2", "Right", true⟩], 5⟩ = 5 ∧
      scoreSubmission sampleQuiz ⟨"q1", "o1"⟩ = ⟨false, 0, none⟩ ∧
      scoreSubmission sampleQuiz ⟨"q1", "o1"⟩ ≠ ⟨false, 5, none⟩ :=
  ⟨⟨[], [], rfl, rfl, by simp⟩, ⟨[], [⟨"o2", "Right", true⟩], rfl, rfl, by simp⟩,
    by decide, by decide, by decide⟩

/-- C6: `scoreSubmission` fails with `ErrQuestionNotFound` exactly when no question has
the submitted question id; with `ErrOptionNotFound` exactly when the first question with
that id has no option with the submitted option id; it succeeds exactly when the first
such question has such an option, and then reports the flag of the first such option. -/
theorem scoreSubmission_errors (quiz : Quiz) (submission : AnswerSubmission) :
    ((scoreSubmission quiz submission).err = some .ErrQuestionNotFound ↔
        ∀ q ∈ quiz.Questions, q.ID ≠ submission.QuestionID) ∧
    ((scoreSubmission quiz submission).err = some .ErrOptionNotFound ↔
        ∃ q, FirstWith (fun x => x.ID = submission.QuestionID) quiz.Questions q ∧
          ∀ o ∈ q.Options, o.ID ≠ submission.OptionID) ∧
    ((scoreSubmission quiz submission).err = none ↔
        ∃ q o, FirstWith (fun x => x.ID = submission.QuestionID) quiz.Questions q ∧
          FirstWith (fun x => x.ID = submission.OptionID) q.Options o) ∧
    (∀ q o, FirstWith (fun x => x.ID = submission.QuestionID) quiz.Questions q →
        FirstWith (fun x => x.ID = submission.OptionID) q.Options o →
        (scoreSubmission quiz submission).err = none ∧
          (scoreSubmission quiz submission).correct = o.Correct) := by
  have key : ∀ q o, FirstWith (fun x => x.ID = submission.QuestionID) quiz.Questions q →
      FirstWith (fun x => x.ID = submission.OptionID) q.Options o →
      (scoreSubmission quiz submission).err = none ∧
        (scoreSubmission quiz submission).correct = o.Correct := by
    intro q o hq ho
    rw [scoreSubmission_found quiz submission q o hq ho]
    cases o.Correct <;> simp
  cases hfq : quiz.Questions.find? (fun q => decide (q.ID = submission.QuestionID)) with
  | none =>
    have hno : ∀ q ∈ quiz.Questions, q.ID ≠ submission.QuestionID := by
      intro q hq
      simpa using List.find?_eq_none.mp hfq q hq
    have hnf : ∀ q, ¬ FirstWith (fun x => x.ID = submission.QuestionID) quiz.Questions q := by
      intro q hq
      rw [← find?_iff_firstWith, hfq] at hq
      cases hq
    have hres : scoreSubmission quiz submission = ⟨false, 0, some .ErrQuestionNotFound⟩ := by
      simp only [scoreSubmission, hfq]
    refine ⟨?_, ?_, ?_, key⟩
    · rw [hres]
      exact ⟨fun _ => hno, fun _ => rfl⟩
    · rw [hres]
      constructor
      · intro h; cases h
      · rintro ⟨q, hq, -⟩; exact absurd hq (hnf q)
    · rw [hres]
      constructor
      · intro h; cases h
      · rintro ⟨q, o, hq, -⟩; exact absurd hq (hnf q)
  | some q =>
    have hq : FirstWith (fun x => x.ID = submission.QuestionID) quiz.Questions q :=
      (find?_iff_firstWith _ _ _).mp hfq
    have hmem : ¬ ∀ q ∈ quiz.Questions, q.ID ≠ submission.QuestionID := by
      obtain ⟨as, bs, hl, hid, -⟩ := hq
      intro h
      exact h q (by rw [hl]; simp) hid
    cases hfo : q.Options.find? (fun o => decide (o.ID = submission.OptionID)) with
    | none =>
      have hno : ∀ o ∈ q.Options, o.ID ≠ submission.OptionID := by
        intro o ho
        simpa using List.find?_eq_none.mp hfo o ho
      have hres : scoreSubmission quiz submission = ⟨false, 0, some .ErrOptionNotFound⟩ := by
        simp only [scoreSubmission, hfq, hfo]
      refine ⟨?_, ?_, ?_, key⟩
      · rw [hres]
        constructor
        · intro h; cases h
        · intro h; exact absurd h hmem
      · rw [hres]
        constructor
        · intro _; exact ⟨q, hq, hno⟩
        · intro _; rfl
      · rw [hres]
        constructor
        · intro h; cases h
        · rintro ⟨q2, o, hq2, ho⟩
          have : q2 = q := firstWith_unique _ _ _ _ hq2 hq
          subst this
          obtain ⟨as, bs, hl, hid, -⟩ := ho
          exact absurd hid (hno o (by rw [hl]; simp))
    | some o =>
      have ho : FirstWith (fun x => x.ID = submission.OptionID) q.Options o :=
        (find?_iff_firstWith _ _ _).mp hfo
      have hk := key q o hq ho
      refine ⟨?_, ?_, ?_, key⟩
      · rw [hk.1]
        constructor
        · intro h; cases h
        · intro h; exact absurd h hmem
      · rw [hk.1]
        constructor
        · intro h; cases h
        · rintro ⟨q2, hq2, hno⟩
          have : q2 = q := firstWith_unique _ _ _ _ hq2 hq
          subst this
          obtain ⟨as, bs, hl, hid, -⟩ := ho
          exact absurd hid (hno o (by rw [hl]; simp))
      · rw [hk.1]
        constructor
        · intro _; exact ⟨q, o, hq, ho⟩
        · intro _; rfl

/-! ## Maps -/

theorem mapGet_mapSet_self {β : Type} (m : List (String × β)) (k : String) (v : β) :
    mapGet (mapSet m k v) k = some v := by
  induction m with
  | nil => simp [mapSet, mapGet]
  | cons kv rest ih =>
    obtain ⟨k1, v1⟩ := kv
    by_cases h : k1 = k
    · simp [mapSet, mapGet, h]
    · simp [mapSet, mapGet, h, ih]

theorem mapGet_mapSet_ne {β : Type} (m : List (String × β)) (k k2 : String) (v : β)
    (hne : k2 ≠ k) : mapGet (mapSet m k v) k2 = mapGet m k2 := by
  induction m with
  | nil => simp [mapSet, mapGet, Ne.symm hne]
  | cons kv rest ih =>
    obtain ⟨k1, v1⟩ := kv
    by_cases h : k1 = k
    · subst h
      simp [mapSet, mapGet, Ne.symm hne]
    · by_cases h2 : k1 = k2
      · subst h2
        simp [mapSet, mapGet, h]
      · simp [mapSet, mapGet, h, h2, ih]

theorem mapGet_eq_none_iff {β : Type} (m : List (String × β)) (k : String) :
    mapGet m k = none ↔ k ∉ m.map Prod.fst := by
  induction m with
  | nil => simp [mapGet]
  | cons kv rest ih =>
    obtain ⟨k1, v1⟩ := kv
    by_cases h : k1 = k
    · simp [mapGet, h]
    · simp [mapGet, h, ih, Ne.symm h]

theorem mem_of_mapGet {β : Type} (m : List (String × β)) (k : String) (v : β)
    (h : mapGet m k = some v) : (k, v) ∈ m := by
  induction m with
  | nil => simp [mapGet] at h
  | cons kv rest ih =>
    obtain ⟨k1, v1⟩ := kv
    by_cases hk : k1 = k
    · simp [mapGet, hk] at h
      simp [hk, h]
    · simp [mapGet, hk] at h
      exact List.mem_cons_of_mem _ (ih h)

theorem mapGet_of_mem {β : Type} (m : List (String × β)) (k : String) (v : β)
    (hnd : (m.map Prod.fst).Nodup) (h : (k, v) ∈ m) : mapGet m k = some v := by
  induction m with
  | nil => simp at h
  | cons kv rest ih =>
    obtain ⟨k1, v1⟩ := kv
    simp only [List.map_cons, List.nodup_cons] at hnd
    rcases List.mem_cons.mp h with heq | hmem
    · cases heq
      simp [mapGet]
    · have hk : k1 ≠ k := by
        intro hk
        apply hnd.1
        rw [hk]
        exact List.mem_map_of_mem Prod.fst hmem
      simp [mapGet, hk, ih hnd.2 hmem]

theorem mapSet_keys_of_mem {β : Type} (m : List (String × β)) (k : String) (v : β)
    (h : k ∈ m.map Prod.fst) : (mapSet m k v).map Prod.fst = m.map Prod.fst := by
  induction m with
  | nil => simp at h
  | cons kv rest ih =>
    obtain ⟨k1, v1⟩ := kv
    by_cases hk : k1 = k
    · simp [mapSet, hk]
    · have : k ∈ rest.map Prod.fst := by
        simp only [List.map_cons, List.mem_cons] at h
        rcases h with h | h
        · exact absurd h.symm hk
        · exact h
      simp [mapSet, hk, ih this]

theorem mapSet_keys_of_not_mem {β : Type} (m : List (String × β)) (k : String) (v : β)
    (h : k ∉ m.map Prod.fst) : (mapSet m k v).map Prod.fst = m.map Prod.fst ++ [k] := by
  induction m with
  | nil => simp [mapSet]
  | cons kv rest ih =>
    obtain ⟨k1, v1⟩ := kv
    simp only [List.map_cons, List.mem_cons, not_or] at h
    simp [mapSet, Ne.symm h.1, ih h.2]

theorem mapSet_nodup {β : Type} (m : List (String × β)) (k : String) (v : β)
    (hnd : (m.map Prod.fst).Nodup) : ((mapSet m k v).map Prod.fst).Nodup := by
  by_cases h : k ∈ m.map Prod.fst
  · rw [mapSet_keys_of_mem m k v h]; exact hnd
  · rw [mapSet_keys_of_not_mem m k v h]
    exact List.Nodup.append hnd (List.nodup_singleton k) (by simpa using h)

theorem mem_mapSet {β : Type} (m : List (String × β)) (k : String) (v : β)
    (kv : String × β) (h : kv ∈ mapSet m k v) : kv = (k, v) ∨ kv ∈ m := by
  induction m with
  | nil => simpa [mapSet] using h
  | cons kv1 rest ih =>
    obtain ⟨k1, v1⟩ := kv1
    by_cases hk : k1 = k
    · simp only [mapSet, hk, if_true, List.mem_cons] at h
      rcases h with h | h
      · exact Or.inl h
      · exact Or.inr (List.mem_cons_of_mem _ h)
    · simp only [mapSet, hk, if_false, List.mem_cons] at h
      rcases h with h | h
      · exact Or.inr (by rw [h]; exact List.mem_cons_self _ _)
      · rcases ih h with h | h
        · exact Or.inl h
        · exact Or.inr (List.mem_cons_of_mem _ h)

theorem mapGet_mapDelete_self {β : Type} (m : List (String × β)) (k : String) :
    mapGet (mapDelete m k) k = none := by
  rw [mapGet_eq_none_iff]
  simp [mapDelete, List.mem_map, List.mem_filter]

theorem mapGet_mapDelete_ne {β : Type} (m : List (String × β)) (k k2 : String)
    (hne : k2 ≠ k) : mapGet (mapDelete m k) k2 = mapGet m k2 := by
  induction m with
  | nil => simp [mapDelete, mapGet]
  | cons kv rest ih =>
    obtain ⟨k1, v1⟩ := kv
    by_cases h : k1 = k
    · subst h
      simpa [mapDelete, mapGet, List.filter_cons, Ne.symm hne] using ih
    · by_cases h2 : k1 = k2
      · subst h2
        simp [mapDelete, mapGet, List.filter_cons, h]
      · simpa [mapDelete, mapGet, List.filter_cons, h, h2] using ih

theorem tableWF_mapSet (m : List (String × Participant)) (k : String) (p : Participant)
    (hm : TableWF m) (hp : p.UserID = k) : TableWF (mapSet m k p) := by
  refine ⟨mapSet_nodup m k p hm.1, ?_⟩
  intro kv hkv
  rcases mem_mapSet m k p kv hkv with h | h
  · rw [h]; exact hp
  · exact hm.2 kv h

theorem tableWF_mapDelete (m : List (String × Participant)) (k : String)
    (hm : TableWF m) : TableWF (mapDelete m k) := by
  refine ⟨?_, ?_⟩
  · exact List.Nodup.sublist (List.Sublist.map _ (List.filter_sublist _)) hm.1
  · intro kv hkv
    exact hm.2 kv (List.mem_of_mem_filter hkv)

/-! ## Broadcast -/

theorem pushLocked_eq (lb : Leaderboard) (c : Chan) (hcap : c.cap = 8)
    (hlen : c.buf.length ≤ 8) : pushLocked lb c = some (pushed lb c) := by
  obtain ⟨id, cap, buf⟩ := c
  simp only at hcap hlen
  subst hcap
  by_cases h : buf.length < 8
  · simp [pushLocked, Chan.send, pushed, h]
  · have h8 : buf.length = 8 := by omega
    cases buf with
    | nil => simp at h8
    | cons x rest =>
      have hr : rest.length = 7 := by simpa using h8
      simp [pushLocked, Chan.send, Chan.drainOne, pushed, h8, hr]

theorem pushed_wf (lb : Leaderboard) (c : Chan) (hcap : c.cap = 8)
    (hlen : c.buf.length ≤ 8) :
    (pushed lb c).id = c.id ∧ (pushed lb c).cap = 8 ∧ (pushed lb c).buf.length ≤ 8 := by
  refine ⟨rfl, hcap, ?_⟩
  simp only [pushed, hcap]
  split
  · simp; omega
  · simp; omega

theorem pushAll_eq (lb : Leaderboard) (cs : List Chan)
    (h : ∀ c ∈ cs, c.cap = 8 ∧ c.buf.length ≤ 8) :
    pushAll lb cs = some (cs.map (pushed lb)) := by
  induction cs with
  | nil => rfl
  | cons c rest ih =>
    have hc := h c (List.mem_cons_self _ _)
    have hr := ih (fun x hx => h x (List.mem_cons_of_mem _ hx))
    simp [pushAll, pushLocked_eq lb c hc.1 hc.2, hr]

theorem chansWF_map_pushed (lb : Leaderboard) (cs : List Chan) (h : ChansWF cs) :
    ChansWF (cs.map (pushed lb)) := by
  refine ⟨?_, ?_⟩
  · have : (cs.map (pushed lb)).map Chan.id = cs.map Chan.id := by
      simp [List.map_map, Function.comp_def, pushed]
    rw [this]; exact h.1
  · intro c hc
    obtain ⟨c0, hc0, rfl⟩ := List.mem_map.mp hc
    have := pushed_wf lb c0 (h.2 c0 hc0).1 (h.2 c0 hc0).2
    exact ⟨this.2.1, this.2.2⟩

/-- With well-formed subscriber channels a broadcast never waits: it returns the
snapshot of the session and pushes it on every channel. -/
theorem broadcastLocked_eq (s : Session) (now : Time) (h : ChansWF s.subscribers) :
    broadcastLocked s now =
      some (snapshotLocked s now,
        { s with subscribers := List.map (pushed (snapshotLocked s now)) s.subscribers }) := by
  simp [broadcastLocked, pushAll_eq _ _ h.2]

/-! ## The invariant of a session -/

theorem join_eq (s : Session) (now snapAt : Time) (userID displayName : String)
    (h : ChansWF s.subscribers) :
    join s now snapAt userID displayName =
      some (snapshotLocked
          { s with participants := joinTable s.participants now userID displayName } snapAt,
        { s with
          participants := joinTable s.participants now userID displayName
          subscribers := List.map
            (pushed (snapshotLocked
              { s with participants := joinTable s.participants now userID displayName }
              snapAt)) s.subscribers }) := by
  unfold join
  exact broadcastLocked_eq _ _ h

theorem applyScore_eq (s : Session) (now snapAt : Time) (userID : String) (correct : Bool)
    (points : Int) (p : Participant) (h : ChansWF s.subscribers)
    (hg : mapGet s.participants userID = some p) :
    applyScore s now snapAt userID correct points =
      some (⟨snapshotLocked
            { s with participants := mapSet s.participants userID (scored p now correct points) }
            snapAt,
          scoreAfter p.Score correct points, none⟩,
        { s with
          participants := mapSet s.participants userID (scored p now correct points)
          subscribers := List.map
            (pushed (snapshotLocked
              { s with
                participants := mapSet s.participants userID (scored p now correct points) }
              snapAt)) s.subscribers }) := by
  simp only [applyScore, hg]
  have hb := broadcastLocked_eq
    { s with participants := mapSet s.participants userID (scored p now correct points) }
    snapAt h
  simp only [scored] at hb ⊢
  rw [hb]

theorem applyScore_absent (s : Session) (now snapAt : Time) (userID : String)
    (correct : Bool) (points : Int) (hg : mapGet s.participants userID = none) :
    applyScore s now snapAt userID correct points =
      some (⟨Leaderboard.zero, 0, some .ErrParticipantNotFound⟩, s) := by
  simp only [applyScore, hg]

theorem leave_eq (s : Session) (snapAt : Time) (userID : String)
    (h : ChansWF s.subscribers) :
    leave s snapAt userID =
      some (snapshotLocked { s with participants := mapDelete s.participants userID } snapAt,
        { s with
          participants := mapDelete s.participants userID
          subscribers := List.map
            (pushed (snapshotLocked { s with participants := mapDelete s.participants userID }
              snapAt)) s.subscribers }) := by
  unfold leave
  exact broadcastLocked_eq _ _ h

theorem userID_of_mapGet (m : List (String × Participant)) (k : String) (p : Participant)
    (hm : TableWF m) (hg : mapGet m k = some p) : p.UserID = k :=
  hm.2 (k, p) (mem_of_mapGet m k p hg)

theorem join_wf (s s1 : Session) (lb : Leaderboard) (now snapAt : Time)
    (userID displayName : String) (hs : s.WF)
    (h : join s now snapAt userID displayName = some (lb, s1)) : s1.WF := by
  rw [join_eq s now snapAt userID displayName hs.2] at h
  cases h
  refine ⟨?_, chansWF_map_pushed _ _ hs.2⟩
  show TableWF (joinTable s.participants now userID displayName)
  unfold joinTable
  cases hg : mapGet s.participants userID with
  | none => exact tableWF_mapSet _ _ _ hs.1 rfl
  | some p => exact tableWF_mapSet _ _ _ hs.1 (userID_of_mapGet _ _ p hs.1 hg)

theorem applyScore_wf (s s1 : Session) (r : ApplyResult) (now snapAt : Time)
    (userID : String) (correct : Bool) (points : Int) (hs : s.WF)
    (h : applyScore s now snapAt userID correct points = some (r, s1)) : s1.WF := by
  cases hg : mapGet s.participants userID with
  | none =>
    rw [applyScore_absent s now snapAt userID correct points hg] at h
    cases h
    exact hs
  | some p =>
    rw [applyScore_eq s now snapAt userID correct points p hs.2 hg] at h
    cases h
    refine ⟨?_, chansWF_map_pushed _ _ hs.2⟩
    exact tableWF_mapSet _ _ _ hs.1 (userID_of_mapGet _ _ p hs.1 hg)

theorem leave_wf (s s1 : Session) (lb : Leaderboard) (snapAt : Time) (userID : String)
    (hs : s.WF) (h : leave s snapAt userID = some (lb, s1)) : s1.WF := by
  rw [leave_eq s snapAt userID hs.2] at h
  cases h
  exact ⟨tableWF_mapDelete _ _ hs.1, chansWF_map_pushed _ _ hs.2⟩

theorem subscribe_eq (s : Session) (ch : Nat) (snapAt : Time) :
    subscribe s ch snapAt =
      some (ch, { s with subscribers := s.subscribers ++
        [{ id := ch, cap := 8, buf := [snapshotLocked
          { s with subscribers := s.subscribers ++ [{ id := ch, cap := 8, buf := [] }] }
          snapAt] }] }) := by
  simp [subscribe, Chan.send]

theorem subscribe_wf (s s1 : Session) (ch : Nat) (snapAt : Time) (hs : s.WF)
    (hfresh : ∀ c ∈ s.subscribers, c.id ≠ ch)
    (h : subscribe s ch snapAt = some (ch, s1)) : s1.WF := by
  rw [subscribe_eq] at h
  cases h
  refine ⟨hs.1, ?_, ?_⟩
  · simp only [List.map_append, List.map_cons, List.map_nil]
    refine List.Nodup.append hs.2.1 (List.nodup_singleton _) ?_
    simp only [List.disjoint_singleton, List.mem_map, not_exists, not_and]
    intro c hc
    exact hfresh c hc
  · intro c hc
    rcases List.mem_append.mp hc with hc | hc
    · exact hs.2.2 c hc
    · simp only [List.mem_singleton] at hc
      subst hc
      simp

theorem cancel_wf (s : Session) (ch : Nat) (hs : s.WF) : (cancel s ch).1.WF := by
  unfold cancel
  split
  · refine ⟨hs.1, ?_, ?_⟩
    · exact List.Nodup.sublist (List.Sublist.map _ (List.filter_sublist _)) hs.2.1
    · intro c hc
      exact hs.2.2 c (List.mem_of_mem_filter hc)
  · exact hs

theorem drainOne_wf (c : Chan) :
    c.drainOne.id = c.id ∧ c.drainOne.cap = c.cap ∧ c.drainOne.buf.length ≤ c.buf.length := by
  obtain ⟨id, cap, buf⟩ := c
  cases buf <;> simp [Chan.drainOne]

theorem consume_wf (s : Session) (ch : Nat) (hs : s.WF) : (consume s ch).WF := by
  refine ⟨hs.1, ?_, ?_⟩
  · have : (List.map (fun c => if c.id = ch then c.drainOne else c) s.subscribers).map Chan.id
        = s.subscribers.map Chan.id := by
      rw [List.map_map]
      apply List.map_congr_left
      intro c _
      simp only [Function.comp]
      split
      · exact (drainOne_wf c).1
      · rfl
    show ((List.map (fun c => if c.id = ch then c.drainOne else c) s.subscribers).map
      Chan.id).Nodup
    rw [this]; exact hs.2.1
  · intro c hc
    obtain ⟨c0, hc0, rfl⟩ := List.mem_map.mp hc
    have h0 := hs.2.2 c0 hc0
    split
    · have := drainOne_wf c0
      exact ⟨by rw [this.2.1]; exact h0.1, le_trans this.2.2 h0.2⟩
    · exact h0

/-- Every reachable session satisfies the invariant. -/
theorem Reachable.wf {s : Session} (h : Reachable s) : s.WF := by
  induction h with
  | init id now => exact ⟨⟨List.nodup_nil, by simp [newSessionWithClock]⟩,
      ⟨List.nodup_nil, by simp [newSessionWithClock]⟩⟩
  | join now snapAt userID displayName _ hj ih => exact join_wf _ _ _ _ _ _ _ ih hj
  | applyScore now snapAt userID correct points _ ha ih =>
    exact applyScore_wf _ _ _ _ _ _ _ _ ih ha
  | leave snapAt userID _ hl ih => exact leave_wf _ _ _ _ _ ih hl
  | subscribe ch snapAt _ hfresh hsub ih => exact subscribe_wf _ _ _ _ ih hfresh hsub
  | cancel ch _ ih => exact cancel_wf _ _ ih
  | consume ch _ ih => exact consume_wf _ _ ih

/-! ## The library sort -/

theorem bubbleLeft_perm {α : Type} (less : α → α → Bool) (x : α) (l : List α) :
    (bubbleLeft less x l).Perm (x :: l) := by
  induction l with
  | nil => exact List.Perm.refl _
  | cons y ys ih =>
    unfold bubbleLeft
    split
    · exact (List.Perm.cons y ih).trans (List.Perm.swap x y ys)
    · exact List.Perm.refl _

theorem foldl_bubbleLeft_perm {α : Type} (less : α → α → Bool) (l acc : List α) :
    (l.foldl (fun sortedRev x => bubbleLeft less x sortedRev) acc).Perm (l.reverse ++ acc) := by
  induction l generalizing acc with
  | nil => exact List.Perm.refl _
  | cons x xs ih =>
    simp only [List.foldl_cons, List.reverse_cons, List.append_assoc, List.singleton_append]
    exact (ih _).trans (List.Perm.append_left _ (bubbleLeft_perm less x acc))

/-- The sort returns a permutation of its input. -/
theorem sortSlice_perm {α : Type} (less : α → α → Bool) (l : List α) :
    (sortSlice less l).Perm l := by
  unfold sortSlice
  refine (List.reverse_perm _).trans ?_
  refine (foldl_bubbleLeft_perm less l []).trans ?_
  simp

theorem bubbleLeft_sorted {α : Type} (less : α → α → Bool) (P : α → Prop)
    (hw : StrictWeakOn less P) (x : α) (l : List α) (hx : P x) (hl : ∀ y ∈ l, P y)
    (hs : l.Pairwise (fun a b => less a b = false)) :
    (bubbleLeft less x l).Pairwise (fun a b => less a b = false) := by
  induction l with
  | nil => simp [bubbleLeft]
  | cons y ys ih =>
    have hy : P y := hl y (List.mem_cons_self _ _)
    have hys : ∀ z ∈ ys, P z := fun z hz => hl z (List.mem_cons_of_mem _ hz)
    rw [List.pairwise_cons] at hs
    unfold bubbleLeft
    by_cases hxy : less x y = true
    · rw [if_pos hxy, List.pairwise_cons]
      refine ⟨?_, ih hys hs.2⟩
      intro b hb
      rcases List.mem_cons.mp ((bubbleLeft_perm less x ys).mem_iff.mp hb) with hb | hb
      · rw [hb]; exact hw.1 x y hx hy hxy
      · exact hs.1 b hb
    · rw [if_neg hxy]
      have hxy2 : less x y = false := by simpa using hxy
      rw [List.pairwise_cons]
      refine ⟨?_, List.pairwise_cons.mpr hs⟩
      intro b hb
      rcases List.mem_cons.mp hb with hb | hb
      · rw [hb]; exact hxy2
      · exact hw.2 x y b hx hy (hys b hb) hxy2 (hs.1 b hb)

theorem foldl_bubbleLeft_sorted {α : Type} (less : α → α → Bool) (P : α → Prop)
    (hw : StrictWeakOn less P) (l acc : List α) (hl : ∀ y ∈ l, P y) (ha : ∀ y ∈ acc, P y)
    (hs : acc.Pairwise (fun a b => less a b = false)) :
    (l.foldl (fun sortedRev x => bubbleLeft less x sortedRev) acc).Pairwise
      (fun a b => less a b = false) := by
  induction l generalizing acc with
  | nil => exact hs
  | cons x xs ih =>
    have hx : P x := hl x (List.mem_cons_self _ _)
    simp only [List.foldl_cons]
    apply ih _ (fun y hy => hl y (List.mem_cons_of_mem _ hy))
    · intro y hy
      rcases List.mem_cons.mp ((bubbleLeft_perm less x acc).mem_iff.mp hy) with h | h
      · rw [h]; exact hx
      · exact ha y h
    · exact bubbleLeft_sorted less P hw x acc hx ha hs

/-- Under a strict weak order the sort leaves no later element less than an earlier one. -/
theorem sortSlice_sorted {α : Type} (less : α → α → Bool) (P : α → Prop)
    (hw : StrictWeakOn less P) (l : List α) (hl : ∀ y ∈ l, P y) :
    (sortSlice less l).Pairwise (fun a b => less b a = false) := by
  unfold sortSlice
  rw [List.pairwise_reverse]
  exact foldl_bubbleLeft_sorted less P hw l [] hl (by simp) List.Pairwise.nil

/-! ## The leaderboard snapshot -/

theorem strLess_iff (a b : String) : strLess a b = true ↔ a < b := by
  simp [strLess, String.lt_iff_toList_lt]

theorem snapshotLess_iff_key (participants : List (String × Participant))
    (e f : LeaderboardEntry) (he : Known participants e) (hf : Known participants f) :
    snapshotLess participants e f = true ↔ sortKey participants e < sortKey participants f := by
  obtain ⟨pe, hpe⟩ := he
  obtain ⟨pf, hpf⟩ := hf
  simp only [sortKey, tsOf, hpe, hpf, Prod.Lex.lt_iff, snapshotLess]
  by_cases hs : e.Score = f.Score
  · by_cases ht : pe.LastUpdated = pf.LastUpdated
    · simp [hs, ht, strLess_iff]
    · simp [hs, ht]
  · simp only [ne_eq, hs, not_false_eq_true, if_true, decide_eq_true_eq, gt_iff_lt, neg_lt_neg_iff,
      neg_inj]
    constructor
    · intro h; exact Or.inl h
    · rintro (h | ⟨h, -⟩)
      · exact h
      · exact h.elim

theorem snapshotLess_strictWeak (participants : List (String × Participant)) :
    StrictWeakOn (snapshotLess participants) (Known participants) := by
  constructor
  · intro a b ha hb hab
    rw [snapshotLess_iff_key _ _ _ ha hb] at hab
    rw [← Bool.not_eq_true, snapshotLess_iff_key _ _ _ hb ha]
    exact lt_asymm hab
  · intro a b c ha hb hc hab hbc
    rw [← Bool.not_eq_true, snapshotLess_iff_key _ _ _ ha hb, not_lt] at hab
    rw [← Bool.not_eq_true, snapshotLess_iff_key _ _ _ hb hc, not_lt] at hbc
    rw [← Bool.not_eq_true, snapshotLess_iff_key _ _ _ ha hc, not_lt]
    exact le_trans hbc hab

theorem ranksBefore_of_not_less (participants : List (String × Participant))
    (e f : LeaderboardEntry) (he : Known participants e) (hf : Known participants f)
    (h : snapshotLess participants f e = false) : RanksBefore participants e f := by
  rw [← Bool.not_eq_true, snapshotLess_iff_key _ _ _ hf he, not_lt] at h
  obtain ⟨pe, hpe⟩ := he
  obtain ⟨pf, hpf⟩ := hf
  refine ⟨pe, pf, hpe, hpf, ?_⟩
  simp only [sortKey, tsOf, hpe, hpf, Prod.Lex.le_iff, neg_lt_neg_iff, neg_inj] at h
  rcases h with h | ⟨h1, h | ⟨h2, h3⟩⟩
  · exact Or.inl h
  · exact Or.inr (Or.inl ⟨h1, h⟩)
  · exact Or.inr (Or.inr ⟨h1, h2, h3⟩)

theorem known_of_mem_entries (participants : List (String × Participant))
    (hm : TableWF participants) (e : LeaderboardEntry)
    (he : e ∈ participants.map (fun kv => entryOf kv.2)) : Known participants e := by
  obtain ⟨kv, hkv, rfl⟩ := List.mem_map.mp he
  refine ⟨kv.2, ?_⟩
  have hk : kv.2.UserID = kv.1 := hm.2 kv hkv
  show mapGet participants kv.2.UserID = some kv.2
  rw [hk]
  exact mapGet_of_mem participants kv.1 kv.2 hm.1 hkv

/-- The snapshot of a well-formed participant table is ordered. -/
theorem snapshotLocked_ordered (s : Session) (now : Time) (hm : TableWF s.participants) :
    Ordered s.participants (snapshotLocked s now).Entries := by
  have hknown : ∀ e ∈ s.participants.map (fun kv => entryOf kv.2), Known s.participants e :=
    known_of_mem_entries s.participants hm
  have hsorted := sortSlice_sorted (snapshotLess s.participants) (Known s.participants)
    (snapshotLess_strictWeak s.participants) _ hknown
  refine List.Pairwise.imp_of_mem ?_ hsorted
  intro e f he hf h
  have he2 := hknown e ((sortSlice_perm _ _).mem_iff.mp he)
  have hf2 := hknown f ((sortSlice_perm _ _).mem_iff.mp hf)
  exact ranksBefore_of_not_less _ e f he2 hf2 h

/-! ## The session: ordering, projection and frame -/

theorem sessionA_reachable : Reachable sessionA :=
  Reachable.join 1 2 "u1" "Alice" (Reachable.init "quiz-1" 0)
    (show join (newSessionWithClock "quiz-1" 0) 1 2 "u1" "Alice" =
      some (⟨"quiz-1", [⟨"u1", "Alice", 0⟩], 2⟩, sessionA) by decide)

theorem sessionB_reachable : Reachable sessionB :=
  Reachable.subscribe 7 3 sessionA_reachable (by decide)
    (show subscribe sessionA 7 3 = some (7, sessionB) by decide)

theorem sampleSession_reachable : Reachable sampleSession :=
  Reachable.join 4 5 "u2" "Bob" sessionB_reachable
    (show join sessionB 4 5 "u2" "Bob" =
      some (⟨"quiz-1", [⟨"u1", "Alice", 0⟩, ⟨"u2", "Bob", 0⟩], 5⟩, sampleSession) by decide)

/-- C1: in every reachable session the leaderboard of `snapshotLocked`, and the
leaderboard returned by `join`, `applyScore` and `leave` (each of which returns), is
ordered with respect to the participant table it was computed from: an entry stands
before another only if its score is higher, or the scores are equal and its participant's
timestamp is earlier, or scores and timestamps are equal and its name is not greater. -/
theorem leaderboard_ordered (s : Session) (hs : Reachable s) :
    (∀ now, Ordered s.participants (snapshotLocked s now).Entries) ∧
    (∀ now snapAt userID displayName, ∃ lb s1,
      join s now snapAt userID displayName = some (lb, s1) ∧
        Ordered s1.participants lb.Entries) ∧
    (∀ now snapAt userID correct points, ∃ r s1,
      applyScore s now snapAt userID correct points = some (r, s1) ∧
        Ordered s1.participants r.lb.Entries) ∧
    (∀ snapAt userID, ∃ lb s1,
      leave s snapAt userID = some (lb, s1) ∧ Ordered s1.participants lb.Entries) := by
  have hwf := hs.wf
  refine ⟨fun now => snapshotLocked_ordered s now hwf.1, ?_, ?_, ?_⟩
  · intro now snapAt userID displayName
    have heq := join_eq s now snapAt userID displayName hwf.2
    have hwf1 := join_wf s _ _ now snapAt userID displayName hwf heq
    exact ⟨_, _, heq, snapshotLocked_ordered _ snapAt hwf1.1⟩
  · intro now snapAt userID correct points
    cases hg : mapGet s.participants userID with
    | none =>
      exact ⟨_, _, applyScore_absent s now snapAt userID correct points hg, List.Pairwise.nil⟩
    | some p =>
      have heq := applyScore_eq s now snapAt userID correct points p hwf.2 hg
      have hwf1 := applyScore_wf s _ _ now snapAt userID correct points hwf heq
      exact ⟨_, _, heq, snapshotLocked_ordered _ snapAt hwf1.1⟩
  · intro snapAt userID
    have heq := leave_eq s snapAt userID hwf.2
    have hwf1 := leave_wf s _ _ snapAt userID hwf heq
    exact ⟨_, _, heq, snapshotLocked_ordered _ snapAt hwf1.1⟩

theorem leaderboard_ordered_witness :
    Reachable sampleSession ∧
      Ordered sampleSession.participants (snapshotLocked sampleSession 9).Entries :=
  ⟨sampleSession_reachable, (leaderboard_ordered sampleSession sampleSession_reachable).1 9⟩

theorem scoredSession_reachable : Reachable scoredSession :=
  Reachable.applyScore 12 13 "u2" true 5 sampleSession_reachable
    (show applyScore sampleSession 12 13 "u2" true 5 =
      some (⟨⟨"quiz-1", [⟨"u2", "Bob", 5⟩, ⟨"u1", "Alice", 0⟩], 13⟩, 5, none⟩, scoredSession)
      by decide)

/-- C2: in every reachable session the entries of the snapshot are a permutation of the
table's participants, each written out as the triple of its user id, its display name and
its score; every entry carries the display name and the score the table stores under the
entry's user id, and every key of the table has its entry; the user ids of the entries are
a permutation of the keys of the table; so there are as many entries as participants and
no user id occurs twice. -/
theorem snapshot_one_entry_per_participant (s : Session) (hs : Reachable s) (now : Time) :
    (snapshotLocked s now).Entries.Perm
      (s.participants.map (fun kv =>
        { UserID := kv.2.UserID, DisplayName := kv.2.DisplayName, Score := kv.2.Score })) ∧
    (∀ e ∈ (snapshotLocked s now).Entries, ∃ p, mapGet s.participants e.UserID = some p ∧
      e.DisplayName = p.DisplayName ∧ e.Score = p.Score) ∧
    (∀ k p, mapGet s.participants k = some p →
      { UserID := k, DisplayName := p.DisplayName, Score := p.Score } ∈
        (snapshotLocked s now).Entries) ∧
    ((snapshotLocked s now).Entries.map (fun e => e.UserID)).Perm
      (s.participants.map Prod.fst) ∧
    (snapshotLocked s now).Entries.length = s.participants.length ∧
    ((snapshotLocked s now).Entries.map (fun e => e.UserID)).Nodup := by
  have hwf := hs.wf
  have hperm : (snapshotLocked s now).Entries.Perm
      (s.participants.map (fun kv => entryOf kv.2)) := sortSlice_perm _ _
  have hkeys : (s.participants.map (fun kv => entryOf kv.2)).map (fun e => e.UserID) =
      s.participants.map Prod.fst := by
    rw [List.map_map]
    apply List.map_congr_left
    intro kv hkv
    exact hwf.1.2 kv hkv
  have hperm2 : ((snapshotLocked s now).Entries.map (fun e => e.UserID)).Perm
      (s.participants.map Prod.fst) := by
    rw [← hkeys]
    exact hperm.map _
  refine ⟨hperm, ?_, ?_, hperm2, ?_, ?_⟩
  · intro e he
    obtain ⟨kv, hkv, rfl⟩ := List.mem_map.mp (hperm.mem_iff.mp he)
    refine ⟨kv.2, ?_, rfl, rfl⟩
    have hid : (entryOf kv.2).UserID = kv.1 := hwf.1.2 kv hkv
    rw [hid]
    exact mapGet_of_mem _ _ _ hwf.1.1 hkv
  · intro k p hg
    have hmem := mem_of_mapGet _ _ _ hg
    have hid : p.UserID = k := hwf.1.2 (k, p) hmem
    apply hperm.mem_iff.mpr
    refine List.mem_map.mpr ⟨(k, p), hmem, ?_⟩
    simp [entryOf, hid]
  · rw [hperm.length_eq, List.length_map]
  · exact hperm2.nodup_iff.mpr hwf.1.1

theorem snapshot_one_entry_per_participant_witness :
    Reachable scoredSession ∧
      (snapshotLocked scoredSession 14).Entries = [⟨"u2", "Bob", 5⟩, ⟨"u1", "Alice", 0⟩] ∧
      (snapshotLocked scoredSession 14).Entries.Perm
        [⟨"u1", "Alice", 0⟩, ⟨"u2", "Bob", 5⟩] ∧
      (∀ e ∈ (snapshotLocked scoredSession 14).Entries,
        ∃ p, mapGet scoredSession.participants e.UserID = some p ∧
          e.DisplayName = p.DisplayName ∧ e.Score = p.Score) ∧
      (snapshotLocked scoredSession 14).Entries.length = 2 :=
  ⟨scoredSession_reachable, by decide,
    (snapshot_one_entry_per_participant scoredSession scoredSession_reachable 14).1,
    (snapshot_one_entry_per_participant scoredSession scoredSession_reachable 14).2.1,
    (snapshot_one_entry_per_participant scoredSession scoredSession_reachable 14).2.2.2.2.1⟩

theorem wrap64_of_inInt64 (x : Int) (h : inInt64 x) : wrap64 x = x := by
  unfold inInt64 at h
  unfold wrap64
  have h1 : 0 ≤ x + 2 ^ 63 := by omega
  have h2 : x + 2 ^ 63 < 2 ^ 64 := by omega
  rw [Int.emod_eq_of_lt h1 h2]
  omega

/-- C3: in every reachable session, for a user id of the participant table, `applyScore`
returns without error; the participant is stored with the timestamp `now` of the call,
whatever `correct` is, and with the score `old + points` (Go addition) if correct and
`points > 0`, `old + 1` if correct and `points = 0`, the old score if not correct; Go's sum
is the integer sum whenever that fits in 64 bits; the returned total is the stored score;
user id and display name are kept and every other participant is unchanged. -/
theorem applyScore_present (s : Session) (hs : Reachable s) (now snapAt : Time)
    (userID : String) (correct : Bool) (points : Int) (p : Participant)
    (hp : mapGet s.participants userID = some p) :
    ∃ lb total s1 p1,
      applyScore s now snapAt userID correct points = some (⟨lb, total, none⟩, s1) ∧
      mapGet s1.participants userID = some p1 ∧
      p1.UserID = p.UserID ∧ p1.DisplayName = p.DisplayName ∧
      p1.LastUpdated = now ∧
      total = p1.Score ∧
      (correct = true → points > 0 → p1.Score = add64 p.Score points) ∧
      (correct = true → points > 0 → inInt64 (p.Score + points) →
        p1.Score = p.Score + points) ∧
      (correct = true → points = 0 → p1.Score = add64 p.Score 1) ∧
      (correct = true → points = 0 → inInt64 (p.Score + 1) → p1.Score = p.Score + 1) ∧
      (correct = false → p1.Score = p.Score) ∧
      (∀ k, k ≠ userID → mapGet s1.participants k = mapGet s.participants k) := by
  have hwf := hs.wf
  have heq := applyScore_eq s now snapAt userID correct points p hwf.2 hp
  refine ⟨_, _, _, scored p now correct points, heq, ?_, rfl, rfl, rfl, rfl, ?_, ?_, ?_, ?_,
    ?_, ?_⟩
  · exact mapGet_mapSet_self _ _ _
  · intro hc hpos
    simp [scored, scoreAfter, hc, hpos]
  · intro hc hpos hin
    simp [scored, scoreAfter, hc, hpos, add64, wrap64_of_inInt64 _ hin]
  · intro hc h0
    simp [scored, scoreAfter, hc, h0]
  · intro hc h0 hin
    simp [scored, scoreAfter, hc, h0, add64, wrap64_of_inInt64 _ hin]
  · intro hc
    simp [scored, scoreAfter, hc]
  · intro k hk
    exact mapGet_mapSet_ne _ _ _ _ hk

theorem applyScore_present_witness :
    Reachable sampleSession ∧
      mapGet sampleSession.participants "u2" = some ⟨"u2", "Bob", 0, 4⟩ ∧
      ∃ lb total s1 p1,
        applyScore sampleSession 6 7 "u2" true 0 = some (⟨lb, total, none⟩, s1) ∧
        mapGet s1.participants "u2" = some p1 ∧
        p1.UserID = "u2" ∧ p1.DisplayName = "Bob" ∧ p1.LastUpdated = 6 ∧ total = p1.Score ∧
        (true = true → (0 : Int) > 0 → p1.Score = add64 0 0) ∧
        (true = true → (0 : Int) > 0 → inInt64 (0 + 0) → p1.Score = 0 + 0) ∧
        (true = true → (0 : Int) = 0 → p1.Score = add64 0 1) ∧
        (true = true → (0 : Int) = 0 → inInt64 (0 + 1) → p1.Score = 0 + 1) ∧
        (true = false → p1.Score = 0) ∧
        (∀ k, k ≠ "u2" → mapGet s1.participants k = mapGet sampleSession.participants k) :=
  ⟨sampleSession_reachable, by decide,
    applyScore_present sampleSession sampleSession_reachable 6 7 "u2" true 0
      ⟨"u2", "Bob", 0, 4⟩ (by decide)⟩

/-- C8: for every session and every user id that is not in the participant table,
`applyScore` returns the zero leaderboard, total 0 and `ErrParticipantNotFound`, and
the session afterwards is the session before: the participant table and every
subscriber's queue are the same, nothing is broadcast. -/
theorem applyScore_unknown_user (s : Session) (now snapAt : Time) (userID : String)
    (correct : Bool) (points : Int) (h : mapGet s.participants userID = none) :
    applyScore s now snapAt userID correct points =
      some (⟨Leaderboard.zero, 0, some .ErrParticipantNotFound⟩, s) :=
  applyScore_absent s now snapAt userID correct points h

theorem applyScore_unknown_user_witness :
    mapGet sampleSession.participants "u3" = none ∧
      applyScore sampleSession 6 7 "u3" true 1 =
        some (⟨Leaderboard.zero, 0, some .ErrParticipantNotFound⟩, sampleSession) :=
  ⟨by decide, applyScore_unknown_user sampleSession 6 7 "u3" true 1 (by decide)⟩

/-- C9: in every reachable session `join` returns; a user id already in the table keeps
its participant with the same user id and score, the display name set to the new one and
the timestamp to the clock reading; an unseen user id gets a participant with score 0;
every other participant is unchanged. -/
theorem join_frame (s : Session) (hs : Reachable s) (now snapAt : Time)
    (userID displayName : String) :
    ∃ lb s1, join s now snapAt userID displayName = some (lb, s1) ∧
      (∀ p, mapGet s.participants userID = some p →
        mapGet s1.participants userID = some ⟨p.UserID, displayName, p.Score, now⟩) ∧
      (mapGet s.participants userID = none →
        mapGet s1.participants userID = some ⟨userID, displayName, 0, now⟩) ∧
      (∀ k, k ≠ userID → mapGet s1.participants k = mapGet s.participants k) := by
  have hwf := hs.wf
  refine ⟨_, _, join_eq s now snapAt userID displayName hwf.2, ?_, ?_, ?_⟩
  · intro p hp
    show mapGet (joinTable s.participants now userID displayName) userID = _
    simp only [joinTable, hp]
    exact mapGet_mapSet_self _ _ _
  · intro hp
    show mapGet (joinTable s.participants now userID displayName) userID = _
    simp only [joinTable, hp]
    exact mapGet_mapSet_self _ _ _
  · intro k hk
    show mapGet (joinTable s.participants now userID displayName) k = _
    unfold joinTable
    cases mapGet s.participants userID <;> exact mapGet_mapSet_ne _ _ _ _ hk

theorem join_frame_witness :
    Reachable sampleSession ∧
      ∃ lb s1, join sampleSession 6 7 "u2" "Robert" = some (lb, s1) ∧
        (∀ p, mapGet sampleSession.participants "u2" = some p →
          mapGet s1.participants "u2" = some ⟨p.UserID, "Robert", p.Score, 6⟩) ∧
        (mapGet sampleSession.participants "u2" = none →
          mapGet s1.participants "u2" = some ⟨"u2", "Robert", 0, 6⟩) ∧
        (∀ k, k ≠ "u2" → mapGet s1.participants k = mapGet sampleSession.participants k) :=
  ⟨sampleSession_reachable, join_frame sampleSession sampleSession_reachable 6 7 "u2" "Robert"⟩

/-! ## The orchestrator: SubmitAnswer -/

theorem submitAnswer_ok_inv (loader : QuizLoader) (svc : QuizService) (t : Readings)
    (quizID userID : String) (submission : AnswerSubmission) (r : SubmitResult)
    (svc1 : QuizService)
    (h : svc.SubmitAnswer loader t quizID userID submission = some (r, svc1))
    (hok : r.err = none) :
    (loadedQuiz loader svc t quizID).err = none ∧
    (scoreSubmission (loadedQuiz loader svc t quizID).quiz submission).err = none ∧
    r.correct = (scoreSubmission (loadedQuiz loader svc t quizID).quiz submission).correct ∧
    r.awarded = awardedOf
      (scoreSubmission (loadedQuiz loader svc t quizID).quiz submission).correct
      (scoreSubmission (loadedQuiz loader svc t quizID).quiz submission).points := by
  unfold QuizService.SubmitAnswer at h
  cases hget : svc.sessions.Get quizID with
  | none =>
    simp only [hget] at h
    cases h
    cases hok
  | some session =>
    simp only [hget] at h
    cases hgot : (GetQuiz loader svc.quizzes t.cacheNow t.loadNow t.draw quizID).1.err with
    | some e =>
      simp only [hgot] at h
      cases h
      cases hok
    | none =>
      simp only [hgot] at h
      cases hsc : (scoreSubmission
          (GetQuiz loader svc.quizzes t.cacheNow t.loadNow t.draw quizID).1.quiz
          submission).err with
      | some e =>
        simp only [hsc] at h
        cases h
        cases hok
      | none =>
        simp only [hsc] at h
        cases hap : applyScore session t.now t.snapAt userID
            (scoreSubmission
              (GetQuiz loader svc.quizzes t.cacheNow t.loadNow t.draw quizID).1.quiz
              submission).correct
            (scoreSubmission
              (GetQuiz loader svc.quizzes t.cacheNow t.loadNow t.draw quizID).1.quiz
              submission).points with
        | none =>
          simp only [hap] at h
          cases h
        | some res =>
          obtain ⟨applied, session1⟩ := res
          simp only [hap] at h
          cases h
          exact ⟨hgot, hsc, rfl, rfl⟩

/-- C5, as the code has it: for every successful `SubmitAnswer` the question and the
option of the submission are found in the loaded quiz, and `pointsAwarded` is 0 if the
option is incorrect, the question's configured point value if the option is correct and
that value is positive, and 1 if the option is correct and that value is 0 or negative. -/
theorem submitAnswer_awarded (loader : QuizLoader) (svc : QuizService) (t : Readings)
    (quizID userID : String) (submission : AnswerSubmission) (r : SubmitResult)
    (svc1 : QuizService)
    (h : svc.SubmitAnswer loader t quizID userID submission = some (r, svc1))
    (hok : r.err = none) :
    ∃ q o,
      FirstWith (fun x => x.ID = submission.QuestionID)
        (loadedQuiz loader svc t quizID).quiz.Questions q ∧
      FirstWith (fun x => x.ID = submission.OptionID) q.Options o ∧
      r.correct = o.Correct ∧
      r.awarded = if o.Correct then (if q.Points > 0 then q.Points else 1) else 0 := by
  obtain ⟨-, hsc, hc, ha⟩ := submitAnswer_ok_inv loader svc t quizID userID submission r svc1 h hok
  obtain ⟨q, o, hq, ho⟩ := (scoreSubmission_errors _ submission).2.2.1.mp hsc
  have hfound := scoreSubmission_found _ submission q o hq ho
  refine ⟨q, o, hq, ho, ?_, ?_⟩
  · rw [hc, hfound]
    cases o.Correct <;> rfl
  · rw [ha, hfound]
    cases hoc : o.Correct
    · simp [awardedOf]
    · simp only [awardedOf, effectivePoints, if_true]
      by_cases h0 : q.Points = 0
      · simp [h0]
      · simp only [h0, if_false]

theorem submitAnswer_awarded_witness :
    sampleService.SubmitAnswer (StaticQuizLoader [("quiz-1", sampleQuiz)]) sampleReadings
        "quiz-1" "u2" ⟨"q1", "o2"⟩ = some (submittedResult, submittedService) ∧
      submittedResult.err = none ∧
      ∃ q o,
        FirstWith (fun x => x.ID = "q1")
          (loadedQuiz (StaticQuizLoader [("quiz-1", sampleQuiz)]) sampleService sampleReadings
            "quiz-1").quiz.Questions q ∧
        FirstWith (fun x => x.ID = "o2") q.Options o ∧
        submittedResult.correct = o.Correct ∧
        submittedResult.awarded =
          if o.Correct then (if q.Points > 0 then q.Points else 1) else 0 :=
  ⟨by decide, rfl,
    submitAnswer_awarded (StaticQuizLoader [("quiz-1", sampleQuiz)]) sampleService
      sampleReadings "quiz-1" "u2" ⟨"q1", "o2"⟩ submittedResult submittedService
      (by decide) rfl⟩

/-- C5 fails as stated: the question `q1` of `negativeQuiz` is configured with -3 points,
`SubmitAnswer` of its correct option `o2` succeeds, and `pointsAwarded` is 1, not -3. -/
theorem submitAnswer_negative_points_counterexample :
    FirstWith (fun x => x.ID = "q1") negativeQuiz.Questions
        ⟨"q1", "Select the right option",
          [⟨"o1", "Wrong", false⟩, ⟨"o2", "Right", true⟩], -3⟩ ∧
      FirstWith (fun x : Option_ => x.ID = "o2")
        [⟨"o1", "Wrong", false⟩, ⟨"o2", "Right", true⟩] ⟨"o2", "Right", true⟩ ∧
      (sampleService.SubmitAnswer (StaticQuizLoader [("quiz-1", negativeQuiz)])
          sampleReadings "quiz-1" "u2" ⟨"q1", "o2"⟩).map
        (fun x => (x.1.err, x.1.correct, x.1.awarded, x.1.total)) =
        some (none, true, 1, 0) :=
  ⟨⟨[], [], rfl, rfl, by simp⟩, ⟨[⟨"o1", "Wrong", false⟩], [], rfl, rfl, by simp⟩, by decide⟩

theorem getQuiz_err (loader : QuizLoader) (r : QuizRepository) (now now2 : Time) (draw : Int)
    (quizID : String) (e : DomainError)
    (h : (GetQuiz loader r now now2 draw quizID).1.err = some e) :
    loader quizID = .error e := by
  unfold GetQuiz at h
  cases h1 : cacheHit r now quizID with
  | some q => simp [h1] at h
  | none =>
    cases h2 : cacheHit r now2 quizID with
    | some q => simp [h1, h2] at h
    | none =>
      cases h3 : loader quizID with
      | error e2 =>
        simp only [h1, h2, h3, Option.some.injEq] at h
        rw [h]
      | ok q => simp [h1, h2, h3] at h

theorem scoreSubmission_err_kind (quiz : Quiz) (submission : AnswerSubmission)
    (e : DomainError) (h : (scoreSubmission quiz submission).err = some e) :
    e = .ErrQuestionNotFound ∨ e = .ErrOptionNotFound := by
  unfold scoreSubmission at h
  cases hq : quiz.Questions.find? (fun q => decide (q.ID = submission.QuestionID)) with
  | none =>
    simp only [hq, Option.some.injEq] at h
    exact Or.inl h.symm
  | some q =>
    cases ho : q.Options.find? (fun o => decide (o.ID = submission.OptionID)) with
    | none =>
      simp only [hq, ho, Option.some.injEq] at h
      exact Or.inr h.symm
    | some o =>
      simp only [hq, ho] at h
      cases hc : o.Correct <;> simp [hc] at h

/-- C7: `SubmitAnswer` returns the error of the first failing check, in this order:
`ErrSessionNotFound` when the store has no session for the quiz id (the service, and so
the repository and its loader count, is left as it was); else the loader's error when
`GetQuiz` fails; else `ErrQuestionNotFound` or `ErrOptionNotFound` from `scoreSubmission`;
else `ErrParticipantNotFound` when the user is not in the session's table; and it succeeds
exactly when a session exists, the quiz loads, the question and the option are found and
the user is a participant. -/
theorem submitAnswer_error_order (loader : QuizLoader) (svc : QuizService) (t : Readings)
    (quizID userID : String) (submission : AnswerSubmission)
    (hwf : ∀ session, svc.sessions.Get quizID = some session → ChansWF session.subscribers) :
    (svc.sessions.Get quizID = none →
      svc.SubmitAnswer loader t quizID userID submission =
        some (⟨Leaderboard.zero, 0, 0, false, some .ErrSessionNotFound⟩, svc)) ∧
    (∀ session e, svc.sessions.Get quizID = some session →
      (loadedQuiz loader svc t quizID).err = some e →
      loader quizID = .error e ∧
        ∃ r svc1, svc.SubmitAnswer loader t quizID userID submission = some (r, svc1) ∧
          r.err = some e) ∧
    (∀ session e, svc.sessions.Get quizID = some session →
      (loadedQuiz loader svc t quizID).err = none →
      (scoreSubmission (loadedQuiz loader svc t quizID).quiz submission).err = some e →
      (e = .ErrQuestionNotFound ∨ e = .ErrOptionNotFound) ∧
        ∃ r svc1, svc.SubmitAnswer loader t quizID userID submission = some (r, svc1) ∧
          r.err = some e) ∧
    (∀ session, svc.sessions.Get quizID = some session →
      (loadedQuiz loader svc t quizID).err = none →
      (scoreSubmission (loadedQuiz loader svc t quizID).quiz submission).err = none →
      mapGet session.participants userID = none →
      ∃ r svc1, svc.SubmitAnswer loader t quizID userID submission = some (r, svc1) ∧
        r.err = some .ErrParticipantNotFound) ∧
    ((∃ r svc1, svc.SubmitAnswer loader t quizID userID submission = some (r, svc1) ∧
        r.err = none) ↔
      ∃ session q o p, svc.sessions.Get quizID = some session ∧
        (loadedQuiz loader svc t quizID).err = none ∧
        FirstWith (fun x => x.ID = submission.QuestionID)
          (loadedQuiz loader svc t quizID).quiz.Questions q ∧
        FirstWith (fun x => x.ID = submission.OptionID) q.Options o ∧
        mapGet session.participants userID = some p) := by
  refine ⟨?_, ?_, ?_, ?_, ?_⟩
  · intro hget
    simp only [QuizService.SubmitAnswer, hget]
  · intro session e hget hgot
    refine ⟨getQuiz_err _ _ _ _ _ _ _ hgot, ?_⟩
    simp only [loadedQuiz] at hgot
    simp only [QuizService.SubmitAnswer, hget, hgot]
    exact ⟨_, _, rfl, rfl⟩
  · intro session e hget hgot hsc
    refine ⟨scoreSubmission_err_kind _ _ _ hsc, ?_⟩
    simp only [loadedQuiz] at hgot hsc
    simp only [QuizService.SubmitAnswer, hget, hgot, hsc]
    exact ⟨_, _, rfl, rfl⟩
  · intro session hget hgot hsc hp
    simp only [loadedQuiz] at hgot hsc
    simp only [QuizService.SubmitAnswer, hget, hgot, hsc,
      applyScore_absent session t.now t.snapAt userID _ _ hp]
    exact ⟨_, _, rfl, rfl⟩
  · constructor
    · rintro ⟨r, svc1, h, hok⟩
      obtain ⟨hgot, hsc, -, -⟩ :=
        submitAnswer_ok_inv loader svc t quizID userID submission r svc1 h hok
      obtain ⟨q, o, hq, ho⟩ := (scoreSubmission_errors _ submission).2.2.1.mp hsc
      cases hget : svc.sessions.Get quizID with
      | none =>
        simp only [QuizService.SubmitAnswer, hget] at h
        cases h
        cases hok
      | some session =>
        cases hp : mapGet session.participants userID with
        | none =>
          simp only [loadedQuiz] at hgot hsc
          simp only [QuizService.SubmitAnswer, hget, hgot, hsc,
            applyScore_absent session t.now t.snapAt userID _ _ hp] at h
          cases h
          cases hok
        | some p => exact ⟨session, q, o, p, rfl, hgot, hq, ho, hp⟩
    · rintro ⟨session, q, o, p, hget, hgot, hq, ho, hp⟩
      have hsc := (scoreSubmission_errors _ submission).2.2.1.mpr ⟨q, o, hq, ho⟩
      simp only [loadedQuiz] at hgot hsc
      simp only [QuizService.SubmitAnswer, hget, hgot, hsc,
        applyScore_eq session t.now t.snapAt userID _ _ p (hwf session hget) hp]
      exact ⟨_, _, rfl, rfl⟩

theorem sampleService_chansWF (session : Session)
    (h : sampleService.sessions.Get "quiz-1" = some session) :
    ChansWF session.subscribers := by
  have hs : sampleService.sessions.Get "quiz-1" = some sampleSession := by decide
  rw [hs] at h
  cases h
  exact sampleSession_reachable.wf.2

theorem submitAnswer_error_order_witness :
    (∀ session, sampleService.sessions.Get "quiz-1" = some session →
        ChansWF session.subscribers) ∧
      sampleService.sessions.Get "quiz-1" = some sampleSession ∧
      mapGet sampleSession.participants "u9" = none ∧
      ∃ r svc1,
        sampleService.SubmitAnswer (StaticQuizLoader [("quiz-1", sampleQuiz)]) sampleReadings
          "quiz-1" "u9" ⟨"q1", "o2"⟩ = some (r, svc1) ∧
        r.err = some .ErrParticipantNotFound :=
  ⟨sampleService_chansWF, by decide, by decide,
    (submitAnswer_error_order (StaticQuizLoader [("quiz-1", sampleQuiz)]) sampleService
      sampleReadings "quiz-1" "u9" ⟨"q1", "o2"⟩ sampleService_chansWF).2.2.2.1
      sampleSession (by decide) (by decide) (by decide) (by decide)⟩

/-! ## The quiz cache -/

theorem cacheHit_of_fresh (r : QuizRepository) (now : Time) (quizID : String)
    (entry : cachedQuiz) (h : mapGet r.cache quizID = some entry)
    (hnow : now < entry.expiresAt) : cacheHit r now quizID = some entry.quiz := by
  simp [cacheHit, h, hnow]

theorem cacheHit_of_expired (r : QuizRepository) (now : Time) (quizID : String)
    (entry : cachedQuiz) (h : mapGet r.cache quizID = some entry)
    (hnow : entry.expiresAt ≤ now) : cacheHit r now quizID = none := by
  simp [cacheHit, h, not_lt.mpr hnow]

theorem cacheHit_of_absent (r : QuizRepository) (now : Time) (quizID : String)
    (h : mapGet r.cache quizID = none) : cacheHit r now quizID = none := by
  simp [cacheHit, h]

/-- What `GetQuiz` does when neither test of the cache succeeds: the loader is called once. -/
theorem getQuiz_miss (loader : QuizLoader) (r : QuizRepository) (now now2 : Time) (draw : Int)
    (quizID : String) (h1 : cacheHit r now quizID = none) (h2 : cacheHit r now2 quizID = none) :
    GetQuiz loader r now now2 draw quizID =
      match loader quizID with
      | .error err => (⟨Quiz.zero, some err⟩, { r with calls := r.calls + 1 })
      | .ok quiz =>
        (⟨quiz, none⟩,
          { r with
            calls := r.calls + 1
            cache := mapSet r.cache quizID
              { quiz := quiz, expiresAt := now2 + ttlWithJitter r.ttl draw } }) := by
  simp only [GetQuiz, h1, h2]

theorem getQuiz_hit (loader : QuizLoader) (r : QuizRepository) (now now2 : Time) (draw : Int)
    (quizID : String) (quiz : Quiz) (h : cacheHit r now quizID = some quiz) :
    GetQuiz loader r now now2 draw quizID = (⟨quiz, none⟩, r) := by
  simp only [GetQuiz, h]

/-- C10: (a) when the cache holds an entry for the id with `now < expiry`, `GetQuiz`
returns that entry's quiz and leaves the repository as it was, cache and loader count.
(b) When the entry's expiry satisfies `expiry <= now` (the later reading `now2` of the
clock not being earlier than `now`), `GetQuiz` does what it does on the cache without the
entry: the same results, the loader invoked once in both, and afterwards the two caches
serve the same quiz for every id at every time from `now` on.  (c) After a call that
missed and loaded `quiz`, a second call for the same id whose clock reading is before the
expiry just written returns `quiz` and does not invoke the loader: one invocation in all. -/
theorem getQuiz_cache (loader loader2 : QuizLoader) (r : QuizRepository)
    (now now2 now3 now4 : Time) (draw draw2 : Int) (quizID : String) :
    (∀ entry, mapGet r.cache quizID = some entry → now < entry.expiresAt →
      GetQuiz loader r now now2 draw quizID = (⟨entry.quiz, none⟩, r)) ∧
    (∀ entry, mapGet r.cache quizID = some entry → entry.expiresAt ≤ now → now ≤ now2 →
      (GetQuiz loader r now now2 draw quizID).1 =
        (GetQuiz loader { r with cache := mapDelete r.cache quizID } now now2 draw quizID).1 ∧
      (GetQuiz loader r now now2 draw quizID).2.calls = r.calls + 1 ∧
      (GetQuiz loader { r with cache := mapDelete r.cache quizID } now now2 draw
        quizID).2.calls = r.calls + 1 ∧
      ∀ k t, now ≤ t →
        cacheHit (GetQuiz loader r now now2 draw quizID).2 t k =
          cacheHit (GetQuiz loader { r with cache := mapDelete r.cache quizID } now now2 draw
            quizID).2 t k) ∧
    (∀ quiz, cacheHit r now quizID = none → cacheHit r now2 quizID = none →
      loader quizID = .ok quiz → now3 < now2 + ttlWithJitter r.ttl draw →
      (GetQuiz loader r now now2 draw quizID).1 = ⟨quiz, none⟩ ∧
      (GetQuiz loader r now now2 draw quizID).2.calls = r.calls + 1 ∧
      GetQuiz loader2 (GetQuiz loader r now now2 draw quizID).2 now3 now4 draw2 quizID =
        (⟨quiz, none⟩, (GetQuiz loader r now now2 draw quizID).2)) := by
  refine ⟨?_, ?_, ?_⟩
  · intro entry h hnow
    exact getQuiz_hit loader r now now2 draw quizID entry.quiz
      (cacheHit_of_fresh r now quizID entry h hnow)
  · intro entry h hexp hmono
    have h1 := cacheHit_of_expired r now quizID entry h hexp
    have h2 := cacheHit_of_expired r now2 quizID entry h (le_trans hexp hmono)
    have hd : mapGet (mapDelete r.cache quizID) quizID = none := mapGet_mapDelete_self _ _
    have h3 : ∀ t, cacheHit { r with cache := mapDelete r.cache quizID } t quizID = none :=
      fun t => cacheHit_of_absent _ t quizID hd
    rw [getQuiz_miss loader r now now2 draw quizID h1 h2,
      getQuiz_miss loader _ now now2 draw quizID (h3 now) (h3 now2)]
    cases hl : loader quizID with
    | error e =>
      refine ⟨rfl, rfl, rfl, ?_⟩
      intro k t ht
      by_cases hk : k = quizID
      · subst hk
        simp only [cacheHit, h, hd, not_lt.mpr (le_trans hexp ht), gt_iff_lt, if_false]
      · simp only [cacheHit, mapGet_mapDelete_ne _ _ _ hk]
    | ok q =>
      refine ⟨rfl, rfl, rfl, ?_⟩
      intro k t _
      by_cases hk : k = quizID
      · subst hk
        simp only [cacheHit, mapGet_mapSet_self]
      · simp only [cacheHit, mapGet_mapSet_ne _ _ _ _ hk, mapGet_mapDelete_ne _ _ _ hk]
  · intro quiz h1 h2 hl hnow3
    rw [getQuiz_miss loader r now now2 draw quizID h1 h2]
    simp only [hl]
    refine ⟨trivial, trivial, ?_⟩
    apply getQuiz_hit
    simp only [cacheHit, mapGet_mapSet_self, gt_iff_lt, hnow3, if_true]

theorem getQuiz_cache_witness :
    mapGet warmRepository.cache "quiz-1" = some ⟨sampleQuiz, 500⟩ ∧
      GetQuiz (StaticQuizLoader []) warmRepository 499 499 0 "quiz-1" =
        (⟨sampleQuiz, none⟩, warmRepository) ∧
      ((GetQuiz (StaticQuizLoader [("quiz-1", negativeQuiz)]) warmRepository 500 501 7
          "quiz-1").1 = ⟨negativeQuiz, none⟩ ∧
        (GetQuiz (StaticQuizLoader [("quiz-1", negativeQuiz)]) warmRepository 500 501 7
          "quiz-1").2.calls = 2) :=
  ⟨by decide,
    (getQuiz_cache (StaticQuizLoader []) (StaticQuizLoader []) warmRepository 499 499 0 0 0 0
      "quiz-1").1 ⟨sampleQuiz, 500⟩ (by decide) (by decide),
    by
      have h := (getQuiz_cache (StaticQuizLoader [("quiz-1", negativeQuiz)])
        (StaticQuizLoader []) warmRepository 500 501 501 501 7 7 "quiz-1").2.2 negativeQuiz
        (by decide) (by decide) rfl (by decide)
      exact ⟨h.1, h.2.1⟩⟩

/-! ## The quiz cache: expiry, jitter and failed loads -/

/-- With a ttl that is not positive the entry a load writes expires at the clock reading
of that load, so a call at that reading or later (the clock not going back) invokes the
loader again. -/
theorem getQuiz_nonpositive_ttl_reloads (loader loader2 : QuizLoader) (r : QuizRepository)
    (now now2 now3 now4 : Time) (draw draw2 : Int) (quizID : String) (quiz : Quiz)
    (httl : r.ttl ≤ 0) (h1 : cacheHit r now quizID = none)
    (h2 : cacheHit r now2 quizID = none) (hl : loader quizID = .ok quiz)
    (h3 : now2 ≤ now3) (h4 : now3 ≤ now4) :
    (GetQuiz loader2 (GetQuiz loader r now now2 draw quizID).2 now3 now4 draw2
      quizID).2.calls = r.calls + 2 := by
  rw [getQuiz_miss loader r now now2 draw quizID h1 h2]
  simp only [hl]
  have hj : ttlWithJitter r.ttl draw = 0 := by simp [ttlWithJitter, httl]
  rw [getQuiz_miss]
  · cases loader2 quizID <;> rfl
  · simp only [cacheHit, mapGet_mapSet_self, hj, add_zero, gt_iff_lt, not_lt.mpr h3, if_false]
  · simp only [cacheHit, mapGet_mapSet_self, hj, add_zero, gt_iff_lt,
      not_lt.mpr (le_trans h3 h4), if_false]

/-- C11 at a failing input: a repository with ttl 0 loads `quiz-1` at clock reading 100;
the entry written expires at 100; a second `GetQuiz` at the later reading 200 is not
served from the cache: the loader has then been invoked twice. -/
theorem getQuiz_ttl_zero_reloads :
    (GetQuiz (StaticQuizLoader [("quiz-1", sampleQuiz)]) noTTLRepository 100 100 7
        "quiz-1").2 = ⟨0, [("quiz-1", ⟨sampleQuiz, 100⟩)], 1⟩ ∧
      cacheHit ⟨0, [("quiz-1", ⟨sampleQuiz, 100⟩)], 1⟩ 200 "quiz-1" = none ∧
      (GetQuiz (StaticQuizLoader [("quiz-1", sampleQuiz)])
        (GetQuiz (StaticQuizLoader [("quiz-1", sampleQuiz)]) noTTLRepository 100 100 7
          "quiz-1").2 200 200 7 "quiz-1").2.calls = 2 := by
  decide

theorem int63n_bounds (draw n : Int) (hn : 0 < n) : 0 ≤ Int63n draw n ∧ Int63n draw n < n :=
  ⟨Int.emod_nonneg draw (ne_of_gt hn), Int.emod_lt_of_pos draw hn⟩

/-- C12: for every `ttl > 0` and every draw of the random source (a non-negative 63-bit
value), absent overflow of `ttl + ttl/10`, `ttlWithJitter` returns `d` with
`ttl <= d <= ttl + ttl/10`, so the jitter `d - ttl` is in `[0, ttl/10]`; and the entry a
successful load writes expires at `now2 + d`, `now2` being the clock reading taken inside
the load. -/
theorem ttlWithJitter_bounds (ttl draw : Int) (hpos : 0 < ttl) (hdraw : 0 ≤ draw)
    (hno : inInt64 (ttl + ttl / 10)) :
    ttl ≤ ttlWithJitter ttl draw ∧ ttlWithJitter ttl draw ≤ ttl + ttl / 10 ∧
    (0 ≤ ttlWithJitter ttl draw - ttl ∧ ttlWithJitter ttl draw - ttl ≤ ttl / 10) ∧
    ∀ (loader : QuizLoader) (r : QuizRepository) (now now2 : Time) (quizID : String)
      (quiz : Quiz), r.ttl = ttl → cacheHit r now quizID = none →
      cacheHit r now2 quizID = none → loader quizID = .ok quiz →
      mapGet (GetQuiz loader r now now2 draw quizID).2.cache quizID =
        some ⟨quiz, now2 + ttlWithJitter ttl draw⟩ := by
  have hdiv : 0 ≤ ttl / 10 := Int.ediv_nonneg (le_of_lt hpos) (by norm_num)
  have hb := int63n_bounds draw (ttl / 10 + 1) (by omega)
  have hin : inInt64 (ttl + Int63n draw (ttl / 10 + 1)) := by
    unfold inInt64 at hno ⊢
    omega
  have heq : ttlWithJitter ttl draw = ttl + Int63n draw (ttl / 10 + 1) := by
    simp only [ttlWithJitter, not_le.mpr hpos, if_false, add64]
    exact wrap64_of_inInt64 _ hin
  have _ := hdraw
  refine ⟨by omega, by omega, ⟨by omega, by omega⟩, ?_⟩
  intro loader r now now2 quizID quiz httl h1 h2 hl
  rw [getQuiz_miss loader r now now2 draw quizID h1 h2]
  simp only [hl, httl]
  exact mapGet_mapSet_self _ _ _

theorem ttlWithJitter_bounds_witness :
    (0 : Int) < 300000000000 ∧ (0 : Int) ≤ 12345 ∧
      inInt64 (300000000000 + 300000000000 / 10) ∧
      (300000000000 : Int) ≤ ttlWithJitter 300000000000 12345 ∧
      ttlWithJitter 300000000000 12345 ≤ 300000000000 + 300000000000 / 10 :=
  ⟨by decide, by decide, by unfold inInt64; decide,
    (ttlWithJitter_bounds 300000000000 12345 (by decide) (by decide)
      (by unfold inInt64; decide)).1,
    (ttlWithJitter_bounds 300000000000 12345 (by decide) (by decide)
      (by unfold inInt64; decide)).2.1⟩

/-- C13: when neither test of the cache finds an unexpired entry and the loader fails with
`e`, `GetQuiz` returns the zero quiz and exactly `e`, and leaves the cache map as it was
(nothing written, an expired entry neither replaced nor removed); only the loader count
grows by one.  A quiz id the static loader does not hold gives `ErrQuizNotFound`. -/
theorem getQuiz_load_error (loader : QuizLoader) (r : QuizRepository) (now now2 : Time)
    (draw : Int) (quizID : String) (e : DomainError)
    (h1 : cacheHit r now quizID = none) (h2 : cacheHit r now2 quizID = none)
    (hl : loader quizID = .error e) :
    GetQuiz loader r now now2 draw quizID =
      (⟨Quiz.zero, some e⟩, { r with calls := r.calls + 1 }) ∧
    (GetQuiz loader r now now2 draw quizID).1.err = some e ∧
    (GetQuiz loader r now now2 draw quizID).2.cache = r.cache ∧
    (∀ quizzes : List (String × Quiz), mapGet quizzes quizID = none →
      (GetQuiz (StaticQuizLoader quizzes) r now now2 draw quizID).1.err =
        some .ErrQuizNotFound) := by
  have h : GetQuiz loader r now now2 draw quizID =
      (⟨Quiz.zero, some e⟩, { r with calls := r.calls + 1 }) := by
    rw [getQuiz_miss loader r now now2 draw quizID h1 h2]
    simp only [hl]
  refine ⟨h, by rw [h], by rw [h], ?_⟩
  intro quizzes hq
  rw [getQuiz_miss _ r now now2 draw quizID h1 h2]
  simp only [StaticQuizLoader, hq]

theorem getQuiz_load_error_witness :
    cacheHit staleRepository 600 "quiz-1" = none ∧
      GetQuiz (fun _ => .error (.other "connection refused")) staleRepository 600 601 7
          "quiz-1" =
        (⟨Quiz.zero, some (.other "connection refused")⟩,
          { staleRepository with calls := staleRepository.calls + 1 }) ∧
      (GetQuiz (fun _ => .error (.other "connection refused")) staleRepository 600 601 7
        "quiz-1").2.cache = staleRepository.cache :=
  ⟨by decide,
    (getQuiz_load_error (fun _ => .error (.other "connection refused")) staleRepository
      600 601 7 "quiz-1" (.other "connection refused") (by decide) (by decide) rfl).1,
    (getQuiz_load_error (fun _ => .error (.other "connection refused")) staleRepository
      600 601 7 "quiz-1" (.other "connection refused") (by decide) (by decide) rfl).2.2.1⟩

/-! ## Broadcast to the subscribers -/

theorem pushed_eq_queueAfter (lb : Leaderboard) (c : Chan) (hcap : c.cap = 8) :
    pushed lb c = { c with buf := queueAfter c.buf lb } := by
  simp [pushed, queueAfter, hcap]

theorem map_pushed_eq (lb : Leaderboard) (cs : List Chan) (h : ChansWF cs) :
    cs.map (pushed lb) = cs.map (fun c => { c with buf := queueAfter c.buf lb }) := by
  apply List.map_congr_left
  intro c hc
  exact pushed_eq_queueAfter lb c (h.2 c hc).1

theorem snapshotLocked_subscribers (s : Session) (subs : List Chan) (now : Time) :
    snapshotLocked { s with subscribers := subs } now = snapshotLocked s now := rfl

/-- What a mutation leaves: the snapshot of the new table, pushed on every channel. -/
theorem mutates_inv (s s1 : Session) (lb : Leaderboard) (h : ChansWF s.subscribers)
    (hm : Mutates s lb s1) :
    s1.subscribers = s.subscribers.map (pushed lb) ∧ lb = snapshotLocked s1 lb.UpdatedAt := by
  rcases hm with ⟨now, snapAt, userID, displayName, hj⟩ |
    ⟨now, snapAt, userID, correct, points, total, ha⟩ | ⟨snapAt, userID, hl⟩
  · rw [join_eq s now snapAt userID displayName h] at hj
    cases hj
    exact ⟨rfl, rfl⟩
  · cases hg : mapGet s.participants userID with
    | none =>
      rw [applyScore_absent s now snapAt userID correct points hg] at ha
      cases ha
    | some p =>
      rw [applyScore_eq s now snapAt userID correct points p h hg] at ha
      cases ha
      exact ⟨rfl, rfl⟩
  · rw [leave_eq s snapAt userID h] at hl
    cases hl
    exact ⟨rfl, rfl⟩

theorem scoreTimes_reachable (n : Nat) : Reachable (scoreTimes n) := by
  induction n with
  | zero => exact sessionB_reachable
  | succ n ih =>
    unfold scoreTimes
    cases h : applyScore (scoreTimes n) (10 + n) (10 + n) "u1" true 1 with
    | none => exact ih
    | some r => exact Reachable.applyScore _ _ _ _ _ ih h

/-- C14: in every reachable session every queue holds at most 8 snapshots, and each
mutation returns, nobody reading meanwhile: `join`, `applyScore` for a participant of the
table (without error), and `leave`.  The leaderboard `lb` a mutation returns is the
snapshot of the new participant table, and the subscribers afterwards are the subscribers
before, channel by channel, each with the queue `q` it had followed by `lb` if `q` held
fewer than 8 snapshots, and `q` without its oldest snapshot followed by `lb` if `q` held 8;
in both cases the queue ends in `lb`, holds at most 8 snapshots, and the snapshots kept
stand in the order they had. -/
theorem broadcast_queues (s : Session) (hs : Reachable s) :
    (∀ c ∈ s.subscribers, c.buf.length ≤ 8) ∧
    (∀ now snapAt userID displayName, ∃ lb s1,
      join s now snapAt userID displayName = some (lb, s1)) ∧
    (∀ now snapAt userID correct points p, mapGet s.participants userID = some p →
      ∃ lb total s1,
        applyScore s now snapAt userID correct points = some (⟨lb, total, none⟩, s1)) ∧
    (∀ snapAt userID, ∃ lb s1, leave s snapAt userID = some (lb, s1)) ∧
    (∀ lb s1, Mutates s lb s1 →
      lb = snapshotLocked s1 lb.UpdatedAt ∧
      List.Forall₂
        (fun c c1 => c1.id = c.id ∧ c1.cap = c.cap ∧
          (c.buf.length < 8 → c1.buf = c.buf ++ [lb]) ∧
          (c.buf.length = 8 →
            ∃ oldest rest, c.buf = oldest :: rest ∧ c1.buf = rest ++ [lb]) ∧
          c1.buf.length ≤ 8 ∧ c1.buf.getLast? = some lb ∧
          (c1.buf.dropLast).Sublist c.buf)
        s.subscribers s1.subscribers) := by
  have hwf := hs.wf
  refine ⟨fun c hc => (hwf.2.2 c hc).2, ?_, ?_, ?_, ?_⟩
  · intro now snapAt userID displayName
    exact ⟨_, _, join_eq s now snapAt userID displayName hwf.2⟩
  · intro now snapAt userID correct points p hg
    exact ⟨_, _, _, applyScore_eq s now snapAt userID correct points p hwf.2 hg⟩
  · intro snapAt userID
    exact ⟨_, _, leave_eq s snapAt userID hwf.2⟩
  · intro lb s1 hm
    obtain ⟨hsubs, hlb⟩ := mutates_inv s s1 lb hwf.2 hm
    refine ⟨hlb, ?_⟩
    rw [hsubs, List.forall₂_map_right_iff, List.forall₂_same]
    intro c hc
    obtain ⟨hcap, hlen⟩ := hwf.2.2 c hc
    obtain ⟨id, cap, buf⟩ := c
    simp only at hcap hlen
    subst hcap
    by_cases hlt : buf.length < 8
    · refine ⟨rfl, rfl, ?_, ?_, ?_, ?_, ?_⟩
      · intro _
        simp [pushed, hlt]
      · intro h8
        simp only at h8
        omega
      · simp only [pushed, hlt, if_true, List.length_append, List.length_singleton]
        omega
      · simp only [pushed, hlt, if_true]
        exact List.getLast?_concat _
      · simp only [pushed, hlt, if_true, List.dropLast_concat]
        exact List.Sublist.refl _
    · have h8 : buf.length = 8 := by omega
      match buf, h8 with
      | oldest :: rest, h8 =>
        have hpush : (pushed lb ⟨id, 8, oldest :: rest⟩).buf = rest ++ [lb] := by
          simp [pushed, h8]
        refine ⟨rfl, rfl, ?_, ?_, ?_, ?_, ?_⟩
        · intro h
          exact absurd h hlt
        · intro _
          exact ⟨oldest, rest, rfl, hpush⟩
        · rw [hpush]
          simp only [List.length_cons] at h8
          simp only [List.length_append, List.length_singleton]
          omega
        · rw [hpush]
          exact List.getLast?_concat _
        · rw [hpush, List.dropLast_concat]
          exact List.sublist_cons_self _ _

set_option maxRecDepth 8000 in
theorem broadcast_queues_witness :
    Reachable fullSession ∧
      fullSession.subscribers.map (fun c => c.buf.map (fun lb => lb.UpdatedAt)) =
        [[3, 10, 11, 12, 13, 14, 15, 16]] ∧
      (∃ lb total s1,
        applyScore fullSession 30 31 "u1" true 2 = some (⟨lb, total, none⟩, s1) ∧
        lb = snapshotLocked s1 lb.UpdatedAt ∧
        List.Forall₂
          (fun c c1 => c1.id = c.id ∧ c1.cap = c.cap ∧
            (c.buf.length < 8 → c1.buf = c.buf ++ [lb]) ∧
            (c.buf.length = 8 →
              ∃ oldest rest, c.buf = oldest :: rest ∧ c1.buf = rest ++ [lb]) ∧
            c1.buf.length ≤ 8 ∧ c1.buf.getLast? = some lb ∧
            (c1.buf.dropLast).Sublist c.buf)
          fullSession.subscribers s1.subscribers) ∧
      (applyScore fullSession 30 31 "u1" true 2).map
        (fun r => (r.1.lb.UpdatedAt, r.1.total, r.1.err,
          r.2.subscribers.map (fun c => c.buf.map (fun lb => lb.UpdatedAt)))) =
        some (31, 9, none, [[10, 11, 12, 13, 14, 15, 16, 31]]) ∧
      leave sampleSession 9 "u2" =
        some (⟨"quiz-1", [⟨"u1", "Alice", 0⟩], 9⟩, afterBobLeft) :=
  ⟨scoreTimes_reachable 7, by decide,
    by
      obtain ⟨lb, total, s1, h⟩ :=
        (broadcast_queues fullSession (scoreTimes_reachable 7)).2.2.1 30 31 "u1" true 2
          ⟨"u1", "Alice", 7, 16⟩ (by decide)
      exact ⟨lb, total, s1, h,
        (broadcast_queues fullSession (scoreTimes_reachable 7)).2.2.2.2 lb s1
          (Or.inr (Or.inl ⟨30, 31, "u1", true, 2, total, h⟩))⟩,
    by decide, by decide⟩

/-- C15, as the code has it: in every reachable session `join`, `applyScore` and `leave`
return, whatever the channels hold (the broadcast does not wait); and for a subscriber
whose channel holds 8 snapshots when a mutation broadcasts, the channel afterwards holds
the seven newest of those, in order, followed by the mutation's snapshot as the eighth:
the subscriber's next read yields the second oldest snapshot queued before, and the
mutation's snapshot is the last of the queue. -/
theorem broadcast_on_full_channel (s : Session) (hs : Reachable s) :
    (∀ now snapAt userID displayName, ∃ lb s1,
      join s now snapAt userID displayName = some (lb, s1)) ∧
    (∀ now snapAt userID correct points, ∃ r s1,
      applyScore s now snapAt userID correct points = some (r, s1)) ∧
    (∀ snapAt userID, ∃ lb s1, leave s snapAt userID = some (lb, s1)) ∧
    (∀ lb s1, Mutates s lb s1 → ∀ c ∈ s.subscribers, c.buf.length = 8 →
      ∃ oldest second rest, c.buf = oldest :: second :: rest ∧
        (⟨c.id, c.cap, second :: rest ++ [lb]⟩ : Chan) ∈ s1.subscribers ∧
        Chan.recv ⟨c.id, c.cap, second :: rest ++ [lb]⟩ =
          some (second, ⟨c.id, c.cap, rest ++ [lb]⟩) ∧
        (second :: rest ++ [lb]).length = 8 ∧
        (second :: rest ++ [lb]).getLast? = some lb) := by
  have hwf := hs.wf
  refine ⟨?_, ?_, ?_, ?_⟩
  · intro now snapAt userID displayName
    exact ⟨_, _, join_eq s now snapAt userID displayName hwf.2⟩
  · intro now snapAt userID correct points
    cases hg : mapGet s.participants userID with
    | none => exact ⟨_, _, applyScore_absent s now snapAt userID correct points hg⟩
    | some p => exact ⟨_, _, applyScore_eq s now snapAt userID correct points p hwf.2 hg⟩
  · intro snapAt userID
    exact ⟨_, _, leave_eq s snapAt userID hwf.2⟩
  · intro lb s1 hm c hc h8
    obtain ⟨hsubs, -⟩ := mutates_inv s s1 lb hwf.2 hm
    obtain ⟨id, cap, buf⟩ := c
    simp only at h8
    match buf, h8 with
    | oldest :: second :: rest, h8 =>
      refine ⟨oldest, second, rest, rfl, ?_, rfl, ?_, ?_⟩
      · rw [hsubs]
        refine List.mem_map.mpr ⟨⟨id, cap, oldest :: second :: rest⟩, hc, ?_⟩
        have hcap : cap = 8 := (hwf.2.2 _ hc).1
        simp [pushed, hcap, h8]
      · simp only [List.length_cons] at h8
        simp only [List.cons_append, List.length_cons, List.length_append, List.length_nil]
        omega
      · show ((second :: rest) ++ [lb]).getLast? = some lb
        exact List.getLast?_concat _

theorem broadcast_on_full_channel_witness :
    Reachable fullSession ∧
      ∃ lb s1, join fullSession 20 21 "u2" "Bob" = some (lb, s1) :=
  ⟨scoreTimes_reachable 7,
    (broadcast_on_full_channel fullSession (scoreTimes_reachable 7)).1 20 21 "u2" "Bob"⟩

set_option maxRecDepth 8000 in
/-- C15 fails as stated: in the reachable session `fullSession` the subscriber's channel
holds 8 snapshots (taken at 3, 10, ..., 16); Bob's `join` broadcasts the snapshot taken at
21; the subscriber's next read yields the snapshot taken at 10, not the one of the join. -/
theorem broadcast_full_next_read_counterexample :
    Reachable fullSession ∧
      fullSession.subscribers.map (fun c => c.buf.map (fun lb => lb.UpdatedAt)) =
        [[3, 10, 11, 12, 13, 14, 15, 16]] ∧
      (join fullSession 20 21 "u2" "Bob").map
        (fun r => (r.1.UpdatedAt,
          r.2.subscribers.map (fun c => (c.recv).map (fun x => x.1.UpdatedAt)))) =
        some (21, [some 10]) ∧
      (join fullSession 20 21 "u2" "Bob").map
        (fun r => r.2.subscribers.map
          (fun c => decide ((c.recv).map Prod.fst = some r.1))) = some [false] :=
  ⟨scoreTimes_reachable 7, by decide, by decide, by decide⟩

/-! ## Subscribing and cancelling -/

/-- C16: in every reachable session `subscribe` of a new channel `ch`, run without
interleaving, returns `ch`; the session afterwards has the same participant table and the
same subscribers with the same queues, followed by the one new channel of capacity 8
holding exactly one snapshot, the leaderboard of the participant table; and the first
later mutation leaves the new channel holding that snapshot followed by its own. -/
theorem subscribe_initial (s : Session) (hs : Reachable s) (ch : Nat) (snapAt : Time)
    (hfresh : ∀ c ∈ s.subscribers, c.id ≠ ch) :
    ∃ s1, subscribe s ch snapAt = some (ch, s1) ∧
      s1.participants = s.participants ∧
      s1.subscribers = s.subscribers ++ [⟨ch, 8, [snapshotLocked s snapAt]⟩] ∧
      s1.subscribers.length = s.subscribers.length + 1 ∧
      (snapshotLocked s snapAt).Entries.Perm (s.participants.map (fun kv => entryOf kv.2)) ∧
      Ordered s.participants (snapshotLocked s snapAt).Entries ∧
      ∀ lb s2, Mutates s1 lb s2 →
        s2.subscribers =
          s.subscribers.map (fun c => { c with buf := queueAfter c.buf lb }) ++
            [⟨ch, 8, [snapshotLocked s snapAt, lb]⟩] := by
  have hwf := hs.wf
  have heq := subscribe_eq s ch snapAt
  have hwf1 := subscribe_wf s _ ch snapAt hwf hfresh heq
  refine ⟨_, heq, rfl, rfl, by simp, sortSlice_perm _ _,
    snapshotLocked_ordered s snapAt hwf.1, ?_⟩
  intro lb s2 hm
  obtain ⟨hsubs, -⟩ := mutates_inv _ s2 lb hwf1.2 hm
  rw [hsubs, map_pushed_eq lb _ hwf1.2]
  simp [queueAfter]
  rfl

theorem subscribe_initial_witness :
    Reachable sessionA ∧ (∀ c ∈ sessionA.subscribers, c.id ≠ 7) ∧
      ∃ s1, subscribe sessionA 7 3 = some (7, s1) ∧
        s1.participants = sessionA.participants ∧
        s1.subscribers = sessionA.subscribers ++ [⟨7, 8, [snapshotLocked sessionA 3]⟩] :=
  ⟨sessionA_reachable, by decide,
    by
      obtain ⟨s1, h1, h2, h3, -⟩ :=
        subscribe_initial sessionA sessionA_reachable 7 3 (by decide)
      exact ⟨s1, h1, h2, h3⟩⟩

theorem pushLocked_id (lb : Leaderboard) (c c1 : Chan) (h : pushLocked lb c = some c1) :
    c1.id = c.id := by
  obtain ⟨id, cap, buf⟩ := c
  unfold pushLocked Chan.send at h
  by_cases h1 : buf.length < cap
  · simp only [h1, if_true, Option.some.injEq] at h
    rw [← h]
  · simp only [h1, if_false] at h
    cases buf with
    | nil =>
      simp only [Chan.drainOne] at h
      split at h
      · cases h; rfl
      · cases h
    | cons x rest =>
      simp only [Chan.drainOne] at h
      split at h
      · cases h; rfl
      · cases h

theorem pushAll_ids (lb : Leaderboard) (cs cs1 : List Chan) (h : pushAll lb cs = some cs1) :
    cs1.map Chan.id = cs.map Chan.id := by
  induction cs generalizing cs1 with
  | nil =>
    simp only [pushAll, Option.some.injEq] at h
    rw [← h]
  | cons c rest ih =>
    unfold pushAll at h
    cases hc : pushLocked lb c with
    | none => simp [hc] at h
    | some c1 =>
      cases hr : pushAll lb rest with
      | none => simp [hc, hr] at h
      | some rest1 =>
        simp only [hc, hr, Option.some.injEq] at h
        rw [← h]
        simp [pushLocked_id lb c c1 hc, ih rest1 hr]

theorem broadcastLocked_ids (s s1 : Session) (lb : Leaderboard) (now : Time)
    (h : broadcastLocked s now = some (lb, s1)) :
    s1.subscribers.map Chan.id = s.subscribers.map Chan.id := by
  unfold broadcastLocked at h
  cases hp : pushAll (snapshotLocked s now) s.subscribers with
  | none => simp [hp] at h
  | some subs =>
    simp only [hp, Option.some.injEq, Prod.mk.injEq] at h
    rw [← h.2]
    exact pushAll_ids _ _ _ hp

theorem laterWithout_absent (ch : Nat) (s s2 : Session)
    (h0 : ch ∉ s.subscribers.map Chan.id) (h : LaterWithout ch s s2) :
    ch ∉ s2.subscribers.map Chan.id := by
  induction h with
  | refl => exact h0
  | join now snapAt userID displayName _ hj ih =>
    unfold join at hj
    rw [broadcastLocked_ids _ _ _ _ hj]
    exact ih
  | @applyScore s1 s3 r now snapAt userID correct points _ ha ih =>
    unfold applyScore at ha
    cases hg : mapGet s1.participants userID with
    | none =>
      simp only [hg, Option.some.injEq, Prod.mk.injEq] at ha
      rw [← ha.2]
      exact ih
    | some p =>
      simp only [hg] at ha
      split at ha
      · cases ha
      · rename_i lb s4 hb
        simp only [Option.some.injEq, Prod.mk.injEq] at ha
        rw [← ha.2, broadcastLocked_ids _ _ _ _ hb]
        exact ih
  | leave snapAt userID _ hl ih =>
    unfold leave at hl
    rw [broadcastLocked_ids _ _ _ _ hl]
    exact ih
  | subscribe ch2 snapAt _ hne hsub ih =>
    rw [subscribe_eq] at hsub
    cases hsub
    simp only [List.map_append, List.map_cons, List.map_nil, List.mem_append,
      List.mem_singleton, not_or]
    exact ⟨ih, fun h => hne h.symm⟩
  | cancel ch2 _ ih =>
    intro hmem
    apply ih
    unfold cancel at hmem
    split at hmem
    · obtain ⟨c, hc, hid⟩ := List.mem_map.mp hmem
      exact List.mem_map.mpr ⟨c, List.mem_of_mem_filter hc, hid⟩
    · exact hmem
  | consume ch2 _ ih =>
    intro hmem
    apply ih
    obtain ⟨c, hc, hid⟩ := List.mem_map.mp hmem
    obtain ⟨c0, hc0, hcc⟩ := List.mem_map.mp hc
    refine List.mem_map.mpr ⟨c0, hc0, ?_⟩
    rw [← hid, ← hcc]
    split
    · exact (drainOne_wf c0).1.symm
    · rfl

theorem cancel_of_absent (s : Session) (ch : Nat) (h : ch ∉ s.subscribers.map Chan.id) :
    cancel s ch = (s, false) := by
  unfold cancel
  have : s.subscribers.any (fun c => decide (c.id = ch)) = false := by
    rw [List.any_eq_false]
    intro c hc
    simp only [decide_eq_true_eq]
    intro hid
    exact h (List.mem_map.mpr ⟨c, hc, hid⟩)
  simp [this]

/-- C17: for a channel `ch` registered in the session, the first call of its `cancel`
closes the channel and removes it from the subscriber set, leaving the participant table
and every other subscriber (with its queue) as they were; at every later state of the
session `cancel` changes nothing and does not close again; and `ch` is in the subscriber
set of no later state, so no later broadcast sends on it. -/
theorem cancel_idempotent (s : Session) (ch : Nat)
    (hreg : ∃ c ∈ s.subscribers, c.id = ch) :
    (cancel s ch).2 = true ∧
    (cancel s ch).1.id = s.id ∧ (cancel s ch).1.createdAt = s.createdAt ∧
    (cancel s ch).1.participants = s.participants ∧
    (cancel s ch).1.subscribers = s.subscribers.filter (fun c => c.id ≠ ch) ∧
    (∀ c ∈ s.subscribers, c.id ≠ ch → c ∈ (cancel s ch).1.subscribers) ∧
    (∀ c ∈ (cancel s ch).1.subscribers, c ∈ s.subscribers ∧ c.id ≠ ch) ∧
    (∀ s2, LaterWithout ch (cancel s ch).1 s2 →
      cancel s2 ch = (s2, false) ∧ ∀ c ∈ s2.subscribers, c.id ≠ ch) := by
  obtain ⟨c0, hc0, hid0⟩ := hreg
  have hany : s.subscribers.any (fun c => decide (c.id = ch)) = true :=
    List.any_eq_true.mpr ⟨c0, hc0, by simpa using hid0⟩
  have hc : cancel s ch =
      ({ s with subscribers := s.subscribers.filter (fun c => c.id ≠ ch) }, true) := by
    simp [cancel, hany]
  have habs : ch ∉ (cancel s ch).1.subscribers.map Chan.id := by
    rw [hc]
    simp [List.mem_filter]
  refine ⟨by rw [hc], by rw [hc], by rw [hc], by rw [hc], by rw [hc], ?_, ?_, ?_⟩
  · intro c hmem hne
    rw [hc]
    exact List.mem_filter.mpr ⟨hmem, by simpa using hne⟩
  · intro c hmem
    rw [hc] at hmem
    have := List.mem_filter.mp hmem
    exact ⟨this.1, by simpa using this.2⟩
  · intro s2 hlater
    have h2 := laterWithout_absent ch _ s2 habs hlater
    refine ⟨cancel_of_absent s2 ch h2, ?_⟩
    intro c hmem hid
    exact h2 (List.mem_map.mpr ⟨c, hmem, hid⟩)

theorem cancel_idempotent_witness :
    (∃ c ∈ sessionB.subscribers, c.id = 7) ∧
      cancel sessionB 7 = (cancelledSession, true) ∧
      (cancel sessionB 7).2 = true ∧
      cancel (cancel sessionB 7).1 7 = ((cancel sessionB 7).1, false) :=
  ⟨⟨_, List.mem_cons_self _ _, rfl⟩, by decide,
    (cancel_idempotent sessionB 7 ⟨_, List.mem_cons_self _ _, rfl⟩).1,
    ((cancel_idempotent sessionB 7 ⟨_, List.mem_cons_self _ _, rfl⟩).2.2.2.2.2.2.2
      _ (LaterWithout.refl _)).1⟩

/-! ## The orchestrator: Join and Leave -/

/-- C18: when `GetQuiz` fails with `e` (the loader's error), `Join` returns the zero
leaderboard and `e`, and the store of sessions afterwards is the store before: no session
is created and no session is changed. -/
theorem join_unknown_quiz (loader : QuizLoader) (svc : QuizService) (t : Readings)
    (quizID userID displayName : String) (e : DomainError)
    (h : (loadedQuiz loader svc t quizID).err = some e) :
    loader quizID = .error e ∧
    svc.Join loader t quizID userID displayName =
      some (⟨Leaderboard.zero, some e⟩,
        { svc with
          quizzes := (GetQuiz loader svc.quizzes t.cacheNow t.loadNow t.draw quizID).2 }) ∧
    ∀ r svc1, svc.Join loader t quizID userID displayName = some (r, svc1) →
      r.lb = Leaderboard.zero ∧ r.lb.Entries = [] ∧ r.err = some e ∧
        svc1.sessions = svc.sessions := by
  have hj : svc.Join loader t quizID userID displayName =
      some (⟨Leaderboard.zero, some e⟩,
        { svc with
          quizzes := (GetQuiz loader svc.quizzes t.cacheNow t.loadNow t.draw quizID).2 }) := by
    simp only [loadedQuiz] at h
    simp only [QuizService.Join, h]
  refine ⟨getQuiz_err _ _ _ _ _ _ _ h, hj, ?_⟩
  intro r svc1 hr
  rw [hj] at hr
  cases hr
  exact ⟨rfl, rfl, rfl, rfl⟩

theorem join_unknown_quiz_witness :
    (loadedQuiz (StaticQuizLoader [("quiz-1", sampleQuiz)]) sampleService sampleReadings
        "quiz-9").err = some .ErrQuizNotFound ∧
      sampleService.Join (StaticQuizLoader [("quiz-1", sampleQuiz)]) sampleReadings
          "quiz-9" "u5" "Eve" =
        some (⟨Leaderboard.zero, some .ErrQuizNotFound⟩,
          { sampleService with
            quizzes := (GetQuiz (StaticQuizLoader [("quiz-1", sampleQuiz)])
              sampleService.quizzes sampleReadings.cacheNow sampleReadings.loadNow
              sampleReadings.draw "quiz-9").2 }) :=
  ⟨by decide,
    (join_unknown_quiz (StaticQuizLoader [("quiz-1", sampleQuiz)]) sampleService
      sampleReadings "quiz-9" "u5" "Eve" .ErrQuizNotFound (by decide)).2.1⟩

theorem mapDelete_eq_nil {β : Type} (m : List (String × β)) (k : String)
    (h : ∀ k2, k2 ≠ k → mapGet m k2 = none) : mapDelete m k = [] := by
  unfold mapDelete
  rw [List.filter_eq_nil_iff]
  intro kv hkv
  simp only [ne_eq, decide_not, Bool.not_eq_true', decide_eq_false_iff_not, not_not]
  by_contra hne
  have := (mapGet_eq_none_iff m kv.1).mp (h kv.1 hne)
  exact this (List.mem_map_of_mem Prod.fst hkv)

theorem mapDelete_ne_nil {β : Type} (m : List (String × β)) (k k2 : String) (v : β)
    (hne : k2 ≠ k) (h : mapGet m k2 = some v) : mapDelete m k ≠ [] := by
  intro hnil
  have := mapGet_mapDelete_ne m k k2 hne
  rw [hnil, h] at this
  simp [mapGet] at this

/-- A successful `Join` of a quiz id that has no session returns the one entry of the
joining user, with score 0. -/
theorem join_fresh_session (loader : QuizLoader) (svc : QuizService) (t : Readings)
    (quizID userID displayName : String) (hget : svc.sessions.Get quizID = none)
    (hq : (loadedQuiz loader svc t quizID).err = none) :
    ∃ r svc1, svc.Join loader t quizID userID displayName = some (r, svc1) ∧
      r.err = none ∧ r.lb.Entries = [⟨userID, displayName, 0⟩] := by
  simp only [loadedQuiz] at hq
  simp only [SessionStore.Get] at hget
  have hwf : ChansWF (newSessionWithClock quizID t.createdAt).subscribers :=
    ⟨List.nodup_nil, by simp [newSessionWithClock]⟩
  have hj := join_eq (newSessionWithClock quizID t.createdAt) t.now t.snapAt userID
    displayName hwf
  simp only [QuizService.Join, hq, SessionStore.GetOrCreate, hget, hj]
  exact ⟨_, _, rfl, rfl, rfl⟩

/-- C19: `Leave` over the in-memory store.  (a) With no session for the quiz id the
service is unchanged.  (b) When no participant other than the leaving user is in the
session, the store afterwards has no session for the quiz id, and a later `Join` of that
quiz id that loads the quiz returns the single entry of the joining user with score 0.
(c) When another participant is in the session, the session stays registered, the other
participants are unchanged and the leaving user is gone. -/
theorem leave_registry (svc : QuizService) (t : Readings) (quizID userID : String) :
    (svc.sessions.Get quizID = none → svc.Leave t quizID userID = some svc) ∧
    (∀ session, svc.sessions.Get quizID = some session → ChansWF session.subscribers →
      (∀ k, k ≠ userID → mapGet session.participants k = none) →
      ∃ svc1, svc.Leave t quizID userID = some svc1 ∧
        svc1.sessions.Get quizID = none ∧
        ∀ (loader : QuizLoader) (t2 : Readings) (user2 name2 : String),
          (loadedQuiz loader svc1 t2 quizID).err = none →
          ∃ r svc2, svc1.Join loader t2 quizID user2 name2 = some (r, svc2) ∧
            r.err = none ∧ r.lb.Entries = [⟨user2, name2, 0⟩]) ∧
    (∀ session k p, svc.sessions.Get quizID = some session → ChansWF session.subscribers →
      k ≠ userID → mapGet session.participants k = some p →
      ∃ svc1 session1, svc.Leave t quizID userID = some svc1 ∧
        svc1.sessions.Get quizID = some session1 ∧
        mapGet session1.participants userID = none ∧
        ∀ k2, k2 ≠ userID →
          mapGet session1.participants k2 = mapGet session.participants k2) := by
  refine ⟨?_, ?_, ?_⟩
  · intro hget
    simp only [QuizService.Leave, hget]
  · intro session hget hwf hlast
    have hl := leave_eq session t.snapAt userID hwf
    have hnil := mapDelete_eq_nil session.participants userID hlast
    have hleave : ∃ svc1, svc.Leave t quizID userID = some svc1 ∧
        svc1.sessions.Get quizID = none := by
      simp only [QuizService.Leave, hget, hl, isEmpty, hnil, List.length_nil, decide_True,
        if_true, SessionStore.DeleteIfEmpty, SessionStore.put, mapGet_mapSet_self]
      exact ⟨_, rfl, mapGet_mapDelete_self _ _⟩
    obtain ⟨svc1, h1, h2⟩ := hleave
    refine ⟨svc1, h1, h2, ?_⟩
    intro loader t2 user2 name2 hq
    exact join_fresh_session loader svc1 t2 quizID user2 name2 h2 hq
  · intro session k p hget hwf hne hk
    have hl := leave_eq session t.snapAt userID hwf
    have hnn := mapDelete_ne_nil session.participants userID k p hne hk
    have hlen : ¬ (mapDelete session.participants userID).length = 0 := by
      intro h0
      exact hnn (List.length_eq_zero.mp h0)
    simp only [QuizService.Leave, hget, hl, isEmpty, hlen, decide_False, Bool.false_eq_true,
      if_false, SessionStore.put]
    refine ⟨_, _, rfl, mapGet_mapSet_self _ _ _, mapGet_mapDelete_self _ _, ?_⟩
    intro k2 hk2
    exact mapGet_mapDelete_ne _ _ _ hk2

theorem leave_registry_witness :
    soloService.sessions.Get "quiz-1" =
        some ⟨"quiz-1", 0, [("u1", ⟨"u1", "Alice", 4, 9⟩)], []⟩ ∧
      ∃ svc1, soloService.Leave sampleReadings "quiz-1" "u1" = some svc1 ∧
        svc1.sessions.Get "quiz-1" = none ∧
        ∀ (loader : QuizLoader) (t2 : Readings) (user2 name2 : String),
          (loadedQuiz loader svc1 t2 "quiz-1").err = none →
          ∃ r svc2, svc1.Join loader t2 "quiz-1" user2 name2 = some (r, svc2) ∧
            r.err = none ∧ r.lb.Entries = [⟨user2, name2, 0⟩] :=
  ⟨by decide,
    (leave_registry soloService sampleReadings "quiz-1" "u1").2.1
      ⟨"quiz-1", 0, [("u1", ⟨"u1", "Alice", 4, 9⟩)], []⟩ (by decide)
      ⟨List.nodup_nil, by simp⟩
      (by
        intro k hk
        simp [mapGet, Ne.symm hk])⟩

/-! ## The snapshot and the enumeration order of the map -/

theorem mapGet_perm {β : Type} (m1 m2 : List (String × β)) (hp : m1.Perm m2)
    (hnd : (m1.map Prod.fst).Nodup) (k : String) : mapGet m1 k = mapGet m2 k := by
  have hnd2 : (m2.map Prod.fst).Nodup := (hp.map Prod.fst).nodup_iff.mp hnd
  cases h : mapGet m1 k with
  | none =>
    symm
    rw [mapGet_eq_none_iff] at h ⊢
    intro hk
    exact h ((hp.map Prod.fst).mem_iff.mpr hk)
  | some v =>
    symm
    exact mapGet_of_mem m2 k v hnd2 (hp.mem_iff.mp (mem_of_mapGet m1 k v h))

theorem tableWF_perm (m1 m2 : List (String × Participant)) (hp : m1.Perm m2)
    (h : TableWF m1) : TableWF m2 :=
  ⟨(hp.map Prod.fst).nodup_iff.mp h.1, fun kv hkv => h.2 kv (hp.mem_iff.mpr hkv)⟩

theorem entry_eq_of_not_less (participants : List (String × Participant))
    (hm : TableWF participants) (hnt : NoFullTie participants) (a b : LeaderboardEntry)
    (ha : a ∈ participants.map (fun kv => entryOf kv.2))
    (hb : b ∈ participants.map (fun kv => entryOf kv.2))
    (hab : snapshotLess participants b a = false)
    (hba : snapshotLess participants a b = false) : a = b := by
  have hka := known_of_mem_entries participants hm a ha
  have hkb := known_of_mem_entries participants hm b hb
  rw [← Bool.not_eq_true, snapshotLess_iff_key _ _ _ hkb hka, not_lt] at hab
  rw [← Bool.not_eq_true, snapshotLess_iff_key _ _ _ hka hkb, not_lt] at hba
  have hkey : sortKey participants a = sortKey participants b := le_antisymm hab hba
  obtain ⟨kva, hkva, rfl⟩ := List.mem_map.mp ha
  obtain ⟨kvb, hkvb, rfl⟩ := List.mem_map.mp hb
  have hga : mapGet participants (entryOf kva.2).UserID = some kva.2 := by
    show mapGet participants kva.2.UserID = some kva.2
    rw [hm.2 kva hkva]
    exact mapGet_of_mem participants kva.1 kva.2 hm.1 hkva
  have hgb : mapGet participants (entryOf kvb.2).UserID = some kvb.2 := by
    show mapGet participants kvb.2.UserID = some kvb.2
    rw [hm.2 kvb hkvb]
    exact mapGet_of_mem participants kvb.1 kvb.2 hm.1 hkvb
  simp only [sortKey, tsOf, hga, hgb] at hkey
  have h1 := congrArg (fun x => (ofLex x).1) hkey
  have h2 := congrArg (fun x => (ofLex (ofLex x).2).1) hkey
  have h3 := congrArg (fun x => (ofLex (ofLex x).2).2) hkey
  simp only [ofLex_toLex, neg_inj] at h1 h2 h3
  have hk : kva.1 = kvb.1 := hnt kva hkva kvb hkvb h1 h2 h3
  have hv : kva.2 = kvb.2 := by
    have := mapGet_of_mem participants kva.1 kva.2 hm.1 hkva
    rw [hk, mapGet_of_mem participants kvb.1 kvb.2 hm.1 hkvb] at this
    exact (Option.some.inj this).symm
  rw [hv]

/-- C20, as the code has it: for a participant table in which no two participants tie on
score, timestamp and display name at once, the snapshot is the same whatever order the
map is enumerated in. -/
theorem snapshot_enumeration_independent (s1 s2 : Session) (now : Time)
    (hid : s1.id = s2.id) (hp : s1.participants.Perm s2.participants)
    (hm : TableWF s1.participants) (hnt : NoFullTie s1.participants) :
    snapshotLocked s1 now = snapshotLocked s2 now := by
  have hm2 := tableWF_perm _ _ hp hm
  have hless : snapshotLess s2.participants = snapshotLess s1.participants := by
    funext a b
    simp only [snapshotLess, mapGet_perm _ _ hp hm.1]
  have hknown1 := known_of_mem_entries s1.participants hm
  have hsorted1 := sortSlice_sorted (snapshotLess s1.participants) (Known s1.participants)
    (snapshotLess_strictWeak s1.participants) _ hknown1
  have hknown2 : ∀ e ∈ s2.participants.map (fun kv => entryOf kv.2),
      Known s1.participants e := by
    intro e he
    exact hknown1 e ((hp.map _).mem_iff.mpr he)
  have hsorted2 := sortSlice_sorted (snapshotLess s1.participants) (Known s1.participants)
    (snapshotLess_strictWeak s1.participants) _ hknown2
  have hperm : (sortSlice (snapshotLess s1.participants)
        (s1.participants.map (fun kv => entryOf kv.2))).Perm
      (sortSlice (snapshotLess s1.participants)
        (s2.participants.map (fun kv => entryOf kv.2))) :=
    ((sortSlice_perm _ _).trans (hp.map _)).trans (sortSlice_perm _ _).symm
  have heq := List.Perm.eq_of_sorted
    (fun a b ha hb hab hba => entry_eq_of_not_less s1.participants hm hnt a b
      ((sortSlice_perm _ _).mem_iff.mp ha)
      ((hp.map _).mem_iff.mpr ((sortSlice_perm _ _).mem_iff.mp hb)) hab hba)
    hsorted1 hsorted2 hperm
  simp only [snapshotLocked, hless, hid, heq]

theorem snapshot_enumeration_independent_witness :
    sampleSession.participants.Perm
        [("u2", ⟨"u2", "Bob", 0, 4⟩), ("u1", ⟨"u1", "Alice", 0, 1⟩)] ∧
      snapshotLocked sampleSession 9 =
        snapshotLocked ⟨"quiz-1", 0,
          [("u2", ⟨"u2", "Bob", 0, 4⟩), ("u1", ⟨"u1", "Alice", 0, 1⟩)], []⟩ 9 :=
  ⟨List.Perm.swap _ _ _,
    snapshot_enumeration_independent sampleSession
      ⟨"quiz-1", 0, [("u2", ⟨"u2", "Bob", 0, 4⟩), ("u1", ⟨"u1", "Alice", 0, 1⟩)], []⟩ 9 rfl
      (List.Perm.swap _ _ _) sampleSession_reachable.wf.1
      (by
        intro kv1 h1 kv2 h2 _ ht _
        simp only [sampleSession, List.mem_cons, List.mem_singleton, List.not_mem_nil,
          or_false] at h1 h2
        rcases h1 with rfl | rfl <;> rcases h2 with rfl | rfl <;> simp_all)⟩

/-- C20 fails as stated: `tiedSession` and `tiedSessionSwapped` hold the same participant
map, reachable by two joins at one clock reading, enumerated in two orders; `u1` and `u2`
tie on score, timestamp and display name, and the two snapshots list them in different
orders. -/
theorem snapshot_full_tie_counterexample :
    Reachable tiedSession ∧
      tiedSession.participants.Perm tiedSessionSwapped.participants ∧
      tiedSession.id = tiedSessionSwapped.id ∧
      (snapshotLocked tiedSession 5).Entries = [⟨"u1", "Sam", 0⟩, ⟨"u2", "Sam", 0⟩] ∧
      (snapshotLocked tiedSessionSwapped 5).Entries = [⟨"u2", "Sam", 0⟩, ⟨"u1", "Sam", 0⟩] ∧
      snapshotLocked tiedSession 5 ≠ snapshotLocked tiedSessionSwapped 5 :=
  ⟨Reachable.join 1 3 "u2" "Sam"
      (Reachable.join 1 2 "u1" "Sam" (Reachable.init "quiz-1" 0)
        (show join (newSessionWithClock "quiz-1" 0) 1 2 "u1" "Sam" =
          some (⟨"quiz-1", [⟨"u1", "Sam", 0⟩], 2⟩,
            ⟨"quiz-1", 0, [("u1", ⟨"u1", "Sam", 0, 1⟩)], []⟩) by decide))
      (show join ⟨"quiz-1", 0, [("u1", ⟨"u1", "Sam", 0, 1⟩)], []⟩ 1 3 "u2" "Sam" =
        some (⟨"quiz-1", [⟨"u1", "Sam", 0⟩, ⟨"u2", "Sam", 0⟩], 3⟩, tiedSession) by decide),
    List.Perm.swap _ _ _, rfl, by decide, by decide, by decide⟩

/-! ## The orchestrator: totals and error results -/

theorem broadcastLocked_some (s s1 : Session) (lb : Leaderboard) (now : Time)
    (h : broadcastLocked s now = some (lb, s1)) :
    lb = snapshotLocked s now ∧ s1.participants = s.participants := by
  unfold broadcastLocked at h
  cases hp : pushAll (snapshotLocked s now) s.subscribers with
  | none => simp [hp] at h
  | some subs =>
    simp only [hp, Option.some.injEq, Prod.mk.injEq] at h
    exact ⟨h.1.symm, by rw [← h.2]⟩

theorem applyScore_some (s s1 : Session) (r : ApplyResult) (now snapAt : Time)
    (userID : String) (correct : Bool) (points : Int) (p : Participant)
    (hp : mapGet s.participants userID = some p)
    (h : applyScore s now snapAt userID correct points = some (r, s1)) :
    r.err = none ∧ r.total = scoreAfter p.Score correct points ∧
      r.lb = snapshotLocked
        { s with participants := mapSet s.participants userID (scored p now correct points) }
        snapAt := by
  simp only [applyScore, hp] at h
  split at h
  · cases h
  · rename_i lb s2 hb
    simp only [Option.some.injEq, Prod.mk.injEq] at h
    have := broadcastLocked_some _ _ _ _ hb
    rw [← h.1]
    exact ⟨rfl, rfl, this.1⟩

/-- C23: for a successful `SubmitAnswer` on a quiz whose questions all have a non-negative
point value, when the sum of the participant's score before the call and the points
awarded fits in 64 bits, the returned total is that sum, and the returned leaderboard has
an entry of that user whose score is the returned total. -/
theorem submitAnswer_total (loader : QuizLoader) (svc : QuizService) (t : Readings)
    (quizID userID : String) (submission : AnswerSubmission) (r : SubmitResult)
    (svc1 : QuizService) (session : Session) (p : Participant)
    (h : svc.SubmitAnswer loader t quizID userID submission = some (r, svc1))
    (hok : r.err = none)
    (hget : svc.sessions.Get quizID = some session)
    (hp : mapGet session.participants userID = some p)
    (hwf : TableWF session.participants)
    (hnonneg : ∀ q ∈ (loadedQuiz loader svc t quizID).quiz.Questions, 0 ≤ q.Points)
    (hno : inInt64 (p.Score + r.awarded)) :
    r.total = p.Score + r.awarded ∧
      ∃ e ∈ r.lb.Entries, e.UserID = userID ∧ e.Score = r.total := by
  obtain ⟨hgot, hsc, hc, ha⟩ :=
    submitAnswer_ok_inv loader svc t quizID userID submission r svc1 h hok
  obtain ⟨q, o, hq, ho⟩ := (scoreSubmission_errors _ submission).2.2.1.mp hsc
  have hfound := scoreSubmission_found _ submission q o hq ho
  have hqpos : 0 ≤ q.Points := by
    obtain ⟨before, after, hl, -, -⟩ := hq
    exact hnonneg q (by rw [hl]; simp)
  simp only [loadedQuiz] at hgot hsc hfound ha
  simp only [QuizService.SubmitAnswer, hget, hgot, hsc] at h
  cases hap : applyScore session t.now t.snapAt userID
      (scoreSubmission (GetQuiz loader svc.quizzes t.cacheNow t.loadNow t.draw quizID).1.quiz
        submission).correct
      (scoreSubmission (GetQuiz loader svc.quizzes t.cacheNow t.loadNow t.draw quizID).1.quiz
        submission).points with
  | none => simp [hap] at h
  | some res =>
    obtain ⟨applied, session1⟩ := res
    simp only [hap, Option.some.injEq, Prod.mk.injEq] at h
    obtain ⟨-, htot, hlb⟩ := applyScore_some _ _ _ _ _ _ _ _ p hp hap
    have hrt : r.total = applied.total := by rw [← h.1]
    have hrl : r.lb = applied.lb := by rw [← h.1]
    have hscore : applied.total = p.Score + r.awarded := by
      rw [htot, ha, hfound]
      rw [ha, hfound] at hno
      cases hoc : o.Correct
      · simp [scoreAfter, awardedOf]
      · simp only [hoc, if_true, effectivePoints, awardedOf] at hno ⊢
        by_cases h0 : q.Points = 0
        · simp only [h0, if_true] at hno ⊢
          have hno1 : inInt64 (p.Score + 1) := by simpa using hno
          simp [scoreAfter, add64, wrap64_of_inInt64 _ hno1]
        · have hpos : q.Points > 0 := lt_of_le_of_ne hqpos (Ne.symm h0)
          simp only [h0, if_false, hpos, if_true] at hno ⊢
          simp [scoreAfter, add64, hpos, wrap64_of_inInt64 _ hno]
    refine ⟨by rw [hrt, hscore], ?_⟩
    refine ⟨entryOf (scored p t.now
      (scoreSubmission (GetQuiz loader svc.quizzes t.cacheNow t.loadNow t.draw quizID).1.quiz
        submission).correct
      (scoreSubmission (GetQuiz loader svc.quizzes t.cacheNow t.loadNow t.draw quizID).1.quiz
        submission).points), ?_, ?_, ?_⟩
    · rw [hrl, hlb]
      apply (sortSlice_perm _ _).mem_iff.mpr
      refine List.mem_map.mpr ⟨(userID, _), ?_, rfl⟩
      exact mem_of_mapGet _ _ _ (mapGet_mapSet_self _ _ _)
    · exact userID_of_mapGet _ _ p hwf hp
    · rw [hrt, htot]
      rfl

theorem submitAnswer_total_witness :
    sampleService.SubmitAnswer (StaticQuizLoader [("quiz-1", sampleQuiz)]) sampleReadings
        "quiz-1" "u2" ⟨"q1", "o2"⟩ = some (submittedResult, submittedService) ∧
      mapGet sampleSession.participants "u2" = some ⟨"u2", "Bob", 0, 4⟩ ∧
      submittedResult.total = 0 + submittedResult.awarded ∧
      ∃ e ∈ submittedResult.lb.Entries, e.UserID = "u2" ∧ e.Score = submittedResult.total :=
  ⟨by decide, by decide,
    submitAnswer_total (StaticQuizLoader [("quiz-1", sampleQuiz)]) sampleService
      sampleReadings "quiz-1" "u2" ⟨"q1", "o2"⟩ submittedResult submittedService
      sampleSession ⟨"u2", "Bob", 0, 4⟩ (by decide) rfl (by decide) (by decide)
      sampleSession_reachable.wf.1
      (by
        intro q hq
        have hquiz : (loadedQuiz (StaticQuizLoader [("quiz-1", sampleQuiz)]) sampleService
            sampleReadings "quiz-1").quiz = sampleQuiz := by decide
        rw [hquiz] at hq
        simp only [sampleQuiz, List.mem_singleton] at hq
        rw [hq]
        decide)
      (by unfold inInt64; decide)⟩

/-- C24 at a failing input: only Alice (`u1`) and Bob (`u2`) are in the session of
`sampleService`; `u9` submits the correct option `o2` of `sampleQuiz` (5 points).
`SubmitAnswer` returns `ErrParticipantNotFound` with the zero leaderboard and total 0, but
with `pointsAwarded` 5 and `correct` true. -/
theorem submitAnswer_unknown_participant_results :
    (sampleService.SubmitAnswer (StaticQuizLoader [("quiz-1", sampleQuiz)]) sampleReadings
        "quiz-1" "u9" ⟨"q1", "o2"⟩).map Prod.fst =
      some ⟨Leaderboard.zero, 0, 5, true, some .ErrParticipantNotFound⟩ := by
  decide

/-! ## Subscribe interleaved with a mutation -/

theorem sendOn_append_fresh (cs : List Chan) (c : Chan) (lb : Leaderboard)
    (hfresh : ∀ x ∈ cs, x.id ≠ c.id) :
    sendOn (cs ++ [c]) c.id lb = (c.send lb).map (fun c1 => cs ++ [c1]) := by
  induction cs with
  | nil =>
    simp only [List.nil_append, sendOn, if_true]
    cases c.send lb <;> rfl
  | cons x rest ih =>
    have hx : x.id ≠ c.id := hfresh x (List.mem_cons_self _ _)
    have hr := ih (fun y hy => hfresh y (List.mem_cons_of_mem _ hy))
    show sendOn (x :: (rest ++ [c])) c.id lb = _
    simp only [sendOn, hx, if_false, hr]
    cases c.send lb <;> rfl

/-- Run one after the other, the two steps of `subscribe` are `subscribe`. -/
theorem subscribe_eq_steps (s : Session) (ch : Nat) (snapAt : Time)
    (hfresh : ∀ c ∈ s.subscribers, c.id ≠ ch) :
    subscribe s ch snapAt =
      (subscribeEnqueue (subscribeRegister s ch snapAt).2 ch
        (subscribeRegister s ch snapAt).1).map (fun s1 => (ch, s1)) := by
  have h := sendOn_append_fresh s.subscribers { id := ch, cap := 8, buf := [] }
    (snapshotLocked
      { s with subscribers := s.subscribers ++ [{ id := ch, cap := 8, buf := [] }] } snapAt)
    hfresh
  simp only [subscribeEnqueue, subscribeRegister, h, subscribe]
  simp [Chan.send]

/-- C21 at a failing interleaving: in `sessionA` (Alice only) a subscriber runs the
critical section of `subscribe` for channel 7 and takes the snapshot `[Alice]`; before its
send, Bob's `join` broadcasts the snapshot `[Alice, Bob]` to the registered channel; then
the send of the initial snapshot runs.  The queue of channel 7 holds the join's snapshot
first and the older initial snapshot after it. -/
theorem subscribe_interleaved_out_of_order :
    subscribeRegister sessionA 7 3 =
        (⟨"quiz-1", [⟨"u1", "Alice", 0⟩], 3⟩,
          ⟨"quiz-1", 0, [("u1", ⟨"u1", "Alice", 0, 1⟩)], [⟨7, 8, []⟩]⟩) ∧
      ((join (subscribeRegister sessionA 7 3).2 4 5 "u2" "Bob").bind
          (fun r => subscribeEnqueue r.2 7 (subscribeRegister sessionA 7 3).1)).map
        (fun s => s.subscribers) =
        some [⟨7, 8, [⟨"quiz-1", [⟨"u1", "Alice", 0⟩, ⟨"u2", "Bob", 0⟩], 5⟩,
          ⟨"quiz-1", [⟨"u1", "Alice", 0⟩], 3⟩]⟩] := by
  decide

/-! ## GetQuiz under interleaving -/

theorem step_fast_inv (loader : QuizLoader) (c c1 : Shared) (i : Nat) (now : Time)
    (h : step loader c (.fast i now) = some c1) :
    ∃ quizID, c.calls[i]? = some ⟨quizID, .start⟩ ∧
      ((∃ quiz, cacheHit c.repo now quizID = some quiz ∧
          c1 = c.setPc i quizID (.done ⟨quiz, none⟩)) ∨
        (cacheHit c.repo now quizID = none ∧ c1 = c.setPc i quizID .missed)) := by
  simp only [step] at h
  unfold stepFast at h
  split at h
  · rename_i quizID hc
    refine ⟨quizID, hc, ?_⟩
    split at h
    · rename_i quiz hq
      exact Or.inl ⟨quiz, hq, (Option.some.inj h).symm⟩
    · rename_i hq
      exact Or.inr ⟨hq, (Option.some.inj h).symm⟩
  · cases h

theorem step_enter_inv (loader : QuizLoader) (c c1 : Shared) (i : Nat)
    (h : step loader c (.enter i) = some c1) :
    ∃ quizID, c.calls[i]? = some ⟨quizID, .missed⟩ ∧
      ((mapGet c.inFlight quizID ≠ none ∧ c1 = c.setPc i quizID .waiting) ∨
        (mapGet c.inFlight quizID = none ∧
          c1 = { c with inFlight := mapSet c.inFlight quizID i }.setPc i quizID
            (.leading .recheck))) := by
  simp only [step] at h
  unfold stepEnter at h
  split at h
  · rename_i quizID hc
    refine ⟨quizID, hc, ?_⟩
    split at h
    · rename_i j hq
      exact Or.inl ⟨by rw [hq]; simp, (Option.some.inj h).symm⟩
    · rename_i hq
      exact Or.inr ⟨hq, (Option.some.inj h).symm⟩
  · cases h

theorem step_recheck_inv (loader : QuizLoader) (c c1 : Shared) (i : Nat) (now2 : Time)
    (h : step loader c (.recheck i now2) = some c1) :
    ∃ quizID, c.calls[i]? = some ⟨quizID, .leading .recheck⟩ ∧
      ((∃ quiz, cacheHit c.repo now2 quizID = some quiz ∧
          c1 = c.setPc i quizID (.leading (.ready ⟨quiz, none⟩))) ∨
        (cacheHit c.repo now2 quizID = none ∧
          c1 = { c with
            repo := { c.repo with calls := c.repo.calls + 1 }
            loads := c.loads ++ [quizID] }.setPc i quizID (.leading (.loading now2)))) := by
  simp only [step] at h
  unfold stepRecheck at h
  split at h
  · rename_i quizID hc
    refine ⟨quizID, hc, ?_⟩
    split at h
    · rename_i quiz hq
      exact Or.inl ⟨quiz, hq, (Option.some.inj h).symm⟩
    · rename_i hq
      exact Or.inr ⟨hq, (Option.some.inj h).symm⟩
  · cases h

theorem step_loaded_inv (loader : QuizLoader) (c c1 : Shared) (i : Nat)
    (h : step loader c (.loaded i) = some c1) :
    ∃ quizID now2, c.calls[i]? = some ⟨quizID, .leading (.loading now2)⟩ ∧
      ((∃ err, loader quizID = .error err ∧
          c1 = c.setPc i quizID (.leading (.ready ⟨Quiz.zero, some err⟩))) ∨
        (∃ quiz, loader quizID = .ok quiz ∧
          c1 = c.setPc i quizID (.leading (.writing now2 quiz)))) := by
  simp only [step] at h
  unfold stepLoaded at h
  split at h
  · rename_i quizID now2 hc
    refine ⟨quizID, now2, hc, ?_⟩
    split at h
    · rename_i err hq
      exact Or.inl ⟨err, hq, (Option.some.inj h).symm⟩
    · rename_i quiz hq
      exact Or.inr ⟨quiz, hq, (Option.some.inj h).symm⟩
  · cases h

theorem step_write_inv (loader : QuizLoader) (c c1 : Shared) (i : Nat) (draw : Int)
    (h : step loader c (.write i draw) = some c1) :
    ∃ quizID now2 quiz, c.calls[i]? = some ⟨quizID, .leading (.writing now2 quiz)⟩ ∧
      c1 = { c with
        repo := { c.repo with
          cache := mapSet c.repo.cache quizID
            { quiz := quiz, expiresAt := now2 + ttlWithJitter c.repo.ttl draw } } }.setPc i
        quizID (.leading (.ready ⟨quiz, none⟩)) := by
  simp only [step] at h
  unfold stepWrite at h
  split at h
  · rename_i quizID now2 quiz hc
    exact ⟨quizID, now2, quiz, hc, (Option.some.inj h).symm⟩
  · cases h

theorem step_finish_inv (loader : QuizLoader) (c c1 : Shared) (i : Nat)
    (h : step loader c (.finish i) = some c1) :
    ∃ quizID res, c.calls[i]? = some ⟨quizID, .leading (.ready res)⟩ ∧
      c1 = { c with
        inFlight := mapDelete c.inFlight quizID
        calls := (c.calls.map (wake quizID res)).set i ⟨quizID, .done res⟩ } := by
  simp only [step] at h
  unfold stepFinish at h
  split at h
  · rename_i quizID res hc
    exact ⟨quizID, res, hc, (Option.some.inj h).symm⟩
  · cases h

theorem getElem?_set_of_some {α : Type} (l : List α) (i j : Nat) (a b : α)
    (h : l[i]? = some a) :
    (l.set i b)[j]? = if i = j then some b else l[j]? := by
  obtain ⟨hi, -⟩ := List.getElem?_eq_some.mp h
  rw [List.getElem?_set]
  simp [hi]

/-- The invariant of a change of the call `i` alone, with a new map of the group. -/
theorem leaderInv_update (c : Shared) (repo : QuizRepository) (fl : List (String × Nat))
    (loads : List String) (i : Nat) (quizID : String) (old pc : Pc)
    (hc : c.calls[i]? = some ⟨quizID, old⟩)
    (hnew : pc.isLeading = true → mapGet fl quizID = some i)
    (hrest : ∀ j cl, j ≠ i → c.calls[j]? = some cl → cl.pc.isLeading = true →
      mapGet fl cl.quizID = some j) :
    LeaderInv ⟨repo, fl, loads, c.calls.set i ⟨quizID, pc⟩⟩ := by
  intro j cl hj hlead
  simp only [getElem?_set_of_some c.calls i j _ _ hc] at hj
  by_cases hij : i = j
  · subst hij
    simp only [if_true, Option.some.injEq] at hj
    subst hj
    exact hnew hlead
  · simp only [hij, if_false] at hj
    exact hrest j cl (Ne.symm hij) hj hlead

theorem leaderInv_step (loader : QuizLoader) (c c1 : Shared) (a : Action)
    (hinv : LeaderInv c) (h : step loader c a = some c1) : LeaderInv c1 := by
  cases a with
  | fast i now =>
    obtain ⟨quizID, hc, ⟨quiz, -, rfl⟩ | ⟨-, rfl⟩⟩ := step_fast_inv loader c c1 i now h
    · exact leaderInv_update c _ _ _ i quizID _ (.done ⟨quiz, none⟩) hc
        (fun hl => by simp [Pc.isLeading] at hl) (fun j cl _ hj hl => hinv j cl hj hl)
    · exact leaderInv_update c _ _ _ i quizID _ .missed hc
        (fun hl => by simp [Pc.isLeading] at hl) (fun j cl _ hj hl => hinv j cl hj hl)
  | enter i =>
    obtain ⟨quizID, hc, ⟨-, rfl⟩ | ⟨hnone, rfl⟩⟩ := step_enter_inv loader c c1 i h
    · exact leaderInv_update c _ _ _ i quizID _ .waiting hc
        (fun hl => by simp [Pc.isLeading] at hl) (fun j cl _ hj hl => hinv j cl hj hl)
    · refine leaderInv_update c _ _ _ i quizID _ _ hc
        (fun _ => mapGet_mapSet_self _ _ _) ?_
      intro j cl _ hj hl
      have hold := hinv j cl hj hl
      have hne : cl.quizID ≠ quizID := by
        intro heq
        rw [heq, hnone] at hold
        cases hold
      rw [mapGet_mapSet_ne _ _ _ _ hne]
      exact hold
  | recheck i now2 =>
    have hlead := fun quizID (hc : c.calls[i]? = some ⟨quizID, .leading .recheck⟩) =>
      hinv i _ hc rfl
    obtain ⟨quizID, hc, ⟨quiz, -, rfl⟩ | ⟨-, rfl⟩⟩ := step_recheck_inv loader c c1 i now2 h
    · exact leaderInv_update c _ _ _ i quizID _ _ hc (fun _ => hlead quizID hc)
        (fun j cl _ hj hl => hinv j cl hj hl)
    · exact leaderInv_update c _ _ _ i quizID _ _ hc (fun _ => hlead quizID hc)
        (fun j cl _ hj hl => hinv j cl hj hl)
  | loaded i =>
    obtain ⟨quizID, now2, hc, ⟨err, -, rfl⟩ | ⟨quiz, -, rfl⟩⟩ :=
      step_loaded_inv loader c c1 i h
    · exact leaderInv_update c _ _ _ i quizID _ _ hc (fun _ => hinv i _ hc rfl)
        (fun j cl _ hj hl => hinv j cl hj hl)
    · exact leaderInv_update c _ _ _ i quizID _ _ hc (fun _ => hinv i _ hc rfl)
        (fun j cl _ hj hl => hinv j cl hj hl)
  | write i draw =>
    obtain ⟨quizID, now2, quiz, hc, rfl⟩ := step_write_inv loader c c1 i draw h
    exact leaderInv_update c _ _ _ i quizID _ _ hc (fun _ => hinv i _ hc rfl)
      (fun j cl _ hj hl => hinv j cl hj hl)
  | finish i =>
    obtain ⟨quizID, res, hc, rfl⟩ := step_finish_inv loader c c1 i h
    have hi := hinv i _ hc rfl
    intro j cl hj hlead
    have hcm : (c.calls.map (wake quizID res))[i]? =
        some (wake quizID res ⟨quizID, .leading (.ready res)⟩) := by
      rw [List.getElem?_map, hc]
      rfl
    simp only [getElem?_set_of_some _ i j _ _ hcm] at hj
    by_cases hij : i = j
    · subst hij
      simp only [if_true, Option.some.injEq] at hj
      subst hj
      cases hlead
    · simp only [hij, if_false, List.getElem?_map] at hj
      cases hold : c.calls[j]? with
      | none => simp [hold] at hj
      | some cl0 =>
        simp only [hold, Option.map_some', Option.some.injEq] at hj
        have hsame : cl = cl0 := by
          rw [← hj]
          unfold wake
          split
          · rename_i hw
            rw [← hj] at hlead
            simp [wake, hw, Pc.isLeading] at hlead
          · rfl
        subst hsame
        have hj2 := hinv j cl hold hlead
        have hne : cl.quizID ≠ quizID := by
          intro heq
          rw [heq, hi] at hj2
          exact hij (Option.some.inj hj2)
        show mapGet (mapDelete c.inFlight quizID) cl.quizID = some j
        rw [mapGet_mapDelete_ne _ _ _ hne]
        exact hj2

theorem cacheHit_of_stale (r : QuizRepository) (k : String) (lo now : Time)
    (hs : StaleFor r.cache k lo) (hnow : lo ≤ now) : cacheHit r now k = none := by
  cases hg : mapGet r.cache k with
  | none => exact cacheHit_of_absent r now k hg
  | some e => exact cacheHit_of_expired r now k e hg (le_trans (hs e hg) hnow)

theorem cacheHit_of_freshFor (r : QuizRepository) (k : String) (q : Quiz) (hi now : Time)
    (hf : FreshFor r.cache k q hi) (hnow : now ≤ hi) : cacheHit r now k = some q := by
  obtain ⟨e, hg, hq, hexp⟩ := hf
  rw [cacheHit_of_fresh r now k e hg (lt_of_le_of_lt hnow hexp), hq]

theorem callsOf_update (c : Shared) (repo : QuizRepository) (fl : List (String × Nat))
    (loads : List String) (i : Nat) (quizID : String) (old pc : Pc) (k : String)
    (B : Pc → Prop) (hc : c.calls[i]? = some ⟨quizID, old⟩)
    (hnew : quizID = k → B pc)
    (hrest : ∀ j cl, j ≠ i → c.calls[j]? = some cl → cl.quizID = k → B cl.pc) :
    CallsOf ⟨repo, fl, loads, c.calls.set i ⟨quizID, pc⟩⟩ k B := by
  intro j cl hj hk
  simp only [getElem?_set_of_some c.calls i j _ _ hc] at hj
  by_cases hij : i = j
  · subst hij
    simp only [if_true, Option.some.injEq] at hj
    subst hj
    exact hnew hk
  · simp only [hij, if_false] at hj
    exact hrest j cl (Ne.symm hij) hj hk

theorem not_leading_of_other (c : Shared) (hinv : LeaderInv c) (i j : Nat) (k : String)
    (pc : Pc) (cl : Call) (hc : c.calls[i]? = some ⟨k, pc⟩) (hl : pc.isLeading = true)
    (hij : j ≠ i) (hj : c.calls[j]? = some cl) (hk : cl.quizID = k) :
    cl.pc.isLeading = false := by
  by_contra hne
  have hlead : cl.pc.isLeading = true := by simpa using hne
  have h1 := hinv j cl hj hlead
  have h2 := hinv i _ hc hl
  rw [hk] at h1
  simp only at h2
  rw [h2] at h1
  exact hij (Option.some.inj h1).symm

theorem allowedDuring_of_before (lo : Time) (q : Quiz) (pc : Pc) (h : AllowedBefore pc)
    (hl : pc.isLeading = false) : AllowedDuring lo q pc := by
  cases pc with
  | leading st => simp [Pc.isLeading] at hl
  | start => trivial
  | missed => trivial
  | waiting => trivial
  | done res => exact h.elim

theorem allowedAfter_of_during (lo : Time) (q : Quiz) (pc : Pc) (h : AllowedDuring lo q pc)
    (hl : pc.isLeading = false) : AllowedAfter q pc := by
  cases pc with
  | leading st => simp [Pc.isLeading] at hl
  | start => trivial
  | missed => trivial
  | waiting => trivial
  | done res => exact h.elim

/-- A step that leaves alone the calls, the loads, the cache entry and the flight of `k`
keeps the phase of `k`. -/
theorem phase_frame (k : String) (q : Quiz) (lo hi : Time) (c c1 : Shared)
    (hl : c1.loads.count k = c.loads.count k)
    (hcache : mapGet c1.repo.cache k = mapGet c.repo.cache k)
    (hfl : mapGet c1.inFlight k = mapGet c.inFlight k)
    (hcalls : ∀ (j : Nat) (cl : Call), c1.calls[j]? = some cl → cl.quizID = k →
      c.calls[j]? = some cl)
    (h : Phase k q lo hi c) : Phase k q lo hi c1 := by
  have hco : ∀ A, CallsOf c k A → CallsOf c1 k A :=
    fun A hA j cl hj hk => hA j cl (hcalls j cl hj hk) hk
  rcases h with ⟨h1, h2, h3⟩ | ⟨h1, h2, h3, h4⟩ | ⟨h1, h2, h3⟩
  · exact Or.inl ⟨by rw [hl, h1], by unfold StaleFor; rw [hcache]; exact h2, hco _ h3⟩
  · exact Or.inr (Or.inl ⟨by rw [hl, h1], by unfold StaleFor; rw [hcache]; exact h2,
      by rw [hfl]; exact h3, hco _ h4⟩)
  · exact Or.inr (Or.inr ⟨by rw [hl, h1], by unfold FreshFor; rw [hcache]; exact h2,
      hco _ h3⟩)

/-- After a change of the call `i` alone, whose key is not `k`, a call for `k` is a call
for `k` of before. -/
theorem calls_other_key (calls : List Call) (i : Nat) (quizID k : String) (old pc : Pc)
    (hc : calls[i]? = some ⟨quizID, old⟩) (hne : quizID ≠ k) (j : Nat) (cl : Call)
    (hj : (calls.set i ⟨quizID, pc⟩)[j]? = some cl) (hk : cl.quizID = k) :
    calls[j]? = some cl := by
  simp only [getElem?_set_of_some calls i j _ _ hc] at hj
  by_cases hij : i = j
  · subst hij
    simp only [if_true, Option.some.injEq] at hj
    subst hj
    exact absurd hk hne
  · simpa [hij] using hj

theorem calls_finish (calls : List Call) (i j : Nat) (quizID : String) (res : GetResult)
    (old : Pc) (hc : calls[i]? = some ⟨quizID, old⟩) :
    ((calls.map (wake quizID res)).set i ⟨quizID, .done res⟩)[j]? =
      if i = j then some ⟨quizID, .done res⟩ else (calls[j]?).map (wake quizID res) := by
  have hcm : (calls.map (wake quizID res))[i]? = some (wake quizID res ⟨quizID, old⟩) := by
    rw [List.getElem?_map, hc]
    rfl
  rw [getElem?_set_of_some _ i j _ _ hcm, List.getElem?_map]

theorem wake_quizID (quizID : String) (res : GetResult) (cl : Call) :
    (wake quizID res cl).quizID = cl.quizID := by
  unfold wake
  split <;> rfl

theorem wake_other (quizID : String) (res : GetResult) (cl : Call)
    (h : cl.quizID ≠ quizID) : wake quizID res cl = cl := by
  unfold wake
  rw [if_neg]
  exact fun hh => h hh.1

theorem phase_step_fast (k : String) (q : Quiz) (lo hi : Time) (c c1 : Shared) (i : Nat)
    (now : Time) (loader : QuizLoader) (hp : Phase k q lo hi c)
    (hw : lo ≤ now ∧ now ≤ hi) (h : step loader c (.fast i now) = some c1) :
    Phase k q lo hi c1 := by
  obtain ⟨quizID, hc, hbr⟩ := step_fast_inv loader c c1 i now h
  by_cases hk : quizID = k
  · subst hk
    rcases hp with ⟨h1, h2, h3⟩ | ⟨h1, h2, h3, h4⟩ | ⟨h1, h2, h3⟩
    · rcases hbr with ⟨quiz, hhit, -⟩ | ⟨-, rfl⟩
      · rw [cacheHit_of_stale c.repo quizID lo now h2 hw.1] at hhit
        cases hhit
      · exact Or.inl ⟨h1, h2, callsOf_update c _ _ _ i quizID _ .missed quizID _ hc
          (fun _ => trivial) (fun j cl _ hj hkk => h3 j cl hj hkk)⟩
    · rcases hbr with ⟨quiz, hhit, -⟩ | ⟨-, rfl⟩
      · rw [cacheHit_of_stale c.repo quizID lo now h2 hw.1] at hhit
        cases hhit
      · exact Or.inr (Or.inl ⟨h1, h2, h3,
          callsOf_update c _ _ _ i quizID _ .missed quizID _ hc
            (fun _ => trivial) (fun j cl _ hj hkk => h4 j cl hj hkk)⟩)
    · rcases hbr with ⟨quiz, hhit, rfl⟩ | ⟨hmiss, -⟩
      · rw [cacheHit_of_freshFor c.repo quizID q hi now h2 hw.2] at hhit
        cases hhit
        exact Or.inr (Or.inr ⟨h1, h2,
          callsOf_update c _ _ _ i quizID _ (.done ⟨q, none⟩) quizID _ hc
            (fun _ => rfl) (fun j cl _ hj hkk => h3 j cl hj hkk)⟩)
      · rw [cacheHit_of_freshFor c.repo quizID q hi now h2 hw.2] at hmiss
        cases hmiss
  · rcases hbr with ⟨quiz, -, rfl⟩ | ⟨-, rfl⟩
    · exact phase_frame k q lo hi c _ rfl rfl rfl
        (fun j cl hj hkk => calls_other_key c.calls i quizID k _ _ hc hk j cl hj hkk) hp
    · exact phase_frame k q lo hi c _ rfl rfl rfl
        (fun j cl hj hkk => calls_other_key c.calls i quizID k _ _ hc hk j cl hj hkk) hp

theorem phase_step_enter (k : String) (q : Quiz) (lo hi : Time) (c c1 : Shared) (i : Nat)
    (loader : QuizLoader) (hp : Phase k q lo hi c)
    (h : step loader c (.enter i) = some c1) : Phase k q lo hi c1 := by
  obtain ⟨quizID, hc, hbr⟩ := step_enter_inv loader c c1 i h
  by_cases hk : quizID = k
  · subst hk
    rcases hbr with ⟨-, rfl⟩ | ⟨hnone, rfl⟩
    · rcases hp with ⟨h1, h2, h3⟩ | ⟨h1, h2, h3, h4⟩ | ⟨h1, h2, h3⟩
      · exact Or.inl ⟨h1, h2, callsOf_update c _ _ _ i quizID _ .waiting quizID _ hc
          (fun _ => trivial) (fun j cl _ hj hkk => h3 j cl hj hkk)⟩
      · exact Or.inr (Or.inl ⟨h1, h2, h3,
          callsOf_update c _ _ _ i quizID _ .waiting quizID _ hc
            (fun _ => trivial) (fun j cl _ hj hkk => h4 j cl hj hkk)⟩)
      · exact Or.inr (Or.inr ⟨h1, h2,
          callsOf_update c _ _ _ i quizID _ .waiting quizID _ hc
            (fun _ => trivial) (fun j cl _ hj hkk => h3 j cl hj hkk)⟩)
    · rcases hp with ⟨h1, h2, h3⟩ | ⟨h1, h2, h3, h4⟩ | ⟨h1, h2, h3⟩
      · exact Or.inl ⟨h1, h2,
          callsOf_update c _ _ _ i quizID _ (.leading .recheck) quizID _ hc
            (fun _ => trivial) (fun j cl _ hj hkk => h3 j cl hj hkk)⟩
      · exact absurd hnone h3
      · exact Or.inr (Or.inr ⟨h1, h2,
          callsOf_update c _ _ _ i quizID _ (.leading .recheck) quizID _ hc
            (fun _ => trivial) (fun j cl _ hj hkk => h3 j cl hj hkk)⟩)
  · rcases hbr with ⟨-, rfl⟩ | ⟨-, rfl⟩
    · exact phase_frame k q lo hi c _ rfl rfl rfl
        (fun j cl hj hkk => calls_other_key c.calls i quizID k _ _ hc hk j cl hj hkk) hp
    · exact phase_frame k q lo hi c _ rfl rfl
        (mapGet_mapSet_ne _ _ _ _ (Ne.symm hk))
        (fun j cl hj hkk => calls_other_key c.calls i quizID k _ _ hc hk j cl hj hkk) hp

theorem count_append_singleton (l : List String) (key k : String) :
    (l ++ [key]).count k = l.count k + (if key = k then 1 else 0) := by
  rw [List.count_append]
  by_cases h : key = k
  · subst h
    simp
  · simp [h, List.count_cons]

theorem phase_step_recheck (k : String) (q : Quiz) (lo hi : Time) (c c1 : Shared) (i : Nat)
    (now2 : Time) (loader : QuizLoader) (hinv : LeaderInv c) (hp : Phase k q lo hi c)
    (hw : lo ≤ now2 ∧ now2 ≤ hi) (h : step loader c (.recheck i now2) = some c1) :
    Phase k q lo hi c1 := by
  obtain ⟨quizID, hc, hbr⟩ := step_recheck_inv loader c c1 i now2 h
  by_cases hk : quizID = k
  · subst hk
    rcases hp with ⟨h1, h2, h3⟩ | ⟨h1, h2, h3, h4⟩ | ⟨h1, h2, h3⟩
    · rcases hbr with ⟨quiz, hhit, -⟩ | ⟨-, rfl⟩
      · rw [cacheHit_of_stale c.repo quizID lo now2 h2 hw.1] at hhit
        cases hhit
      · refine Or.inr (Or.inl ⟨?_, h2, ?_, ?_⟩)
        · show (c.loads ++ [quizID]).count quizID = 1
          rw [count_append_singleton, h1]
          simp
        · have := hinv i _ hc rfl
          show mapGet c.inFlight quizID ≠ none
          simp only at this
          rw [this]
          simp
        · refine callsOf_update c _ _ _ i quizID _ (.leading (.loading now2)) quizID _ hc
            (fun _ => hw.1) ?_
          intro j cl hij hj hkk
          exact allowedDuring_of_before lo q cl.pc (h3 j cl hj hkk)
            (not_leading_of_other c hinv i j quizID _ cl hc rfl hij hj hkk)
    · exact (h4 i _ hc rfl).elim
    · rcases hbr with ⟨quiz, hhit, rfl⟩ | ⟨hmiss, -⟩
      · rw [cacheHit_of_freshFor c.repo quizID q hi now2 h2 hw.2] at hhit
        cases hhit
        exact Or.inr (Or.inr ⟨h1, h2,
          callsOf_update c _ _ _ i quizID _ (.leading (.ready ⟨q, none⟩)) quizID _ hc
            (fun _ => rfl) (fun j cl _ hj hkk => h3 j cl hj hkk)⟩)
      · rw [cacheHit_of_freshFor c.repo quizID q hi now2 h2 hw.2] at hmiss
        cases hmiss
  · rcases hbr with ⟨quiz, -, rfl⟩ | ⟨-, rfl⟩
    · exact phase_frame k q lo hi c _ rfl rfl rfl
        (fun j cl hj hkk => calls_other_key c.calls i quizID k _ _ hc hk j cl hj hkk) hp
    · refine phase_frame k q lo hi c _ ?_ rfl rfl
        (fun j cl hj hkk => calls_other_key c.calls i quizID k _ _ hc hk j cl hj hkk) hp
      show (c.loads ++ [quizID]).count k = c.loads.count k
      rw [count_append_singleton]
      simp [hk]

theorem phase_step_loaded (k : String) (q : Quiz) (lo hi : Time) (c c1 : Shared) (i : Nat)
    (loader : QuizLoader) (hl : loader k = .ok q) (hp : Phase k q lo hi c)
    (h : step loader c (.loaded i) = some c1) : Phase k q lo hi c1 := by
  obtain ⟨quizID, now2, hc, hbr⟩ := step_loaded_inv loader c c1 i h
  by_cases hk : quizID = k
  · subst hk
    rcases hp with ⟨h1, h2, h3⟩ | ⟨h1, h2, h3, h4⟩ | ⟨h1, h2, h3⟩
    · exact (h3 i _ hc rfl).elim
    · have hnow : lo ≤ now2 := h4 i _ hc rfl
      rcases hbr with ⟨err, herr, -⟩ | ⟨quiz, hok, rfl⟩
      · rw [hl] at herr
        cases herr
      · rw [hl] at hok
        cases hok
        exact Or.inr (Or.inl ⟨h1, h2, h3,
          callsOf_update c _ _ _ i quizID _ (.leading (.writing now2 q)) quizID _ hc
            (fun _ => ⟨hnow, rfl⟩) (fun j cl _ hj hkk => h4 j cl hj hkk)⟩)
    · exact (h3 i _ hc rfl).elim
  · rcases hbr with ⟨err, -, rfl⟩ | ⟨quiz, -, rfl⟩
    · exact phase_frame k q lo hi c _ rfl rfl rfl
        (fun j cl hj hkk => calls_other_key c.calls i quizID k _ _ hc hk j cl hj hkk) hp
    · exact phase_frame k q lo hi c _ rfl rfl rfl
        (fun j cl hj hkk => calls_other_key c.calls i quizID k _ _ hc hk j cl hj hkk) hp

theorem phase_step_write (k : String) (q : Quiz) (lo hi ttl : Time) (c c1 : Shared)
    (i : Nat) (draw : Int) (loader : QuizLoader) (httl : 0 < ttl)
    (hno : inInt64 (ttl + ttl / 10)) (hhi : hi < lo + ttl) (hinv : LeaderInv c)
    (hr : c.repo.ttl = ttl) (hp : Phase k q lo hi c) (hw : 0 ≤ draw)
    (h : step loader c (.write i draw) = some c1) : Phase k q lo hi c1 := by
  obtain ⟨quizID, now2, quiz, hc, rfl⟩ := step_write_inv loader c c1 i draw h
  by_cases hk : quizID = k
  · subst hk
    rcases hp with ⟨h1, h2, h3⟩ | ⟨h1, h2, h3, h4⟩ | ⟨h1, h2, h3⟩
    · exact (h3 i _ hc rfl).elim
    · obtain ⟨hnow, hq⟩ : lo ≤ now2 ∧ quiz = q := h4 i _ hc rfl
      subst hq
      have hj := (ttlWithJitter_bounds ttl draw httl hw hno).1
      refine Or.inr (Or.inr ⟨h1, ?_, ?_⟩)
      · refine ⟨⟨quiz, now2 + ttlWithJitter c.repo.ttl draw⟩, mapGet_mapSet_self _ _ _,
          rfl, ?_⟩
        show hi < now2 + ttlWithJitter c.repo.ttl draw
        rw [hr]
        have h1 : (lo : Int) ≤ now2 := hnow
        have h2 : (hi : Int) < lo + ttl := hhi
        have h3 : (ttl : Int) ≤ ttlWithJitter ttl draw := hj
        show (hi : Int) < now2 + ttlWithJitter ttl draw
        linarith
      · refine callsOf_update c _ _ _ i quizID _ (.leading (.ready ⟨quiz, none⟩)) quizID _
          hc (fun _ => rfl) ?_
        intro j cl hij hj2 hkk
        exact allowedAfter_of_during lo quiz cl.pc (h4 j cl hj2 hkk)
          (not_leading_of_other c hinv i j quizID _ cl hc rfl hij hj2 hkk)
    · exact (h3 i _ hc rfl).elim
  · exact phase_frame k q lo hi c _ rfl (mapGet_mapSet_ne _ _ _ _ (Ne.symm hk)) rfl
      (fun j cl hj hkk => calls_other_key c.calls i quizID k _ _ hc hk j cl hj hkk) hp

theorem phase_step_finish (k : String) (q : Quiz) (lo hi : Time) (c c1 : Shared) (i : Nat)
    (loader : QuizLoader) (hp : Phase k q lo hi c)
    (h : step loader c (.finish i) = some c1) : Phase k q lo hi c1 := by
  obtain ⟨quizID, res, hc, rfl⟩ := step_finish_inv loader c c1 i h
  by_cases hk : quizID = k
  · subst hk
    rcases hp with ⟨h1, h2, h3⟩ | ⟨h1, h2, h3, h4⟩ | ⟨h1, h2, h3⟩
    · exact (h3 i _ hc rfl).elim
    · exact (h4 i _ hc rfl).elim
    · have hres : res = ⟨q, none⟩ := h3 i _ hc rfl
      refine Or.inr (Or.inr ⟨h1, h2, ?_⟩)
      intro j cl hj hkk
      simp only [calls_finish c.calls i j quizID res _ hc] at hj
      by_cases hij : i = j
      · simp only [hij, if_true, Option.some.injEq] at hj
        rw [← hj]
        exact hres
      · simp only [hij, if_false] at hj
        cases hold : c.calls[j]? with
        | none => simp [hold] at hj
        | some cl0 =>
          simp only [hold, Option.map_some', Option.some.injEq] at hj
          have hk0 : cl0.quizID = quizID := by
            rw [← wake_quizID quizID res cl0, hj]
            exact hkk
          have h0 := h3 j cl0 hold hk0
          rw [← hj]
          unfold wake
          split
          · exact hres
          · exact h0
  · refine phase_frame k q lo hi c _ rfl rfl (mapGet_mapDelete_ne _ _ _ (Ne.symm hk)) ?_ hp
    intro j cl hj hkk
    simp only [calls_finish c.calls i j quizID res _ hc] at hj
    by_cases hij : i = j
    · simp only [hij, if_true, Option.some.injEq] at hj
      rw [← hj] at hkk
      exact absurd hkk hk
    · simp only [hij, if_false] at hj
      cases hold : c.calls[j]? with
      | none => simp [hold] at hj
      | some cl0 =>
        simp only [hold, Option.map_some', Option.some.injEq] at hj
        have hk0 : cl0.quizID = k := by
          rw [← wake_quizID quizID res cl0, hj]
          exact hkk
        have hne : cl0.quizID ≠ quizID := by
          rw [hk0]
          exact Ne.symm hk
        rw [wake_other quizID res cl0 hne] at hj
        rw [hj]

theorem ttl_step (loader : QuizLoader) (c c1 : Shared) (a : Action)
    (h : step loader c a = some c1) : c1.repo.ttl = c.repo.ttl := by
  cases a with
  | fast i now =>
    obtain ⟨quizID, -, ⟨quiz, -, rfl⟩ | ⟨-, rfl⟩⟩ := step_fast_inv loader c c1 i now h <;> rfl
  | enter i =>
    obtain ⟨quizID, -, ⟨-, rfl⟩ | ⟨-, rfl⟩⟩ := step_enter_inv loader c c1 i h <;> rfl
  | recheck i now2 =>
    obtain ⟨quizID, -, ⟨quiz, -, rfl⟩ | ⟨-, rfl⟩⟩ := step_recheck_inv loader c c1 i now2 h <;>
      rfl
  | loaded i =>
    obtain ⟨quizID, now2, -, ⟨err, -, rfl⟩ | ⟨quiz, -, rfl⟩⟩ :=
      step_loaded_inv loader c c1 i h <;> rfl
  | write i draw =>
    obtain ⟨quizID, now2, quiz, -, rfl⟩ := step_write_inv loader c c1 i draw h
    rfl
  | finish i =>
    obtain ⟨quizID, res, -, rfl⟩ := step_finish_inv loader c c1 i h
    rfl

theorem leaderInv_startOf (repo : QuizRepository) (quizIDs : List String) :
    LeaderInv (startOf repo quizIDs) := by
  intro i cl hi hl
  simp only [startOf, List.getElem?_map] at hi
  cases hq : quizIDs[i]? with
  | none => simp [hq] at hi
  | some quizID =>
    simp only [hq, Option.map_some', Option.some.injEq] at hi
    rw [← hi] at hl
    simp [Pc.isLeading] at hl

theorem phase_startOf (repo : QuizRepository) (quizIDs : List String) (k : String)
    (q : Quiz) (lo hi : Time) (hs : StaleFor repo.cache k lo) :
    Phase k q lo hi (startOf repo quizIDs) := by
  refine Or.inl ⟨rfl, hs, ?_⟩
  intro i cl hi _
  simp only [startOf, List.getElem?_map] at hi
  cases hq : quizIDs[i]? with
  | none => simp [hq] at hi
  | some quizID =>
    simp only [hq, Option.map_some', Option.some.injEq] at hi
    rw [← hi]
    trivial

theorem run_leaderInv (loader : QuizLoader) (P : Action → Prop) (c0 c : Shared)
    (h0 : LeaderInv c0) (h : Run loader P c0 c) : LeaderInv c := by
  induction h with
  | refl => exact h0
  | next a _ _ hstep ih => exact leaderInv_step loader _ _ a ih hstep

theorem run_phase (loader : QuizLoader) (k : String) (q : Quiz) (lo hi ttl : Time)
    (c0 c : Shared) (hl : loader k = .ok q) (httl : 0 < ttl)
    (hno : inInt64 (ttl + ttl / 10)) (hhi : hi < lo + ttl) (h0 : LeaderInv c0)
    (hr0 : c0.repo.ttl = ttl) (hp0 : Phase k q lo hi c0)
    (h : Run loader (Within lo hi) c0 c) :
    LeaderInv c ∧ c.repo.ttl = ttl ∧ Phase k q lo hi c := by
  induction h with
  | refl => exact ⟨h0, hr0, hp0⟩
  | next a _ hw hstep ih =>
    obtain ⟨hinv, hr, hp⟩ := ih
    refine ⟨leaderInv_step loader _ _ a hinv hstep, ?_, ?_⟩
    · rw [ttl_step loader _ _ a hstep, hr]
    · cases a with
      | fast i now => exact phase_step_fast k q lo hi _ _ i now loader hp hw hstep
      | enter i => exact phase_step_enter k q lo hi _ _ i loader hp hstep
      | recheck i now2 =>
        exact phase_step_recheck k q lo hi _ _ i now2 loader hinv hp hw hstep
      | loaded i => exact phase_step_loaded k q lo hi _ _ i loader hl hp hstep
      | write i draw =>
        exact phase_step_write k q lo hi ttl _ _ i draw loader httl hno hhi hinv hr hp hw
          hstep
      | finish i => exact phase_step_finish k q lo hi _ _ i loader hp hstep

theorem run_of_runActions (loader : QuizLoader) (P : Action → Prop) (actions : List Action)
    (c0 c1 c : Shared) (h0 : Run loader P c0 c1) (hP : ∀ a ∈ actions, P a)
    (h : runActions loader c1 actions = some c) : Run loader P c0 c := by
  induction actions generalizing c1 with
  | nil =>
    simp only [runActions, Option.some.injEq] at h
    rw [← h]
    exact h0
  | cons a rest ih =>
    unfold runActions at h
    cases hs : step loader c1 a with
    | none => simp [hs] at h
    | some c2 =>
      simp only [hs] at h
      exact ih c2 (Run.next a h0 (hP a (List.mem_cons_self _ _)) hs)
        (fun b hb => hP b (List.mem_cons_of_mem _ hb)) h

/-- C22, as the code has it, for calls of `GetQuiz` interleaved at the steps between their
critical sections.  (a) At any time at most one call per quiz id runs the function passed
to `sf.Do`, and so the loader.  (b) When that call ends, it and every call waiting for its
id return its result.  (c) A call whose id has no call in flight never waits, whatever is
in flight for other ids.  (d) If the loader returns `q` for the id `k`, the ttl is
positive, `ttl + ttl/10` fits in 64 bits, the cache holds no entry for `k` unexpired at
`lo`, and all clock readings of the calls lie between `lo` and `hi < lo + ttl`, then the
loader is invoked at most once for `k` and every call for `k` that has returned has
returned `q` without error. -/
theorem getQuiz_concurrent (loader : QuizLoader) (repo : QuizRepository)
    (quizIDs : List String) :
    (∀ c, Run loader (fun _ => True) (startOf repo quizIDs) c →
      ∀ (i j : Nat) (ci cj : Call), c.calls[i]? = some ci → c.calls[j]? = some cj →
        ci.quizID = cj.quizID → ci.pc.isLeading = true → cj.pc.isLeading = true → i = j) ∧
    (∀ (c : Shared) (i : Nat) (quizID : String) (res : GetResult),
      c.calls[i]? = some ⟨quizID, .leading (.ready res)⟩ →
      ∃ c1, step loader c (.finish i) = some c1 ∧
        c1.calls[i]? = some ⟨quizID, .done res⟩ ∧
        ∀ j, j ≠ i → c.calls[j]? = some ⟨quizID, .waiting⟩ →
          c1.calls[j]? = some ⟨quizID, .done res⟩) ∧
    (∀ (c : Shared) (i : Nat) (quizID : String),
      c.calls[i]? = some ⟨quizID, .missed⟩ → mapGet c.inFlight quizID = none →
      ∃ c1, step loader c (.enter i) = some c1 ∧
        c1.calls[i]? = some ⟨quizID, .leading .recheck⟩) ∧
    (∀ (k : String) (q : Quiz) (lo hi : Time) (c : Shared),
      loader k = .ok q → 0 < repo.ttl → inInt64 (repo.ttl + repo.ttl / 10) →
      hi < lo + repo.ttl → StaleFor repo.cache k lo →
      Run loader (Within lo hi) (startOf repo quizIDs) c →
      c.loads.count k ≤ 1 ∧
        ∀ (j : Nat) (cl : Call) (res : GetResult), c.calls[j]? = some cl → cl.quizID = k →
          cl.pc = .done res → res = ⟨q, none⟩) := by
  refine ⟨?_, ?_, ?_, ?_⟩
  · intro c hrun i j ci cj hi hj hkey hli hlj
    have hinv := run_leaderInv loader _ _ c (leaderInv_startOf repo quizIDs) hrun
    have h1 := hinv i ci hi hli
    have h2 := hinv j cj hj hlj
    rw [hkey, h2] at h1
    exact (Option.some.inj h1).symm
  · intro c i quizID res hc
    refine ⟨⟨c.repo, mapDelete c.inFlight quizID, c.loads,
      (c.calls.map (wake quizID res)).set i ⟨quizID, .done res⟩⟩,
      by simp only [step, stepFinish, hc], ?_, ?_⟩
    · simp only [calls_finish c.calls i i quizID res _ hc, if_true]
    · intro j hij hj
      simp only [calls_finish c.calls i j quizID res _ hc, Ne.symm hij, if_false, hj,
        Option.map_some', wake]
      simp
  · intro c i quizID hc hnone
    refine ⟨⟨c.repo, mapSet c.inFlight quizID i, c.loads,
      c.calls.set i ⟨quizID, .leading .recheck⟩⟩,
      by simp only [step, stepEnter, hc, hnone, Shared.setPc], ?_⟩
    simp only [getElem?_set_of_some c.calls i i _ _ hc, if_true]
  · intro k q lo hi c hl httl hno hhi hs hrun
    obtain ⟨-, -, hp⟩ := run_phase loader k q lo hi repo.ttl _ c hl httl hno hhi
      (leaderInv_startOf repo quizIDs) rfl (phase_startOf repo quizIDs k q lo hi hs) hrun
    rcases hp with ⟨h1, -, h3⟩ | ⟨h1, -, -, h4⟩ | ⟨h1, -, h3⟩
    · refine ⟨by rw [h1]; exact Nat.zero_le _, ?_⟩
      intro j cl res hj hk hd
      have := h3 j cl hj hk
      rw [hd] at this
      exact this.elim
    · refine ⟨by rw [h1], ?_⟩
      intro j cl res hj hk hd
      have := h4 j cl hj hk
      rw [hd] at this
      exact this.elim
    · refine ⟨by rw [h1], ?_⟩
      intro j cl res hj hk hd
      have := h3 j cl hj hk
      rw [hd] at this
      exact this

theorem threeCallsTrace_within : ∀ a ∈ threeCallsTrace, Within 10 20 a := by
  intro a ha
  simp only [threeCallsTrace, List.mem_cons, List.mem_singleton, List.not_mem_nil,
    or_false] at ha
  rcases ha with h | h | h | h | h | h | h | h | h | h | h | h <;> subst h <;>
    simp [Within]

theorem getQuiz_concurrent_witness :
    runActions (StaticQuizLoader [("quiz-1", sampleQuiz)]) threeCalls threeCallsTrace =
        some threeCallsFinal ∧
      threeCallsFinal.loads.count "quiz-1" ≤ 1 :=
  ⟨by decide,
    ((getQuiz_concurrent (StaticQuizLoader [("quiz-1", sampleQuiz)])
      (NewQuizRepository 300000000000) ["quiz-1", "quiz-1", "quiz-1"]).2.2.2
      "quiz-1" sampleQuiz 10 20 threeCallsFinal rfl (by decide)
      (by unfold inInt64; decide) (by decide)
      (by
        intro e he
        simp [NewQuizRepository, mapGet] at he)
      (run_of_runActions _ _ threeCallsTrace _ _ threeCallsFinal (Run.refl _)
        threeCallsTrace_within (by decide))).1⟩

/-- C22 fails as stated: two calls of `GetQuiz` for `quiz-1` against an empty cache and a
loader that does not hold the quiz.  Both calls miss the fast path and are in flight
together; call 0 runs the function of `sf.Do` to its end before call 1 enters `sf.Do`;
call 1 then finds no call in flight and runs the function itself.  The loader is invoked
twice. -/
theorem getQuiz_concurrent_reload_counterexample :
    (runActions (StaticQuizLoader []) twoCalls (twoCallsTrace.take 2)).map
        (fun c => c.calls.map (fun cl => cl.pc)) = some [.missed, .missed] ∧
      (runActions (StaticQuizLoader []) twoCalls twoCallsTrace).map
        (fun c => (c.loads, c.calls.map (fun cl => cl.pc))) =
        some (["quiz-1", "quiz-1"],
          [.done ⟨Quiz.zero, some .ErrQuizNotFound⟩,
            .done ⟨Quiz.zero, some .ErrQuizNotFound⟩]) := by
  decide

/-- A single call whose steps run one after the other does what `GetQuiz` does: the same
results, the same repository afterwards, nothing left in flight. -/
theorem getQuiz_alone (loader : QuizLoader) (repo : QuizRepository) (now now2 : Time)
    (draw : Int) (quizID : String) :
    ∃ actions, (runActions loader (startOf repo [quizID]) actions).map
        (fun c => (c.calls, c.repo, c.inFlight)) =
      some ([⟨quizID, .done (GetQuiz loader repo now now2 draw quizID).1⟩],
        (GetQuiz loader repo now now2 draw quizID).2, []) := by
  cases h1 : cacheHit repo now quizID with
  | some quiz =>
    refine ⟨[.fast 0 now], ?_⟩
    simp [runActions, step, stepFast, startOf, h1, Shared.setPc, GetQuiz]
  | none =>
    cases h2 : cacheHit repo now2 quizID with
    | some quiz =>
      refine ⟨[.fast 0 now, .enter 0, .recheck 0 now2, .finish 0], ?_⟩
      simp [runActions, step, stepFast, stepEnter, stepRecheck, stepFinish, startOf,
        Shared.setPc, h1, h2, mapGet, mapSet, mapDelete, GetQuiz, wake]
    | none =>
      cases h3 : loader quizID with
      | error err =>
        refine ⟨[.fast 0 now, .enter 0, .recheck 0 now2, .loaded 0, .finish 0], ?_⟩
        simp [runActions, step, stepFast, stepEnter, stepRecheck, stepLoaded, stepFinish,
          startOf, Shared.setPc, h1, h2, h3, mapGet, mapSet, mapDelete, GetQuiz, wake]
      | ok quiz =>
        refine ⟨[.fast 0 now, .enter 0, .recheck 0 now2, .loaded 0, .write 0 draw,
          .finish 0], ?_⟩
        simp [runActions, step, stepFast, stepEnter, stepRecheck, stepLoaded, stepWrite,
          stepFinish, startOf, Shared.setPc, h1, h2, h3, mapGet, mapSet, mapDelete, GetQuiz,
          wake]

end ElsaQuiz
